import Mathlib

/-!
# PhaseIPixelNtuplizer: spatial matching and trajectory record building

A shallow embedding of the parts of
`DPGAnalysis/PhaseIPixelNtuplizer/plugins/PhaseIPixelNtuplizer.cc` that decide the
behaviour of the module-coordinate resolver, the spatial matcher, the trajectory-state
reconciliation, the per-track record builder, the vertex association, the counters of the
track records and the part of the per-event entry point that binds the FED errors and the
propagator.

Conventions of the embedding:

* `float`/`double` quantities are idealised as rationals (`ℚ`): NaN and infinities are not
  modelled and the arithmetic operations are exact, except where a result is converted to
  `int`: the digit of a missing hit is computed with every operation rounded to `double`
  (`roundToDouble`), and the conversion `static_cast<int>` is the truncation toward zero when
  that is a value of the 32-bit type `int` and undefined (`none`) otherwise.  The functions of
  libm (`sqrt`, `atan2`, `tan`) are parameters.
* Pointers and iterators into a container are indices into the list that models the container.
  A read through an iterator that is not dereferenceable (one past the end) has no defined
  value; functions that can perform such a read return an `Option` and `none` stands for it.
  An array of counters is the list of its elements, and a write outside the array is `none` in
  the same way.
* The dereference of a null pointer ends the run: the output carries the flag `crashed`, which
  the call that dereferences sets without filling a record, and no call after it logs or fills
  anything.
* Types, constants and services declared outside the file (the header of the plugin, the
  framework classes) are parameters gathered in `Env`, or structures that list the values the
  code observes through their accessors.
-/

namespace PhaseIPixelNtuplizer

/-! ## Data model -/

/-- Point in the local frame of a module (`LocalPoint`). -/
structure LocalPoint where
  x : ℚ
  y : ℚ
  z : ℚ
deriving DecidableEq

/-- Point in the global frame (`GlobalPoint`). -/
structure GlobalPoint where
  x : ℚ
  y : ℚ
  z : ℚ
deriving DecidableEq

/-- Direction or momentum in the local frame (`LocalVector`). -/
structure LocalVector where
  x : ℚ
  y : ℚ
  z : ℚ
deriving DecidableEq

/-- Detector identifier (`DetId`): the raw 32-bit word together with the two values the code
reads through `det()` and `subdetId()`. -/
structure DetId where
  rawId : Nat
  det : Nat
  subdetId : Nat
deriving DecidableEq

/-- Pixel cluster (`SiPixelCluster`), the quantities the ntuplizer reads from it. -/
structure SiPixelCluster where
  charge : Int
  size : Int
  sizeX : Int
  sizeY : Int
  x : ℚ
  y : ℚ
deriving DecidableEq

/-- Clusters of one module (`edmNew::DetSet<SiPixelCluster>`), in iteration order. -/
structure DetSet where
  id : DetId
  data : List SiPixelCluster
deriving DecidableEq

/-- Result of `TrackingRecHit::getType()`: the two enumerators the code compares against, and
every other enumerator. -/
inductive RecHitType where
  | valid
  | missing
  | other
deriving DecidableEq

/-- Pixel hit behind a tracking hit (`SiPixelRecHit`), as far as the code reads it. -/
structure SiPixelRecHit where
  geographicalId : DetId
  cluster : SiPixelCluster
  isOnEdge : Bool
  hasBadPixels : Bool
  spansTwoROCs : Bool
deriving DecidableEq

/-- Hit of a trajectory measurement (`TransientTrackingRecHit`): the values returned by
`geographicalId()`, `getType()`, `isValid()` and `hit()` (`none` is the null pointer). -/
structure TrackingRecHit where
  geographicalId : DetId
  getType : RecHitType
  isValid : Bool
  hit : Option SiPixelRecHit
deriving DecidableEq

/-- Content of a valid trajectory state on a surface. -/
structure TrajectoryStateData where
  globalPosition : GlobalPoint
  localPosition : LocalPoint
  localErrorXX : ℚ
  localErrorYY : ℚ
  momentum : LocalVector
deriving DecidableEq

/-- Trajectory state (`TrajectoryStateOnSurface`): `none` is the invalid state, the one
the default constructor `TrajectoryStateOnSurface()` builds. -/
abbrev TrajectoryStateOnSurface := Option TrajectoryStateData

/-- Validity of a state (`TrajectoryStateOnSurface::isValid`). -/
def TrajectoryStateOnSurface.isValid (s : TrajectoryStateOnSurface) : Bool := s.isSome

/-- Trajectory measurement (`TrajectoryMeasurement`): the three states and the hit returned by
its accessors. -/
structure TrajectoryMeasurement where
  updatedState : TrajectoryStateOnSurface
  forwardPredictedState : TrajectoryStateOnSurface
  backwardPredictedState : TrajectoryStateOnSurface
  recHit : TrackingRecHit
deriving DecidableEq

/-- Trajectory (`Trajectory`): its measurements in trajectory order. -/
structure Trajectory where
  measurements : List TrajectoryMeasurement
deriving DecidableEq

/-- One entry of the trajectory-track association: `key` is the trajectory, `val` stands for
the reference to the track. -/
structure TrajTrackPair where
  key : Trajectory
  val : Nat
deriving DecidableEq

/-- Trajectory-track association of an event (`TrajTrackAssociationCollection`). -/
abbrev TrajTrackAssociationCollection := List TrajTrackPair

/-- Address of a measurement object.  `some (t, i)` is element `i` of the measurement vector of
entry `t` of the association; `none` is an object that lives outside the association (a
measurement returned by the layer extrapolation). -/
abbrev MeasAddr := Option (Nat × Nat)

/-- Module coordinates (`ModuleData`), without the readout-chip part. -/
structure ModuleData where
  det : Int
  layer : Int
  ladder : Int
  module : Int
  sec : Int
  half : Int
  flipped : Int
  shl : Int
  side : Int
  ring : Int
  panel : Int
  disk : Int
  blade : Int
  rawid : Nat
  fedid : Int
  federr : Int
deriving DecidableEq

/-- Readout digit (`PixelDigi`). -/
structure PixelDigi where
  row : Int
  column : Int
  adc : Int
deriving DecidableEq

/-- What an overload of `getRocData` is called with: an identifier with a digit, or a pointer
to a pixel hit (`none` is the null pointer). -/
inductive RocPoint where
  | digi (detId : DetId) (digi : PixelDigi)
  | rechit (rechit : Option SiPixelRecHit)
deriving DecidableEq

/-- Readout-chip part of the module coordinates (`ModuleData`), the fields `getRocData`
writes. -/
structure RocCoordinates where
  channel : Int
  roc : Int
  module_coord : Int
  ladder_coord : Int
  disk_ring_coord : Int
  blade_panel_coord : Int
deriving DecidableEq

/-- Cluster part of a trajectory-measurement record (`traj_.clu`), without the per-pixel
arrays. -/
structure ClusterData where
  edge : Int
  badpix : Int
  tworoc : Int
  charge : ℚ
  size : Int
  sizeX : Int
  sizeY : Int
  x : ℚ
  y : ℚ
  lx : ℚ
  ly : ℚ
  glx : ℚ
  gly : ℚ
  glz : ℚ
deriving DecidableEq

/-- Trajectory-measurement record (`traj_`), the unit a tree stores on `Fill()`.  The
readout-chip parts of `mod` and `mod_on` are the fields `roc` and `roc_on`; they are `none`
when the digit built for a hit that is not valid has no defined value, and for the null
pointer that `getRocData` cannot read.  The three distances to the closest other
measurement are `none` when the scan that computes them dereferences an iterator past the end
of a measurement vector. -/
structure TrajMeasData where
  mod : ModuleData
  mod_on : ModuleData
  roc : Option RocCoordinates
  roc_on : Option RocCoordinates
  clu : ClusterData
  alpha : ℚ
  beta : ℚ
  norm_charge : ℚ
  glx : ℚ
  gly : ℚ
  glz : ℚ
  lx : ℚ
  ly : ℚ
  lz : ℚ
  lx_err : ℚ
  ly_err : ℚ
  validhit : Int
  missing : Int
  dx_cl : ℚ
  dy_cl : ℚ
  d_cl : ℚ
  d_tr : Option ℚ
  dx_tr : Option ℚ
  dy_tr : Option ℚ
  hit_near : Option Bool
  clust_near : Bool
deriving DecidableEq

/-- Accessors of the coordinate helper `coord_`. -/
structure Coordinates where
  quadrant : DetId → Int
  side : DetId → Int
  sector : DetId → Int
  half : DetId → Int
  layer : DetId → Int
  flipped : DetId → Int
  signed_ladder : DetId → Int
  signed_module : DetId → Int
  ladder : DetId → Int
  module : DetId → Int
  ring : DetId → Int
  panel : DetId → Int
  signed_disk : DetId → Int
  signed_blade : DetId → Int
  disk : DetId → Int
  blade : DetId → Int
  fedid : DetId → Int

/-- Accessors of the coordinate helper `coord_` that take a digit or a hit; the overloads for a
digit and for a hit are one function on `RocPoint`. -/
structure RocAccessors where
  channel : RocPoint → Int
  roc : RocPoint → Int
  module_coord : RocPoint → Int
  ladder_coord : RocPoint → Int
  signed_module_coord : RocPoint → Int
  signed_ladder_coord : RocPoint → Int
  disk_ring_coord : RocPoint → Int
  blade_panel_coord : RocPoint → Int
  signed_disk_ring_coord : RocPoint → Int
  signed_shifted_blade_panel_coord : RocPoint → Int

/-- The record `TrackData` of one track, as far as `getTrackData` writes it.  An array of
counters is the list of its elements. -/
structure TrackData where
  i : Int
  quality : Int
  pt : ℚ
  p : ℚ
  eta : ℚ
  theta : ℚ
  phi : ℚ
  fromVtxNtrk : Int
  d0 : ℚ
  dz : ℚ
  pixhit : List Int
  validpixhit : List Int
  fpix : List Int
  bpix : List Int
  validfpix : List Int
  validbpix : List Int
  strip : Int
deriving DecidableEq

/-- Everything the code takes from outside the file: constants of absent headers, members bound
per event and the external numerical services. -/
structure Env where
  /-- The constant `NOVAL_F`. -/
  NOVAL_F : ℚ
  /-- The enumerator `DetId::Tracker`. -/
  Tracker : Nat
  /-- The enumerator `PixelSubdetector::PixelBarrel`. -/
  PixelBarrel : Nat
  /-- The enumerator `PixelSubdetector::PixelEndcap`. -/
  PixelEndcap : Nat
  /-- Value of a `ModuleData` after `init()`. -/
  moduleDataInit : ModuleData
  /-- The function `sqrt`. -/
  sqrt : ℚ → ℚ
  /-- The call operator of `TrajectoryStateCombiner`. -/
  trajStateCombiner : TrajectoryStateOnSurface → TrajectoryStateOnSurface →
    TrajectoryStateOnSurface
  /-- Local position that `pixelClusterParameterEstimator_ -> getParameters` gives for a cluster
  on the detector unit of the identifier. -/
  getParameters : SiPixelCluster → DetId → LocalPoint
  /-- The member `coord_`. -/
  coord_ : Coordinates
  /-- The member `federrors_`, a map from raw identifier to error type. -/
  federrors_ : List (Nat × Int)
  /-- The call `LayerMeasurements::measurements` on the first pixel barrel layer with the
  propagator and the estimator of the event. -/
  layerMeasurements : TrajectoryStateOnSurface → List TrajectoryMeasurement
  /-- The call `toGlobal` of the detector unit of the identifier. -/
  toGlobal : DetId → LocalPoint → GlobalPoint
  /-- Value of `traj_` after `init()`. -/
  trajMeasDataInit : TrajMeasData
  /-- The function `atan2`. -/
  atan2 : ℚ → ℚ → ℚ
  /-- The function `tan`. -/
  tan : ℚ → ℚ
  /-- The member `coord_`, its accessors on a digit or a hit. -/
  rocCoord_ : RocAccessors
  /-- Readout-chip part of a `ModuleData` after `init()`. -/
  rocCoordinatesInit : RocCoordinates
  /-- The enumerator `StripSubdetector::TIB`. -/
  TIB : Nat
  /-- The enumerator `StripSubdetector::TOB`. -/
  TOB : Nat
  /-- The enumerator `StripSubdetector::TID`. -/
  TID : Nat
  /-- The enumerator `StripSubdetector::TEC`. -/
  TEC : Nat
  /-- Value of a `TrackData` after its construction. -/
  trackDataInit : TrackData

/-! ## SpatialMatcher: closest cluster -/

/-- Embeds `PhaseIPixelNtuplizer::clusterPointDistanceSquared`. -/
def clusterPointDistanceSquared (env : Env) (detId : DetId) (cluster : SiPixelCluster)
    (referencePoint : LocalPoint) : ℚ :=
  let clustLocalCoordinates := env.getParameters cluster detId
  let xDist := clustLocalCoordinates.x - referencePoint.x
  let yDist := clustLocalCoordinates.y - referencePoint.y
  let zDist := clustLocalCoordinates.z - referencePoint.z
  xDist * xDist + yDist * yDist + zDist * zDist

/-- The range-for loop of `getClosestClusterOnDetSetToPoint`: `i` is the position of the
cluster the loop is at, the state is `(minDistanceCluster, currentMinValueSquared)`. -/
def closestClusterLoop (env : Env) (detId : DetId) (referencePoint : LocalPoint) :
    List SiPixelCluster → Nat → Nat × ℚ → Nat × ℚ
  | [], _, st => st
  | cluster :: rest, i, (minDistanceCluster, currentMinValueSquared) =>
    let currentDistanceSquared := clusterPointDistanceSquared env detId cluster referencePoint
    if currentDistanceSquared < currentMinValueSquared then
      closestClusterLoop env detId referencePoint rest (i + 1) (i, currentDistanceSquared)
    else
      closestClusterLoop env detId referencePoint rest (i + 1)
        (minDistanceCluster, currentMinValueSquared)

/-- Embeds `PhaseIPixelNtuplizer::getClosestClusterOnDetSetToPoint`.  The returned pointer is
the position of the cluster in the set, `none` is `nullptr`. -/
def getClosestClusterOnDetSetToPoint (env : Env) (clustersOnDet : DetSet)
    (referencePoint : LocalPoint) : Option Nat :=
  match clustersOnDet.data with
  | [] => none
  | first :: _ =>
    let detId := clustersOnDet.id
    let currentMinValueSquared := clusterPointDistanceSquared env detId first referencePoint
    some (closestClusterLoop env detId referencePoint clustersOnDet.data 0
      (0, currentMinValueSquared)).1

/-! ## Trajectory state reconciliation and distances between measurements -/

/-- Embeds `NtuplizerHelpers::getTrajectoryStateOnSurface`. -/
def getTrajectoryStateOnSurface (env : Env) (measurement : TrajectoryMeasurement) :
    TrajectoryStateOnSurface :=
  let forwardPredictedState := measurement.forwardPredictedState
  let backwardPredictedState := measurement.backwardPredictedState
  if forwardPredictedState.isValid && backwardPredictedState.isValid then
    env.trajStateCombiner forwardPredictedState backwardPredictedState
  else if backwardPredictedState.isValid then
    backwardPredictedState
  else if forwardPredictedState.isValid then
    forwardPredictedState
  else
    none

/-- Embeds `NtuplizerHelpers::getLocalXY`. -/
def getLocalXY (env : Env) (measurement : TrajectoryMeasurement) : ℚ × ℚ :=
  match getTrajectoryStateOnSurface env measurement with
  | none => (env.NOVAL_F, env.NOVAL_F)
  | some trajStateOnSurface =>
    (trajStateOnSurface.localPosition.x, trajStateOnSurface.localPosition.y)

/-- Embeds the two-argument `NtuplizerHelpers::trajMeasurementDistanceSquared`. -/
def trajMeasurementDistanceSquared (env : Env) (lhs rhs : TrajectoryMeasurement) : ℚ :=
  let lhsLocalXY := getLocalXY env lhs
  let rhsLocalXY := getLocalXY env rhs
  let dxHit := lhsLocalXY.1 - rhsLocalXY.1
  let dyHit := lhsLocalXY.2 - rhsLocalXY.2
  dxHit * dxHit + dyHit * dyHit

/-- Embeds the overload of `NtuplizerHelpers::trajMeasurementDistanceSquared` with output
parameters; the result is `(distanceSquared, dxSquared, dySquared)`. -/
def trajMeasurementDistanceSquaredOut (env : Env) (lhs rhs : TrajectoryMeasurement) :
    ℚ × ℚ × ℚ :=
  let lhsLocalXY := getLocalXY env lhs
  let rhsLocalXY := getLocalXY env rhs
  let dxHit := lhsLocalXY.1 - rhsLocalXY.1
  let dyHit := lhsLocalXY.2 - rhsLocalXY.2
  let dxSquared := dxHit * dxHit
  let dySquared := dyHit * dyHit
  (dxSquared + dySquared, dxSquared, dySquared)

/-- Embeds `NtuplizerHelpers::trajMeasurementDistance`; the result is `(distance, dx, dy)`. -/
def trajMeasurementDistance (env : Env) (lhs rhs : TrajectoryMeasurement) : ℚ × ℚ × ℚ :=
  let sq := trajMeasurementDistanceSquaredOut env lhs rhs
  let distance := env.sqrt sq.1
  let dx := env.sqrt sq.2.1
  let dy := env.sqrt sq.2.2
  let distance := if dx = env.NOVAL_F ∨ dy = env.NOVAL_F then env.NOVAL_F else distance
  (distance, dx, dy)

/-- Inner loop of `getClosestOtherTrajMeasurementDistanceByLooping` over the measurements of
entry `t` of the association; `i` is the position of the measurement the loop is at.  The state
is the measurement `closestMeasurementIt` points to and
`closestTrajMeasurementDistanceSquared`. -/
def closestOtherMeasurementLoop (env : Env) (measurement : TrajectoryMeasurement)
    (addr : MeasAddr) (t : Nat) :
    List TrajectoryMeasurement → Nat → TrajectoryMeasurement × ℚ → TrajectoryMeasurement × ℚ
  | [], _, st => st
  | otherTrajMeasurement :: rest, i, (closestMeasurement, closestDistanceSquared) =>
    if addr = some (t, i) then
      closestOtherMeasurementLoop env measurement addr t rest (i + 1)
        (closestMeasurement, closestDistanceSquared)
    else
      let distanceSquared := trajMeasurementDistanceSquared env measurement otherTrajMeasurement
      if distanceSquared < closestDistanceSquared then
        closestOtherMeasurementLoop env measurement addr t rest (i + 1)
          (otherTrajMeasurement, distanceSquared)
      else
        closestOtherMeasurementLoop env measurement addr t rest (i + 1)
          (closestMeasurement, closestDistanceSquared)

/-- Outer loop of `getClosestOtherTrajMeasurementDistanceByLooping` over the entries of the
association; `t` is the position of the entry the loop is at. -/
def closestOtherTrackLoop (env : Env) (measurement : TrajectoryMeasurement) (addr : MeasAddr) :
    List TrajTrackPair → Nat → TrajectoryMeasurement × ℚ → TrajectoryMeasurement × ℚ
  | [], _, st => st
  | otherTrackKeypair :: rest, t, st =>
    closestOtherTrackLoop env measurement addr rest (t + 1)
      (closestOtherMeasurementLoop env measurement addr t
        otherTrackKeypair.key.measurements 0 st)

/-- Embeds `NtuplizerHelpers::getClosestOtherTrajMeasurementDistanceByLooping`; `addr` is the
address of `measurement`, the result is `(distance, dx, dy)`.  The result is `none` when the
code dereferences `begin()` of an empty association or an iterator at or past the end of the
first measurement vector. -/
def getClosestOtherTrajMeasurementDistanceByLooping (env : Env)
    (measurement : TrajectoryMeasurement) (addr : MeasAddr)
    (trajTrackCollection : TrajTrackAssociationCollection) : Option (ℚ × ℚ × ℚ) :=
  match trajTrackCollection with
  | [] => none
  | first :: _ =>
    let closestMeasurementIt : Nat := if addr = some (0, 0) then 1 else 0
    match first.key.measurements[closestMeasurementIt]? with
    | none => none
    | some closestMeasurement =>
      let closestTrajMeasurementDistanceSquared :=
        trajMeasurementDistanceSquared env measurement closestMeasurement
      let st := closestOtherTrackLoop env measurement addr trajTrackCollection 0
        (closestMeasurement, closestTrajMeasurementDistanceSquared)
      some (trajMeasurementDistance env measurement st.1)

/-! ## ModuleGeometryResolver -/

/-- Embeds `NtuplizerHelpers::detidIsOnPixel`. -/
def detidIsOnPixel (env : Env) (detid : DetId) : Bool :=
  if detid.det ≠ env.Tracker then false
  else if detid.subdetId = env.PixelBarrel then true
  else if detid.subdetId = env.PixelEndcap then true
  else false

/-- The loop of `NtuplizerHelpers::trajectoryHasPixelHit` over the measurements that are left;
the value is what the function returns. -/
def trajectoryHasPixelHitLoop (env : Env) : List TrajectoryMeasurement → Int
  | [] => 0
  | measurement :: rest =>
    if !measurement.updatedState.isValid then trajectoryHasPixelHitLoop env rest
    else
      let subdetid := measurement.recHit.geographicalId.subdetId
      if subdetid = env.PixelBarrel then 1
      else if subdetid = env.PixelEndcap then 1
      else trajectoryHasPixelHitLoop env rest

/-- Embeds `NtuplizerHelpers::trajectoryHasPixelHit`. -/
def trajectoryHasPixelHit (env : Env) (trajectory : Trajectory) : Int :=
  trajectoryHasPixelHitLoop env trajectory.measurements

/-- Embeds `PhaseIPixelNtuplizer::getModuleData`. -/
def getModuleData (env : Env) (online : Bool) (detId : DetId) : ModuleData :=
  let mod := env.moduleDataInit
  let mod := { mod with
    det := (detId.subdetId : Int) - 1
    shl := env.coord_.quadrant detId
    side := env.coord_.side detId }
  let mod :=
    if detId.subdetId = env.PixelBarrel then
      let mod := { mod with
        sec := env.coord_.sector detId
        half := env.coord_.half detId
        layer := env.coord_.layer detId
        flipped := env.coord_.flipped detId }
      if online then
        { mod with ladder := env.coord_.signed_ladder detId
                   module := env.coord_.signed_module detId }
      else
        { mod with ladder := env.coord_.ladder detId
                   module := env.coord_.module detId }
    else if detId.subdetId = env.PixelEndcap then
      let mod := { mod with
        ring := env.coord_.ring detId
        panel := env.coord_.panel detId
        module := env.coord_.module detId }
      if online then
        { mod with disk := env.coord_.signed_disk detId
                   blade := env.coord_.signed_blade detId }
      else
        { mod with disk := env.coord_.disk detId
                   blade := env.coord_.blade detId }
    else mod
  { mod with
    rawid := detId.rawId
    fedid := env.coord_.fedid detId
    federr := match env.federrors_.lookup detId.rawId with
      | some federr => federr
      | none => 0 }

/-! ## TrajectoryRecordBuilder -/

/-- The two trees `checkAndSaveTrajMeasurementData` is called with. -/
inductive TargetTree where
  | trajTree_
  | nonPropagatedExtraTrajTree_
deriving DecidableEq

/-- A call made while the trajectory measurements of an event are saved. -/
inductive Call where
  | checkAndSaveTrajMeasurementData (measurement : TrajectoryMeasurement) (addr : MeasAddr)
      (targetTree : TargetTree)
  | getLayer1ExtrapolatedHitsFromMeas (trajMeasurement : TrajectoryMeasurement)
deriving DecidableEq

/-- What `getTrajTrackData` writes: the records filled into the two trees, in filling order,
and, as ghost components, the calls made, in calling order, and whether the run has been cut
short by the dereference of a null pointer.  Nothing is called and nothing is filled after the
run has been cut short. -/
structure Output where
  trajTree_ : List TrajMeasData
  nonPropagatedExtraTrajTree_ : List TrajMeasData
  calls : List Call
  crashed : Bool
deriving DecidableEq

/-- The call `targetTree -> Fill()` with the current content of `traj_`. -/
def Fill (targetTree : TargetTree) (traj_ : TrajMeasData) (out : Output) : Output :=
  match targetTree with
  | TargetTree.trajTree_ => { out with trajTree_ := out.trajTree_ ++ [traj_] }
  | TargetTree.nonPropagatedExtraTrajTree_ =>
    { out with nonPropagatedExtraTrajTree_ := out.nonPropagatedExtraTrajTree_ ++ [traj_] }

/-- The power of two with an integer exponent. -/
def pow2 (e : Int) : ℚ :=
  if 0 ≤ e then 2 ^ e.toNat else 1 / 2 ^ (-e).toNat

/-- The integer nearest to a value, the even one of the two when the value is halfway. -/
def roundHalfEven (m : ℚ) : Int :=
  let f := Rat.floor m
  if m - f < 1 / 2 then f
  else if 1 / 2 < m - f then f + 1
  else if f % 2 = 0 then f else f + 1

/-- Counts the binary digits of `n`, with `fuel` steps at most. -/
def bitLengthLoop : Nat → Nat → Nat
  | 0, _ => 0
  | fuel + 1, n => if n = 0 then 0 else bitLengthLoop fuel (n / 2) + 1

/-- The number of binary digits of a natural number. -/
def bitLength (n : Nat) : Nat :=
  bitLengthLoop n n

/-- The binary exponent of a positive value `a`: the integer `e` with `2 ^ e ≤ a < 2 ^ (e + 1)`. -/
def binaryExponent (a : ℚ) : Int :=
  let k : Int := (bitLength a.num.natAbs : Int) - (bitLength a.den : Int)
  if pow2 k ≤ a then k else k - 1

/-- The value of type `double` an arithmetic operation gives for the exact result `x`: the
nearest value with 53 significant binary digits, the one with an even last digit when `x` is
halfway between two of them (the default rounding of IEEE 754 binary64).  The exponent range of
`double` is not modelled: for a finite `float` coordinate every result of the operations
embedded with it is zero or within the range of the normal values of `double`. -/
def roundToDouble (x : ℚ) : ℚ :=
  if x = 0 then 0
  else
    let a := if x < 0 then -x else x
    let e : Int := binaryExponent a - 52
    let r : ℚ := roundHalfEven (a / pow2 e)
    if x < 0 then -(r * pow2 e) else r * pow2 e

/-- Truncation toward zero of an exact value. -/
def truncate (x : ℚ) : Int :=
  if 0 ≤ x then Rat.floor x else -Rat.floor (-x)

/-- The conversion `static_cast<int>` of a value of type `double`: the truncation toward zero
when that is a value of the 32-bit type `int`.  The conversion of any other value is undefined,
which is `none`. -/
def static_cast_int (x : ℚ) : Option Int :=
  if -(2 ^ 31) ≤ truncate x ∧ truncate x < 2 ^ 31 then some (truncate x) else none

/-- The digit `missing_hit` that `checkAndSaveTrajMeasurementData` builds from the predicted
local position of a hit that is not valid.  The operands `0.81`, `1`, `80`, `4`, `52` and the
coordinate are converted to `double` and every operation is rounded to `double`; the digit is
`none` when one of the two conversions to `int` is undefined. -/
def missingHitDigi (localPosition : LocalPoint) : Option PixelDigi :=
  match static_cast_int (roundToDouble
      (roundToDouble (roundToDouble (localPosition.x / roundToDouble (81 / 100)) + 1) * 80)),
    static_cast_int (roundToDouble
      (roundToDouble (roundToDouble (localPosition.y / roundToDouble (81 / 100)) + 4) * 52)) with
  | some row, some col => some ⟨max 0 (min 159 row), max 0 (min 415 col), 0⟩
  | _, _ => none

/-- The assignments the overloads of `PhaseIPixelNtuplizer::getRocData` share; `subdetId` is
the subdetector of the identifier they test. -/
def getRocDataFields (env : Env) (mod : RocCoordinates) (online : Bool) (subdetId : Nat)
    (point : RocPoint) : RocCoordinates :=
  let mod := { mod with
    channel := env.rocCoord_.channel point
    roc := env.rocCoord_.roc point }
  if subdetId = env.PixelBarrel then
    if online then
      { mod with module_coord := env.rocCoord_.signed_module_coord point
                 ladder_coord := env.rocCoord_.signed_ladder_coord point }
    else
      { mod with module_coord := env.rocCoord_.module_coord point
                 ladder_coord := env.rocCoord_.ladder_coord point }
  else if subdetId = env.PixelEndcap then
    if online then
      { mod with disk_ring_coord := env.rocCoord_.signed_disk_ring_coord point
                 blade_panel_coord := env.rocCoord_.signed_shifted_blade_panel_coord point }
    else
      { mod with disk_ring_coord := env.rocCoord_.disk_ring_coord point
                 blade_panel_coord := env.rocCoord_.blade_panel_coord point }
  else mod

/-- Embeds the overloads of `PhaseIPixelNtuplizer::getRocData` for a digit and for a pixel hit.
The overload for a pixel hit dereferences the pointer it is handed without a test; `none`
stands for the dereference of a null pointer, which cuts the run short. -/
def getRocData (env : Env) (mod : RocCoordinates) (online : Bool) (point : RocPoint) :
    Option RocCoordinates :=
  match point with
  | RocPoint.digi detId _ => some (getRocDataFields env mod online detId.subdetId point)
  | RocPoint.rechit none => none
  | RocPoint.rechit (some rechit) =>
    some (getRocDataFields env mod online rechit.geographicalId.subdetId point)

/-- What `checkAndSaveTrajMeasurementData` hands to `getRocData`: the pixel hit when the hit
type is valid, the digit built from the predicted local position otherwise; `none` when that
digit has no defined value. -/
def rocPointOfMeasurement (recHit : TrackingRecHit) (localPosition : LocalPoint) :
    Option RocPoint :=
  if recHit.getType = RecHitType.valid then some (RocPoint.rechit recHit.hit)
  else (missingHitDigi localPosition).map (RocPoint.digi recHit.geographicalId)

/-- The factor of the normalised charge, as a function of the two tangents:
`sqrt(1.0f / (1.0f / pow(tanAlpha, 2) + 1.0f / pow(tanBeta, 2) + 1.0f))`. -/
def chargeCorrection (env : Env) (tanAlpha tanBeta : ℚ) : ℚ :=
  env.sqrt (1 / (1 / tanAlpha ^ 2 + 1 / tanBeta ^ 2 + 1))

/-- The normalised charge `checkAndSaveTrajMeasurementData` writes, as a function of the
cluster charge and the two track angles. -/
def normalizedCharge (env : Env) (charge alpha beta : ℚ) : ℚ :=
  charge * chargeCorrection env (env.tan alpha) (env.tan beta)

/-- The cluster `clust` that `checkAndSaveTrajMeasurementData` selects, together with `traj_`
after the three hit flags of the first branch are written. -/
def selectCluster (env : Env) (recHit : TrackingRecHit) (localPosition : LocalPoint)
    (clusterCollection : Option (List DetSet)) (traj_ : TrajMeasData) :
    TrajMeasData × Option SiPixelCluster :=
  match recHit.isValid, recHit.hit with
  | true, some hit =>
    ({ traj_ with clu := { traj_.clu with
        edge := if hit.isOnEdge then 1 else 0
        badpix := if hit.hasBadPixels then 1 else 0
        tworoc := if hit.spansTwoROCs then 1 else 0 } }, some hit.cluster)
  | _, _ =>
    match clusterCollection with
    | none => (traj_, none)
    | some clusterCollection =>
      match clusterCollection.find? (fun ds => ds.id.rawId = recHit.geographicalId.rawId) with
      | none => (traj_, none)
      | some clustersOnDet =>
        (traj_, (getClosestClusterOnDetSetToPoint env clustersOnDet localPosition).bind
          (fun i => clustersOnDet.data[i]?))

/-- The hit is of type valid and its pointer `hit()` is null: `checkAndSaveTrajMeasurementData`
hands this pointer to `getRocData`, which dereferences it (the case in which `getRocData` has
no result). -/
def dereferencesNullHit (recHit : TrackingRecHit) : Bool :=
  decide (recHit.getType = RecHitType.valid) && recHit.hit.isNone

/-- The content of `traj_` when `checkAndSaveTrajMeasurementData` reaches `Fill()`, for a
measurement that passed the three checks; `trajStateOnSurface` is its combined state. -/
def trajMeasDataAtFill (env : Env) (measurement : TrajectoryMeasurement) (addr : MeasAddr)
    (trajTrackCollection : TrajTrackAssociationCollection)
    (clusterCollection : Option (List DetSet)) (trajStateOnSurface : TrajectoryStateData) :
    TrajMeasData :=
  let traj_ := env.trajMeasDataInit
  let recHit := measurement.recHit
  let detId := recHit.geographicalId
  let globalPosition := trajStateOnSurface.globalPosition
  let localPosition := trajStateOnSurface.localPosition
  let traj_ := { traj_ with
    mod := getModuleData env false detId
    mod_on := getModuleData env true detId
    glx := globalPosition.x
    gly := globalPosition.y
    glz := globalPosition.z
    lx := localPosition.x
    ly := localPosition.y
    lz := localPosition.z
    lx_err := trajStateOnSurface.localErrorXX
    ly_err := trajStateOnSurface.localErrorYY
    validhit := if recHit.getType = RecHitType.valid then 1 else 0
    missing := if recHit.getType = RecHitType.missing then 1 else 0 }
  let trajectoryMomentum := trajStateOnSurface.momentum
  let mag := env.sqrt (trajectoryMomentum.x * trajectoryMomentum.x +
    trajectoryMomentum.y * trajectoryMomentum.y + trajectoryMomentum.z * trajectoryMomentum.z)
  let localTrackDirection : LocalVector :=
    ⟨trajectoryMomentum.x / mag, trajectoryMomentum.y / mag, trajectoryMomentum.z / mag⟩
  let traj_ := { traj_ with
    alpha := env.atan2 localTrackDirection.z localTrackDirection.x
    beta := env.atan2 localTrackDirection.z localTrackDirection.y }
  let traj_ := { traj_ with
    roc := (rocPointOfMeasurement recHit localPosition).bind
      (getRocData env env.rocCoordinatesInit false)
    roc_on := (rocPointOfMeasurement recHit localPosition).bind
      (getRocData env env.rocCoordinatesInit true) }
  let sel := selectCluster env recHit localPosition clusterCollection traj_
  let traj_ := sel.1
  let traj_ :=
    match sel.2 with
    | none => traj_
    | some clust =>
      let clustLocalCoordinates := env.getParameters clust detId
      let clustGlobalCoordinates := env.toGlobal detId clustLocalCoordinates
      let dx_cl := |clustLocalCoordinates.x - traj_.lx|
      let dy_cl := |clustLocalCoordinates.y - traj_.ly|
      { traj_ with
        clu := { traj_.clu with
          charge := (clust.charge : ℚ) / 1000
          size := clust.size
          sizeX := clust.sizeX
          sizeY := clust.sizeY
          x := clust.x
          y := clust.y
          lx := clustLocalCoordinates.x
          ly := clustLocalCoordinates.y
          glx := clustGlobalCoordinates.x
          gly := clustGlobalCoordinates.y
          glz := clustGlobalCoordinates.z }
        norm_charge := normalizedCharge env ((clust.charge : ℚ) / 1000) traj_.alpha traj_.beta
        dx_cl := dx_cl
        dy_cl := dy_cl
        d_cl := env.sqrt (dx_cl * dx_cl + dy_cl * dy_cl) }
  let closest := getClosestOtherTrajMeasurementDistanceByLooping env measurement addr
    trajTrackCollection
  let traj_ := { traj_ with
    d_tr := closest.map (fun (r : ℚ × ℚ × ℚ) => r.1)
    dx_tr := closest.map (fun (r : ℚ × ℚ × ℚ) => r.2.1)
    dy_tr := closest.map (fun (r : ℚ × ℚ × ℚ) => r.2.2) }
  { traj_ with
    hit_near := traj_.d_tr.map (fun d_tr => decide (d_tr < 1 / 2))
    clust_near := decide (traj_.d_cl ≠ env.NOVAL_F ∧ traj_.d_cl < 1 / 20) }

/-- Embeds `PhaseIPixelNtuplizer::checkAndSaveTrajMeasurementData`; `addr` is the address of
`measurement`.  A measurement that passes the three checks and whose hit is of type valid with
a null `hit()` makes the first call of `getRocData` dereference a null pointer: the run is cut
short there, before `Fill()`. -/
def checkAndSaveTrajMeasurementData (env : Env) (measurement : TrajectoryMeasurement)
    (addr : MeasAddr) (trajTrackCollection : TrajTrackAssociationCollection)
    (clusterCollection : Option (List DetSet)) (targetTree : TargetTree) (out : Output) :
    Output :=
  if out.crashed then out
  else
    let out := { out with
      calls := out.calls ++ [Call.checkAndSaveTrajMeasurementData measurement addr targetTree] }
    if !measurement.updatedState.isValid then out
    else
      let recHit := measurement.recHit
      let detId := recHit.geographicalId
      if !detidIsOnPixel env detId then out
      else
        match getTrajectoryStateOnSurface env measurement with
        | none => out
        | some trajStateOnSurface =>
          if dereferencesNullHit recHit then { out with crashed := true }
          else
            Fill targetTree
              (trajMeasDataAtFill env measurement addr trajTrackCollection clusterCollection
                trajStateOnSurface) out

/-- Embeds `PhaseIPixelNtuplizer::getLayer1ExtrapolatedHitsFromMeas`. -/
def getLayer1ExtrapolatedHitsFromMeas (env : Env) (trajMeasurement : TrajectoryMeasurement)
    (out : Output) : List TrajectoryMeasurement × Output :=
  (env.layerMeasurements trajMeasurement.updatedState,
    { out with calls := out.calls ++ [Call.getLayer1ExtrapolatedHitsFromMeas trajMeasurement] })

/-- The algorithm `std::find_if` on a vector: the position of the first element that satisfies
the predicate, the length of the vector (the end iterator) when there is none. -/
def find_if {α : Type} (pred : α → Bool) : List α → Nat
  | [] => 0
  | a :: rest => if pred a then 0 else find_if pred rest + 1

/-- The predicate `getTrajTrackData` hands to `std::find_if`: the measurement is on layer 1 of
the barrel. -/
def isLayer1Measurement (env : Env) (measurement : TrajectoryMeasurement) : Bool :=
  let mod := getModuleData env true measurement.recHit.geographicalId
  mod.det == 0 && mod.layer == 1

/-- A loop of `getTrajTrackData` that saves the measurements of entry `t` of the association
from position `lo` up to, not including, position `hi`. -/
def saveMeasurementRange (env : Env) (trajTrackCollection : TrajTrackAssociationCollection)
    (clusterCollection : Option (List DetSet)) (targetTree : TargetTree) (t : Nat)
    (trajectoryMeasurements : List TrajectoryMeasurement) (lo hi : Nat) (out : Output) :
    Output :=
  (List.range' lo (hi - lo)).foldl
    (fun out i =>
      match trajectoryMeasurements[i]? with
      | none => out
      | some measurement =>
        checkAndSaveTrajMeasurementData env measurement (some (t, i)) trajTrackCollection
          clusterCollection targetTree out)
    out

/-- The loop of `getTrajTrackData` that saves the propagated hits. -/
def saveExtrapolatedHits (env : Env) (trajTrackCollection : TrajTrackAssociationCollection)
    (clusterCollection : Option (List DetSet))
    (extrapolatedHitsOnLayer1 : List TrajectoryMeasurement) (out : Output) : Output :=
  extrapolatedHitsOnLayer1.foldl
    (fun out measurement =>
      checkAndSaveTrajMeasurementData env measurement none trajTrackCollection
        clusterCollection TargetTree.trajTree_ out)
    out

/-- Body of the loop of `PhaseIPixelNtuplizer::getTrajTrackData` for entry `t` of the
association. -/
def getTrajTrackDataLoopBody (env : Env) (trajTrackCollection : TrajTrackAssociationCollection)
    (clusterCollection : Option (List DetSet)) (t : Nat) (currentTrackKeypair : TrajTrackPair)
    (out : Output) : Output :=
  let traj := currentTrackKeypair.key
  if trajectoryHasPixelHit env traj = 0 then out
  else
    let trajectoryMeasurements := traj.measurements
    let firstLayer1TrajMeasurementIt := find_if (isLayer1Measurement env) trajectoryMeasurements
    let out := saveMeasurementRange env trajTrackCollection clusterCollection
      TargetTree.trajTree_ t trajectoryMeasurements 0 firstLayer1TrajMeasurementIt out
    let out := saveMeasurementRange env trajTrackCollection clusterCollection
      TargetTree.nonPropagatedExtraTrajTree_ t trajectoryMeasurements
      firstLayer1TrajMeasurementIt trajectoryMeasurements.length out
    if out.crashed then out
    else if firstLayer1TrajMeasurementIt = 0 then out
    else
      let lastNonLayer1TrajMeasurementIt := firstLayer1TrajMeasurementIt - 1
      match trajectoryMeasurements[lastNonLayer1TrajMeasurementIt]? with
      | none => out
      | some lastNonLayer1TrajMeasurement =>
        if !lastNonLayer1TrajMeasurement.recHit.isValid then out
        else
          let r := getLayer1ExtrapolatedHitsFromMeas env lastNonLayer1TrajMeasurement out
          saveExtrapolatedHits env trajTrackCollection clusterCollection r.1 r.2

/-- The loop of `getTrajTrackData` over the entries of the association that are left; `t` is
the position of the first of them. -/
def getTrajTrackDataLoop (env : Env) (trajTrackCollection : TrajTrackAssociationCollection)
    (clusterCollection : Option (List DetSet)) :
    List TrajTrackPair → Nat → Output → Output
  | [], _, out => out
  | currentTrackKeypair :: rest, t, out =>
    getTrajTrackDataLoop env trajTrackCollection clusterCollection rest (t + 1)
      (getTrajTrackDataLoopBody env trajTrackCollection clusterCollection t
        currentTrackKeypair out)

/-- Embeds `PhaseIPixelNtuplizer::getTrajTrackData`, as far as the two trajectory-measurement
trees are concerned. -/
def getTrajTrackData (env : Env) (trajTrackCollection : TrajTrackAssociationCollection)
    (clusterCollection : Option (List DetSet)) (out : Output) : Output :=
  getTrajTrackDataLoop env trajTrackCollection clusterCollection trajTrackCollection 0 out

/-- Body of the loop of `PhaseIPixelNtuplizer::getTrajTrackData_Cosmics` for entry `t` of the
association. -/
def getTrajTrackData_CosmicsLoopBody (env : Env)
    (trajTrackCollection : TrajTrackAssociationCollection)
    (clusterCollection : Option (List DetSet)) (t : Nat) (currentTrackKeypair : TrajTrackPair)
    (out : Output) : Output :=
  let traj := currentTrackKeypair.key
  if trajectoryHasPixelHit env traj = 0 then out
  else
    let trajectoryMeasurements := traj.measurements
    saveMeasurementRange env trajTrackCollection clusterCollection TargetTree.trajTree_ t
      trajectoryMeasurements 0 trajectoryMeasurements.length out

/-- The loop of `getTrajTrackData_Cosmics` over the entries of the association that are left;
`t` is the position of the first of them. -/
def getTrajTrackData_CosmicsLoop (env : Env)
    (trajTrackCollection : TrajTrackAssociationCollection)
    (clusterCollection : Option (List DetSet)) :
    List TrajTrackPair → Nat → Output → Output
  | [], _, out => out
  | currentTrackKeypair :: rest, t, out =>
    getTrajTrackData_CosmicsLoop env trajTrackCollection clusterCollection rest (t + 1)
      (getTrajTrackData_CosmicsLoopBody env trajTrackCollection clusterCollection t
        currentTrackKeypair out)

/-- Embeds `PhaseIPixelNtuplizer::getTrajTrackData_Cosmics`, as far as the two
trajectory-measurement trees are concerned. -/
def getTrajTrackData_Cosmics (env : Env) (trajTrackCollection : TrajTrackAssociationCollection)
    (clusterCollection : Option (List DetSet)) (out : Output) : Output :=
  getTrajTrackData_CosmicsLoop env trajTrackCollection clusterCollection trajTrackCollection 0
    out

/-! ## FED errors and the per-event entry point -/

/-- Raw-data error (`SiPixelRawDataError`), the value of `getType()`. -/
structure SiPixelRawDataError where
  getType : Int
deriving DecidableEq

/-- Errors of one raw identifier (`edm::DetSet<SiPixelRawDataError>`), in iteration order. -/
structure RawDataErrorDetSet where
  detId : Nat
  data : List SiPixelRawDataError
deriving DecidableEq

/-- The call `std::map::insert` on a map from raw identifier to error type, the map being a
list of entries with distinct keys: an entry whose key is present is not inserted. -/
def mapInsert (federrors : List (Nat × Int)) (key : Nat) (value : Int) : List (Nat × Int) :=
  match federrors.lookup key with
  | some _ => federrors
  | none => federrors ++ [(key, value)]

/-- Inner loop of `getFedErrors` over the errors of one set. -/
def getFedErrorsErrorLoop (detId : Nat) :
    List SiPixelRawDataError → List (Nat × Int) → List (Nat × Int)
  | [], federrors => federrors
  | pixel_error :: rest, federrors =>
    if detId ≠ 0xffffffff then
      getFedErrorsErrorLoop detId rest (mapInsert federrors detId pixel_error.getType)
    else
      getFedErrorsErrorLoop detId rest federrors

/-- Outer loop of `getFedErrors` over the sets of the collection. -/
def getFedErrorsSetLoop : List RawDataErrorDetSet → List (Nat × Int) → List (Nat × Int)
  | [], federrors => federrors
  | pixel_error_set :: rest, federrors =>
    getFedErrorsSetLoop rest
      (getFedErrorsErrorLoop pixel_error_set.detId pixel_error_set.data federrors)

/-- Embeds `NtuplizerHelpers::getFedErrors`; the argument is the raw-error collection of the
event, `none` when the handle is not valid. -/
def getFedErrors (siPixelRawDataErrorCollection : Option (List RawDataErrorDetSet)) :
    List (Nat × Int) :=
  match siPixelRawDataErrorCollection with
  | none => []
  | some collection => getFedErrorsSetLoop collection []

/-- Direction of a propagation (`PropagationDirection`). -/
inductive PropagationDirection where
  | oppositeToMomentum
  | alongMomentum
  | anyDirection
deriving DecidableEq

/-- Propagator (`Propagator`): its direction and the rest of its configuration. -/
structure Propagator where
  propagationDirection : PropagationDirection
  configuration : Nat
deriving DecidableEq

/-- The call `Propagator::clone`. -/
def Propagator.clone (propagator : Propagator) : Propagator := propagator

/-- The call `Propagator::setPropagationDirection`. -/
def Propagator.setPropagationDirection (propagator : Propagator)
    (dir : PropagationDirection) : Propagator :=
  { propagator with propagationDirection := dir }

/-- Detector layer (`DetLayer`), by its number. -/
abbrev DetLayer := Nat

/-- What `analyze` reads from the event and the event setup for the trajectory measurements:
the raw-error collection, the cluster collection, the trajectory-track association, the product
`PropagatorWithMaterial`, the pixel barrel layers of the geometric search tracker (a vector
with a first element) and the call `LayerMeasurements::measurements` with the estimator of
the event. -/
structure EventInputs where
  siPixelRawDataErrorCollection : Option (List RawDataErrorDetSet)
  clusterCollection : Option (List DetSet)
  trajTrackCollection : TrajTrackAssociationCollection
  propagator : Propagator
  pixelBarrelLayers : DetLayer × List DetLayer
  measurements : DetLayer → TrajectoryStateOnSurface → Propagator →
    List TrajectoryMeasurement

/-- The member `trackerPropagator_` after `analyze` has bound it: the clone of the product with
the direction set. -/
def analyzeTrackerPropagator (ev : EventInputs) : Propagator :=
  (ev.propagator.clone).setPropagationDirection PropagationDirection.oppositeToMomentum

/-- The members `analyze` binds before it processes the tracks: the FED errors, and the layer
extrapolation of `getLayer1ExtrapolatedHitsFromMeas`, which is the call
`LayerMeasurements::measurements` on `pixelBarrelLayers().front()` with `trackerPropagator_`. -/
def analyzeMembers (env : Env) (ev : EventInputs) : Env :=
  { env with
    federrors_ := getFedErrors ev.siPixelRawDataErrorCollection
    layerMeasurements := fun startingState =>
      ev.measurements ev.pixelBarrelLayers.1 startingState (analyzeTrackerPropagator ev) }

/-- Embeds `PhaseIPixelNtuplizer::analyze`, as far as the two trajectory-measurement trees are
concerned; `isCocsmicTracking_` is the configuration flag of the same name. -/
def analyze (env : Env) (isCocsmicTracking_ : Bool) (ev : EventInputs) (out : Output) :
    Output :=
  let env := analyzeMembers env ev
  if isCocsmicTracking_ then
    getTrajTrackData_Cosmics env ev.trajTrackCollection ev.clusterCollection out
  else
    getTrajTrackData env ev.trajTrackCollection ev.clusterCollection out

/-- The record `checkAndSaveTrajMeasurementData` fills for a measurement: `none` when one of
its three checks returns early, the content of `traj_` at `Fill()` otherwise.  A call that is
cut short by a null `hit()` does not reach `Fill()`: no call fills the record of such a
measurement. -/
def trajMeasRecord (env : Env) (measurement : TrajectoryMeasurement) (addr : MeasAddr)
    (trajTrackCollection : TrajTrackAssociationCollection)
    (clusterCollection : Option (List DetSet)) : Option TrajMeasData :=
  if measurement.updatedState.isValid && detidIsOnPixel env measurement.recHit.geographicalId
  then
    (getTrajectoryStateOnSurface env measurement).map
      (trajMeasDataAtFill env measurement addr trajTrackCollection clusterCollection)
  else none

/-- The records of one of the two trees. -/
def Output.tree (out : Output) : TargetTree → List TrajMeasData
  | TargetTree.trajTree_ => out.trajTree_
  | TargetTree.nonPropagatedExtraTrajTree_ => out.nonPropagatedExtraTrajTree_

/-- The output before any call. -/
def Output.empty : Output := ⟨[], [], [], false⟩

/-- The calls of the extrapolation among a list of calls, in order. -/
def extrapolationCalls (calls : List Call) : List TrajectoryMeasurement :=
  calls.filterMap (fun c =>
    match c with
    | Call.getLayer1ExtrapolatedHitsFromMeas m => some m
    | Call.checkAndSaveTrajMeasurementData _ _ _ => none)

/-! ## Concrete inputs -/

/-- A coordinate helper that reads the layer from bits 20 to 23 of the raw identifier and gives
0 for every other coordinate. -/
def demoCoordinates : Coordinates where
  quadrant := fun _ => 0
  side := fun _ => 0
  sector := fun _ => 0
  half := fun _ => 0
  layer := fun d => ((d.rawId / 2 ^ 20 % 16 : Nat) : Int)
  flipped := fun _ => 0
  signed_ladder := fun _ => 0
  signed_module := fun _ => 0
  ladder := fun _ => 0
  module := fun _ => 0
  ring := fun _ => 0
  panel := fun _ => 0
  signed_disk := fun _ => 0
  signed_blade := fun _ => 0
  disk := fun _ => 0
  blade := fun _ => 0
  fedid := fun _ => 0

/-- Row and column of the digit a `RocPoint` stands for, (0, 0) for a hit. -/
def demoRocPointRowColumn : RocPoint → Int × Int
  | RocPoint.digi _ digi => (digi.row, digi.column)
  | RocPoint.rechit _ => (0, 0)

/-- Accessors that read the readout chip from the row and the column of the digit: chips of 80
rows and 52 columns, every other coordinate 0. -/
def demoRocAccessors : RocAccessors where
  channel := fun _ => 0
  roc := fun p => (demoRocPointRowColumn p).1 / 80 * 8 + (demoRocPointRowColumn p).2 / 52
  module_coord := fun _ => 0
  ladder_coord := fun _ => 0
  signed_module_coord := fun _ => 0
  signed_ladder_coord := fun _ => 0
  disk_ring_coord := fun _ => 0
  blade_panel_coord := fun _ => 0
  signed_disk_ring_coord := fun _ => 0
  signed_shifted_blade_panel_coord := fun _ => 0

/-- Module coordinates with every field at -9999. -/
def demoModuleData : ModuleData :=
  ⟨-9999, -9999, -9999, -9999, -9999, -9999, -9999, -9999, -9999, -9999, -9999, -9999, -9999,
    0, -9999, -9999⟩

/-- A record with every field at -9999. -/
def demoTrajMeasData : TrajMeasData where
  mod := demoModuleData
  mod_on := demoModuleData
  roc := some ⟨-9999, -9999, -9999, -9999, -9999, -9999⟩
  roc_on := some ⟨-9999, -9999, -9999, -9999, -9999, -9999⟩
  alpha := -9999
  beta := -9999
  norm_charge := -9999
  clu := ⟨-9999, -9999, -9999, -9999, -9999, -9999, -9999, -9999, -9999, -9999, -9999, -9999,
    -9999, -9999⟩
  glx := -9999
  gly := -9999
  glz := -9999
  lx := -9999
  ly := -9999
  lz := -9999
  lx_err := -9999
  ly_err := -9999
  validhit := -9999
  missing := -9999
  dx_cl := -9999
  dy_cl := -9999
  d_cl := -9999
  d_tr := some (-9999)
  dx_tr := some (-9999)
  dy_tr := some (-9999)
  hit_near := some false
  clust_near := false

/-- State at a local position, with the global position equal to the local one. -/
def demoState (x y : ℚ) : TrajectoryStateOnSurface :=
  some ⟨⟨x, y, 0⟩, ⟨x, y, 0⟩, 1, 1, ⟨0, 0, 1⟩⟩

/-- A track record with the sentinel -9999 in every field and in every counter. -/
def demoTrackData : TrackData :=
  ⟨-9999, -9999, -9999, -9999, -9999, -9999, -9999, -9999, -9999, -9999, [-9999, -9999],
    [-9999, -9999], [-9999, -9999, -9999], [-9999, -9999, -9999, -9999],
    [-9999, -9999, -9999], [-9999, -9999, -9999, -9999], -9999⟩

/-- An environment for concrete runs: sentinel -9999, tracker 1, barrel 1, endcap 2, a
combiner that keeps the forward state, a position estimator that reads the cluster
coordinates, the integer square root of the integer part as the square root, a layer
extrapolation that finds nothing, and stand-ins for the angle functions (the ratio of its
arguments for `atan2`, the identity for `tan`). -/
def demoEnv : Env where
  NOVAL_F := -9999
  Tracker := 1
  PixelBarrel := 1
  PixelEndcap := 2
  moduleDataInit := demoModuleData
  sqrt := fun q => (Nat.sqrt q.floor.toNat : ℚ)
  trajStateCombiner := fun forwardPredictedState _ => forwardPredictedState
  getParameters := fun cluster _ => ⟨cluster.x, cluster.y, 0⟩
  coord_ := demoCoordinates
  federrors_ := []
  layerMeasurements := fun _ => []
  toGlobal := fun _ p => ⟨p.x, p.y, p.z⟩
  trajMeasDataInit := demoTrajMeasData
  atan2 := fun y x => if x = 0 then 0 else y / x
  tan := fun a => a
  rocCoord_ := demoRocAccessors
  rocCoordinatesInit := ⟨-9999, -9999, -9999, -9999, -9999, -9999⟩
  TIB := 3
  TOB := 5
  TID := 4
  TEC := 6
  trackDataInit := demoTrackData

/-- Identifier of a module on barrel layer `layer`: tracker, pixel barrel. -/
def demoBarrelId (layer : Nat) : DetId :=
  ⟨2 ^ 28 + 2 ^ 25 + layer * 2 ^ 20, 1, 1⟩

/-- Identifier of a module of the strip tracker (subdetector 3). -/
def demoStripId : DetId := ⟨2 ^ 28 + 3 * 2 ^ 25, 1, 3⟩

/-- A valid hit on a module, with a pixel hit behind it whose cluster has charge 1000 and
sits at the origin. -/
def demoValidHit (detId : DetId) : TrackingRecHit :=
  ⟨detId, RecHitType.valid, true, some ⟨detId, ⟨1000, 1, 1, 1, 0, 0⟩, false, false, false⟩⟩

/-- A hit of type valid on a module whose pointer `hit()` is null. -/
def demoNullHit (detId : DetId) : TrackingRecHit := ⟨detId, RecHitType.valid, true, none⟩

/-- A missing hit on a module. -/
def demoMissingHit (detId : DetId) : TrackingRecHit := ⟨detId, RecHitType.missing, false, none⟩

/-- A measurement with the same valid state as updated, forward and backward state. -/
def demoMeasurement (x y : ℚ) (recHit : TrackingRecHit) : TrajectoryMeasurement :=
  ⟨demoState x y, demoState x y, demoState x y, recHit⟩

/-- Three clusters of one module, at local x = 3, 1, 2. -/
def demoClusters : DetSet :=
  ⟨demoBarrelId 2, [⟨1000, 1, 1, 1, 3, 0⟩, ⟨1000, 1, 1, 1, 1, 0⟩, ⟨1000, 1, 1, 1, 2, 0⟩]⟩

/-- An event with one track that has one measurement. -/
def demoLoneEvent : TrajTrackAssociationCollection :=
  [⟨⟨[demoMeasurement 0 0 (demoValidHit (demoBarrelId 2))]⟩, 0⟩]

/-- An event with two tracks that have one measurement each, at local (0, 0) and (3, 4). -/
def demoTwoTrackEvent : TrajTrackAssociationCollection :=
  [⟨⟨[demoMeasurement 0 0 (demoValidHit (demoBarrelId 2))]⟩, 0⟩,
   ⟨⟨[demoMeasurement 3 4 (demoValidHit (demoBarrelId 2))]⟩, 1⟩]

/-- A measurement on barrel layer 2 whose updated and forward states are invalid and whose
backward state is valid. -/
def demoBackwardOnlyMeasurement : TrajectoryMeasurement :=
  ⟨none, none, demoState 0 0, demoValidHit (demoBarrelId 2)⟩

/-- Consecutive calls of `checkAndSaveTrajMeasurementData` with one target tree, for the listed
measurements and addresses. -/
def saveAll (env : Env) (trajTrackCollection : TrajTrackAssociationCollection)
    (clusterCollection : Option (List DetSet)) (targetTree : TargetTree)
    (items : List (TrajectoryMeasurement × MeasAddr)) (out : Output) : Output :=
  items.foldl
    (fun out p =>
      checkAndSaveTrajMeasurementData env p.1 p.2 trajTrackCollection clusterCollection
        targetTree out)
    out

/-- The measurements of a trajectory that come strictly before its first measurement on barrel
layer 1 (all of them when it has none on that layer), each with its position. -/
def preLayer1Measurements (env : Env) (trajectoryMeasurements : List TrajectoryMeasurement) :
    List (Nat × TrajectoryMeasurement) :=
  trajectoryMeasurements.enum.takeWhile (fun p => !isLayer1Measurement env p.2)

/-- The last measurement before the first layer-1 measurement, when there is one and its hit
is valid. -/
def extrapolationSource (env : Env) (trajectoryMeasurements : List TrajectoryMeasurement) :
    Option TrajectoryMeasurement :=
  match (preLayer1Measurements env trajectoryMeasurements).getLast? with
  | some last => if last.2.recHit.isValid then some last.2 else none
  | none => none

/-- The three checks of `checkAndSaveTrajMeasurementData` together. -/
def passesRecordChecks (env : Env) (measurement : TrajectoryMeasurement) : Bool :=
  measurement.updatedState.isValid &&
    detidIsOnPixel env measurement.recHit.geographicalId &&
    (getTrajectoryStateOnSurface env measurement).isValid

/-- The call of `checkAndSaveTrajMeasurementData` for the measurement cuts the run short: the
measurement passes the three checks and its hit is of type valid with a null `hit()`. -/
def cutsShort (env : Env) (measurement : TrajectoryMeasurement) : Bool :=
  passesRecordChecks env measurement && dereferencesNullHit measurement.recHit

/-- A track with measurements on barrel layers 3, 2, 1 in this order, the last with a missing
hit. -/
def demoTrack321 : TrajTrackPair :=
  ⟨⟨[demoMeasurement 0 0 (demoValidHit (demoBarrelId 3)),
      demoMeasurement 1 1 (demoValidHit (demoBarrelId 2)),
      demoMeasurement 2 2 (demoMissingHit (demoBarrelId 1))]⟩, 0⟩

/-- A candidate of the layer extrapolation on barrel layer 1, with a valid hit. -/
def demoLayer1Candidate : TrajectoryMeasurement :=
  demoMeasurement 7 7 (demoValidHit (demoBarrelId 1))

/-- A track with measurements on barrel layers 3 and 2, both with valid hits. -/
def demoTrack32 : TrajTrackPair :=
  ⟨⟨[demoMeasurement 0 0 (demoValidHit (demoBarrelId 3)),
      demoMeasurement 1 1 (demoValidHit (demoBarrelId 2))]⟩, 0⟩

/-- A track with measurements on barrel layers 3 and 2, both with hits of type valid; the
pointer `hit()` of the first is null. -/
def demoTrackNullHit : TrajTrackPair :=
  ⟨⟨[demoMeasurement 0 0 (demoNullHit (demoBarrelId 3)),
      demoMeasurement 1 1 (demoValidHit (demoBarrelId 2))]⟩, 0⟩

/-- A track with measurements on barrel layers 3, 2, 1 whose layer-2 measurement has a valid
hit and a valid backward state, and invalid updated and forward states. -/
def demoTrackInvalidUpdated : TrajTrackPair :=
  ⟨⟨[demoMeasurement 0 0 (demoValidHit (demoBarrelId 3)),
      demoBackwardOnlyMeasurement,
      demoMeasurement 2 2 (demoMissingHit (demoBarrelId 1))]⟩, 0⟩

/-- A track with measurements on barrel layers 3, 2, 1 whose layer-2 hit is missing. -/
def demoTrackMissingLayer2 : TrajTrackPair :=
  ⟨⟨[demoMeasurement 0 0 (demoValidHit (demoBarrelId 3)),
      demoMeasurement 1 1 (demoMissingHit (demoBarrelId 2)),
      demoMeasurement 2 2 (demoValidHit (demoBarrelId 1))]⟩, 0⟩

/-- Inputs of an event with the track of `demoTrack321`, no raw errors, no clusters, a
propagator set along the momentum, four barrel layers and a layer extrapolation that returns a
candidate on the layer only when it is asked for layer 1 against the momentum. -/
def demoEventInputs : EventInputs where
  siPixelRawDataErrorCollection := none
  clusterCollection := none
  trajTrackCollection := [demoTrack321]
  propagator := ⟨PropagationDirection.alongMomentum, 7⟩
  pixelBarrelLayers := (1, [2, 3, 4])
  measurements := fun layer _ propagator =>
    if layer = 1 ∧ propagator.propagationDirection = PropagationDirection.oppositeToMomentum
    then [demoLayer1Candidate] else []

/-- Identifier of a module on endcap disk `disk`: tracker, pixel endcap. -/
def demoEndcapId (disk : Nat) : DetId :=
  ⟨2 ^ 28 + 2 * 2 ^ 25 + disk * 2 ^ 18, 1, 2⟩

/-- Identifier of a muon chamber: detector 2, subdetector 1. -/
def demoMuonId : DetId := ⟨2 * 2 ^ 28 + 2 ^ 25, 2, 1⟩

/-- A raw-error collection: two errors (types 30 and 25) for the module on barrel layer 2, one
error for the dummy identifier `0xffffffff`, and one more error (type 40) for the module on
barrel layer 2. -/
def demoRawErrors : List RawDataErrorDetSet :=
  [⟨(demoBarrelId 2).rawId, [⟨30⟩, ⟨25⟩]⟩, ⟨0xffffffff, [⟨36⟩]⟩,
    ⟨(demoBarrelId 2).rawId, [⟨40⟩]⟩]

/-- The 2-D local distance between the position of a cluster on a module and a point, the
quantity `checkAndSaveTrajMeasurementData` writes to `d_cl` for the cluster it has chosen. -/
def clusterPointDistance2D (env : Env) (detId : DetId) (cluster : SiPixelCluster)
    (referencePoint : LocalPoint) : ℚ :=
  let clustLocalCoordinates := env.getParameters cluster detId
  let dx_cl := |clustLocalCoordinates.x - referencePoint.x|
  let dy_cl := |clustLocalCoordinates.y - referencePoint.y|
  env.sqrt (dx_cl * dx_cl + dy_cl * dy_cl)

/-- The cluster `clust` of `checkAndSaveTrajMeasurementData` for a hit and a predicted local
position, `none` for the null pointer. -/
def chosenCluster (env : Env) (recHit : TrackingRecHit) (localPosition : LocalPoint)
    (clusterCollection : Option (List DetSet)) : Option SiPixelCluster :=
  (selectCluster env recHit localPosition clusterCollection env.trajMeasDataInit).2

/-- A cluster collection with the clusters of `demoClusters`, on the module of barrel
layer 2. -/
def demoClusterCollection : Option (List DetSet) := some [demoClusters]

/-- A valid hit on barrel layer 3 with a pixel hit behind it, whose cluster has charge 5000. -/
def demoPixelHit : TrackingRecHit :=
  ⟨demoBarrelId 3, RecHitType.valid, true,
    some ⟨demoBarrelId 3, ⟨5000, 2, 1, 2, 4, 4⟩, false, false, false⟩⟩

/-- Three clusters of one module, at local x = 2, 1, 1: the last two are at the same distance
from the origin. -/
def demoTiedClusters : DetSet :=
  ⟨demoBarrelId 2, [⟨1000, 1, 1, 1, 2, 0⟩, ⟨2000, 1, 1, 1, 1, 0⟩, ⟨3000, 1, 1, 1, 1, 0⟩]⟩

/-- A track with measurements on barrel layers 3 and 2 whose updated states are invalid and
whose backward states are valid. -/
def demoTrackNoUpdatedState : TrajTrackPair :=
  ⟨⟨[⟨none, none, demoState 0 0, demoValidHit (demoBarrelId 3)⟩,
      demoBackwardOnlyMeasurement]⟩, 0⟩

/-- The errors of a raw-error collection in iteration order, each as the pair of the raw
identifier of its set and its type. -/
def rawErrorEntries : List RawDataErrorDetSet → List (Nat × Int)
  | [] => []
  | pixel_error_set :: rest =>
    pixel_error_set.data.map (fun pixel_error => (pixel_error_set.detId, pixel_error.getType))
      ++ rawErrorEntries rest

/-! ## Vertex association -/

/-- A primary vertex (`reco::Vertex`): what `findClosestVertexToTrack` reads of it. -/
structure Vertex where
  isValid : Bool
  tracksSize : Nat
  position : GlobalPoint
deriving DecidableEq

/-- A track (`reco::Track`): the impact parameters `dxy` and `dz` with respect to a point,
and the quantities `getTrackData` copies. -/
structure Track where
  dxy : GlobalPoint → ℚ
  dz : GlobalPoint → ℚ
  qualityMask : Int
  pt : ℚ
  p : ℚ
  eta : ℚ
  theta : ℚ
  phi : ℚ

/-- The lambda `isVertexGood` of `findClosestVertexToTrack`. -/
def isVertexGood (minTracks : Nat) (vertex : Vertex) : Bool :=
  vertex.isValid && decide (minTracks ≤ vertex.tracksSize)

/-- The lambda `trackVertexDistance` of `findClosestVertexToTrack`. -/
def trackVertexDistance (env : Env) (track : Track) (vertex : Vertex) : ℚ :=
  let trkVtxD0 := track.dxy vertex.position * (-1)
  let trkVtxDz := track.dz vertex.position
  env.sqrt (trkVtxD0 * trkVtxD0 + trkVtxDz * trkVtxDz)

/-- The loop of `findClosestVertexToTrack` over the vertices that are left: `i` is the
position of the vertex the loop is at, the state is `(closestVtx, minDistance)`. -/
def findClosestVertexLoop (env : Env) (track : Track) (minTracks : Nat) :
    List Vertex → Nat → Nat × ℚ → Nat × ℚ
  | [], _, st => st
  | vertex :: rest, i, (closestVtx, minDistance) =>
    if !isVertexGood minTracks vertex then
      findClosestVertexLoop env track minTracks rest (i + 1) (closestVtx, minDistance)
    else
      let trkVtxDist := trackVertexDistance env track vertex
      if trkVtxDist < minDistance then
        findClosestVertexLoop env track minTracks rest (i + 1) (i, trkVtxDist)
      else
        findClosestVertexLoop env track minTracks rest (i + 1) (closestVtx, minDistance)

/-- Embeds `NtuplizerHelpers::findClosestVertexToTrack`.  The returned iterator is the
position of the vertex in the collection, the length of the collection being `end()`. -/
def findClosestVertexToTrack (env : Env) (track : Track) (vertexCollection : List Vertex)
    (minTracks : Nat) : Nat :=
  let closestVtx := find_if (isVertexGood minTracks) vertexCollection
  if closestVtx = vertexCollection.length then closestVtx
  else
    match vertexCollection[closestVtx]? with
    | none => closestVtx
    | some first =>
      let minDistance := trackVertexDistance env track first
      (findClosestVertexLoop env track minTracks (vertexCollection.drop closestVtx) closestVtx
        (closestVtx, minDistance)).1

/-- A track whose `dxy` and `dz` with respect to a point are the x and the z of the point. -/
def demoTrack : Track := ⟨fun p => p.x, fun p => p.z, 4, 10, 20, 1, 1, 0⟩

/-- Five vertices: an invalid one at the origin, a valid one with one track at the origin, and
three valid ones with four tracks at x = 3, x = 2 and x = -2. -/
def demoVertices : List Vertex :=
  [⟨false, 9, ⟨0, 0, 0⟩⟩, ⟨true, 1, ⟨0, 0, 0⟩⟩, ⟨true, 4, ⟨3, 0, 0⟩⟩, ⟨true, 4, ⟨2, 0, 0⟩⟩,
    ⟨true, 4, ⟨-2, 0, 0⟩⟩]

/-- The expression of the factor of the normalised charge,
`sqrt(1.0f / (1.0f / pow(tanAlpha, 2) + 1.0f / pow(tanBeta, 2) + 1.0f))`, over any field of
numbers with a square-root function; `chargeCorrection` is its value over the rationals with
the square root of the environment. -/
def chargeCorrectionOver {K : Type} [Field K] (sqrt : K → K) (tanAlpha tanBeta : K) : K :=
  sqrt (1 / (1 / tanAlpha ^ 2 + 1 / tanBeta ^ 2 + 1))

/-- A square root on the rationals that is exact on the squares of rationals: the integer
square roots of the numerator and of the denominator. -/
def demoExactSqrt (x : ℚ) : ℚ := (Nat.sqrt x.num.toNat : ℚ) / (Nat.sqrt x.den : ℚ)

/-- The environment `demoEnv` with the square root `demoExactSqrt`. -/
def demoEnvExactSqrt : Env := { demoEnv with sqrt := demoExactSqrt }

/-! ## Track records -/

/-- The increment `counters[index]++` at a position of the array. -/
def incrementCounter : List Int → Nat → List Int
  | [], _ => []
  | c :: rest, 0 => (c + 1) :: rest
  | c :: rest, index + 1 => c :: incrementCounter rest index

/-- The increment `counters[index]++` with a computed index: `none` when the index is outside
the array, where the write is undefined. -/
def incrementAt (counters : List Int) (index : Int) : Option (List Int) :=
  if 0 ≤ index ∧ index < counters.length then some (incrementCounter counters index.toNat)
  else none

/-- The part of the loop body of `getTrackData` that counts the strip hits. -/
def countStripHit (env : Env) (hit : TrackingRecHit) (subDetId : Nat)
    (trackField : TrackData) : TrackData :=
  if hit.isValid then
    if subDetId = env.TIB ∨ subDetId = env.TOB ∨ subDetId = env.TID ∨ subDetId = env.TEC then
      { trackField with strip := trackField.strip + 1 }
    else trackField
  else trackField

/-- The part of the loop body of `getTrackData` that counts the barrel hits. -/
def countBarrelHit (env : Env) (validhit : Int) (mod : ModuleData) (subDetId : Nat)
    (trackField : TrackData) : Option TrackData :=
  if subDetId = env.PixelBarrel then
    match incrementAt trackField.bpix (mod.layer - 1) with
    | none => none
    | some bpix =>
      if validhit ≠ 0 then
        match incrementAt trackField.validbpix (mod.layer - 1) with
        | none => none
        | some validbpix => some { trackField with bpix := bpix, validbpix := validbpix }
      else some { trackField with bpix := bpix }
  else some trackField

/-- The part of the loop body of `getTrackData` that counts the forward hits. -/
def countEndcapHit (env : Env) (validhit : Int) (mod : ModuleData) (subDetId : Nat)
    (trackField : TrackData) : Option TrackData :=
  if subDetId = env.PixelEndcap then
    match incrementAt trackField.fpix (mod.disk - 1) with
    | none => none
    | some fpix =>
      if validhit ≠ 0 then
        match incrementAt trackField.validfpix (mod.disk - 1) with
        | none => none
        | some validfpix => some { trackField with fpix := fpix, validfpix := validfpix }
      else some { trackField with fpix := fpix }
  else some trackField

/-- The part of the loop body of `getTrackData` that counts the measurements on the top and
on the bottom of the detector. -/
def countPixHit (gly : ℚ) (validhit : Int) (trackField : TrackData) : TrackData :=
  let trackField :=
    if gly ≥ 0 then
      let trackField := { trackField with pixhit := incrementCounter trackField.pixhit 0 }
      if validhit ≠ 0 then
        { trackField with validpixhit := incrementCounter trackField.validpixhit 0 }
      else trackField
    else trackField
  if gly < 0 then
    let trackField := { trackField with pixhit := incrementCounter trackField.pixhit 1 }
    if validhit ≠ 0 then
      { trackField with validpixhit := incrementCounter trackField.validpixhit 1 }
    else trackField
  else trackField

/-- Body of the loop of `getTrackData` along a trajectory, for one measurement: the record
`*trackField` after it, `none` when an array is written outside its bounds. -/
def getTrackDataMeasurement (env : Env) (trackField : TrackData)
    (measurement : TrajectoryMeasurement) : Option TrackData :=
  if !measurement.updatedState.isValid then some trackField
  else
    let hit := measurement.recHit
    let detId := hit.geographicalId
    let subDetId := detId.subdetId
    let trackField := countStripHit env hit subDetId trackField
    if !detidIsOnPixel env detId then some trackField
    else
      let validhit : Int := if hit.getType = RecHitType.valid then 1 else 0
      let mod := getModuleData env false detId
      match countBarrelHit env validhit mod subDetId trackField with
      | none => none
      | some trackField =>
        match countEndcapHit env validhit mod subDetId trackField with
        | none => none
        | some trackField =>
          match getTrajectoryStateOnSurface env measurement with
          | none => some trackField
          | some trajStateOnSurface =>
            some (countPixHit trajStateOnSurface.globalPosition.y validhit trackField)

/-- The loop of `getTrackData` along a trajectory. -/
def getTrackDataMeasurementLoop (env : Env) :
    List TrajectoryMeasurement → TrackData → Option TrackData
  | [], trackField => some trackField
  | measurement :: rest, trackField =>
    match getTrackDataMeasurement env trackField measurement with
    | none => none
    | some trackField => getTrackDataMeasurementLoop env rest trackField

/-- The record `newTrackData` that `getTrackData` inserts for a track it has not seen. -/
def newTrackData (env : Env) (track : Track) (vertexCollection : List Vertex)
    (minVertexSize_ : Nat) (trackIndex : Int) : TrackData :=
  let newTrackData := { env.trackDataInit with
    pixhit := [0, 0]
    validpixhit := [0, 0]
    fpix := [0, 0, 0]
    bpix := [0, 0, 0, 0]
    validfpix := [0, 0, 0]
    validbpix := [0, 0, 0, 0]
    strip := 0 }
  let closestVtx := findClosestVertexToTrack env track vertexCollection minVertexSize_
  let newTrackData :=
    if closestVtx ≠ vertexCollection.length then
      match vertexCollection[closestVtx]? with
      | some vertex =>
        { newTrackData with
          fromVtxNtrk := vertex.tracksSize
          d0 := track.dxy vertex.position * (-1)
          dz := track.dz vertex.position }
      | none => newTrackData
    else newTrackData
  { newTrackData with
    i := trackIndex
    quality := track.qualityMask
    pt := track.pt
    p := track.p
    eta := track.eta
    theta := track.theta
    phi := track.phi }

/-- The call `std::map::insert` on the map from track reference to track record, the map being
the list of its entries in the order of their keys; the key is not in the map. -/
def trackDataInsert : List (Nat × TrackData) → Nat → TrackData → List (Nat × TrackData)
  | [], track, trackData => [(track, trackData)]
  | entry :: rest, track, trackData =>
    if track < entry.1 then (track, trackData) :: entry :: rest
    else if entry.1 < track then entry :: trackDataInsert rest track trackData
    else entry :: rest

/-- The writes through the pointer `trackField`: the value of the entry of the track is
replaced. -/
def trackDataAssign (trackDataCollection : List (Nat × TrackData)) (track : Nat)
    (trackData : TrackData) : List (Nat × TrackData) :=
  trackDataCollection.map (fun entry => if entry.1 = track then (entry.1, trackData) else entry)

/-- Body of the loop of `getTrackData` over the association; the state is
`(trackDataCollection, trackIndex)` and `tracks` gives the track of a track reference. -/
def getTrackDataLoopBody (env : Env) (tracks : Nat → Track) (vertexCollection : List Vertex)
    (minVertexSize_ : Nat) (currentTrackKeypair : TrajTrackPair)
    (st : List (Nat × TrackData) × Int) : Option (List (Nat × TrackData) × Int) :=
  let traj := currentTrackKeypair.key
  let track := currentTrackKeypair.val
  match st.1.lookup track with
  | some trackField =>
    match getTrackDataMeasurementLoop env traj.measurements trackField with
    | none => none
    | some trackField => some (trackDataAssign st.1 track trackField, st.2)
  | none =>
    let newTrackData := newTrackData env (tracks track) vertexCollection minVertexSize_ st.2
    let trackDataCollection := trackDataInsert st.1 track newTrackData
    match getTrackDataMeasurementLoop env traj.measurements newTrackData with
    | none => none
    | some trackField => some (trackDataAssign trackDataCollection track trackField, st.2 + 1)

/-- The loop of `getTrackData` over the association. -/
def getTrackDataLoop (env : Env) (tracks : Nat → Track) (vertexCollection : List Vertex)
    (minVertexSize_ : Nat) :
    List TrajTrackPair → List (Nat × TrackData) × Int → Option (List (Nat × TrackData) × Int)
  | [], st => some st
  | currentTrackKeypair :: rest, st =>
    match getTrackDataLoopBody env tracks vertexCollection minVertexSize_ currentTrackKeypair
      st with
    | none => none
    | some st => getTrackDataLoop env tracks vertexCollection minVertexSize_ rest st

/-- Embeds `PhaseIPixelNtuplizer::getTrackData`: the map it returns, as the list of its
entries in the order of their keys, which is also the order in which it fills them into
`trackTree_`; `none` when an array of counters is written outside its bounds. -/
def getTrackData (env : Env) (tracks : Nat → Track) (vertexCollection : List Vertex)
    (minVertexSize_ : Nat) (trajTrackCollection : TrajTrackAssociationCollection) :
    Option (List (Nat × TrackData)) :=
  (getTrackDataLoop env tracks vertexCollection minVertexSize_ trajTrackCollection
    ([], 0)).map (fun st => st.1)

/-- The counters of a track record are consistent: the arrays have their sizes, every
valid-hit counter is at most the total counter at the same position, and the top and bottom
counters together are at most the barrel and forward counters together. -/
def countersConsistent (trackData : TrackData) : Prop :=
  trackData.pixhit.length = 2 ∧ trackData.validpixhit.length = 2 ∧
  trackData.fpix.length = 3 ∧ trackData.validfpix.length = 3 ∧
  trackData.bpix.length = 4 ∧ trackData.validbpix.length = 4 ∧
  List.Forall₂ (fun valid total => valid ≤ total) trackData.validbpix trackData.bpix ∧
  List.Forall₂ (fun valid total => valid ≤ total) trackData.validfpix trackData.fpix ∧
  List.Forall₂ (fun valid total => valid ≤ total) trackData.validpixhit trackData.pixhit ∧
  trackData.pixhit.sum ≤ trackData.bpix.sum + trackData.fpix.sum

/-- A measurement that `getTrackData` counts as a pixel measurement is on a barrel layer 1..4
or on an endcap disk 1..3. -/
def onKnownLayerOrDisk (env : Env) (measurement : TrajectoryMeasurement) : Prop :=
  measurement.updatedState.isValid = true →
  detidIsOnPixel env measurement.recHit.geographicalId = true →
    (measurement.recHit.geographicalId.subdetId = env.PixelBarrel →
      1 ≤ (getModuleData env false measurement.recHit.geographicalId).layer ∧
        (getModuleData env false measurement.recHit.geographicalId).layer ≤ 4) ∧
    (measurement.recHit.geographicalId.subdetId = env.PixelEndcap →
      1 ≤ (getModuleData env false measurement.recHit.geographicalId).disk ∧
        (getModuleData env false measurement.recHit.geographicalId).disk ≤ 3)

/-- A measurement that `getTrackData` counts as a pixel measurement has a valid combined
state. -/
def countedWithCombinedState (env : Env) (measurement : TrajectoryMeasurement) : Prop :=
  measurement.updatedState.isValid = true →
  detidIsOnPixel env measurement.recHit.geographicalId = true →
    (getTrajectoryStateOnSurface env measurement).isValid = true

/-- The track of every track reference is `demoTrack`. -/
def demoTracks : Nat → Track := fun _ => demoTrack

/-- An event with three trajectories: those of `demoTrack321` and `demoTrack32`, both of track
0, and a trajectory of track 7 with a valid strip hit, a pixel measurement whose updated state
is invalid, and a measurement on barrel layer 4 whose updated state is valid and whose
combined state is not. -/
def demoTrackRecordsEvent : TrajTrackAssociationCollection :=
  [demoTrack321, demoTrack32,
    ⟨⟨[demoMeasurement 0 (-1) (demoValidHit demoStripId), demoBackwardOnlyMeasurement,
      ⟨demoState 1 1, none, none, demoValidHit (demoBarrelId 4)⟩]⟩, 7⟩]

/-! ## Theorems -/

/-- Invariant of the scan of `getClosestClusterOnDetSetToPoint`: the final pair is either the
initial pair or the position and the distance of a scanned cluster, and its distance is below
the initial one and below the distance of every scanned cluster. -/
theorem closestClusterLoop_spec (env : Env) (detId : DetId) (referencePoint : LocalPoint)
    (rest : List SiPixelCluster) (i : Nat) (st : Nat × ℚ) :
    (closestClusterLoop env detId referencePoint rest i st = st ∨
      ∃ j c, rest[j]? = some c ∧
        closestClusterLoop env detId referencePoint rest i st =
          (i + j, clusterPointDistanceSquared env detId c referencePoint)) ∧
    (closestClusterLoop env detId referencePoint rest i st).2 ≤ st.2 ∧
    ∀ c ∈ rest, (closestClusterLoop env detId referencePoint rest i st).2 ≤
      clusterPointDistanceSquared env detId c referencePoint := by
  induction rest generalizing i st with
  | nil => simp [closestClusterLoop]
  | cons cluster rest ih =>
    obtain ⟨mi, mv⟩ := st
    by_cases hlt : clusterPointDistanceSquared env detId cluster referencePoint < mv
    · have h := ih (i + 1) (i, clusterPointDistanceSquared env detId cluster referencePoint)
      simp only [closestClusterLoop, hlt, if_true]
      obtain ⟨h1, h2, h3⟩ := h
      refine ⟨Or.inr ?_, ?_, ?_⟩
      · rcases h1 with h1 | ⟨j, c, hj, h1⟩
        · exact ⟨0, cluster, by simp, by simpa using h1⟩
        · exact ⟨j + 1, c, by simpa using hj, by rw [h1]; congr 1; omega⟩
      · exact le_trans h2 (le_of_lt hlt)
      · intro c hc
        rcases List.mem_cons.mp hc with rfl | hc
        · exact h2
        · exact h3 c hc
    · have h := ih (i + 1) (mi, mv)
      simp only [closestClusterLoop, hlt, if_false]
      obtain ⟨h1, h2, h3⟩ := h
      refine ⟨?_, h2, ?_⟩
      · rcases h1 with h1 | ⟨j, c, hj, h1⟩
        · exact Or.inl h1
        · exact Or.inr ⟨j + 1, c, by simpa using hj, by rw [h1]; congr 1; omega⟩
      · intro c hc
        rcases List.mem_cons.mp hc with rfl | hc
        · exact le_trans h2 (not_lt.mp hlt)
        · exact h3 c hc

/-- C1: `getClosestClusterOnDetSetToPoint` returns no cluster if and only if the set is empty,
and otherwise returns (the position of) a cluster of the set whose squared local distance to
the reference point is at most that of every cluster of the set. -/
theorem getClosestClusterOnDetSetToPoint_nearest (env : Env) (clustersOnDet : DetSet)
    (referencePoint : LocalPoint) :
    (getClosestClusterOnDetSetToPoint env clustersOnDet referencePoint = none ↔
      clustersOnDet.data = []) ∧
    ∀ i, getClosestClusterOnDetSetToPoint env clustersOnDet referencePoint = some i →
      ∃ c, clustersOnDet.data[i]? = some c ∧
        ∀ other ∈ clustersOnDet.data,
          clusterPointDistanceSquared env clustersOnDet.id c referencePoint ≤
            clusterPointDistanceSquared env clustersOnDet.id other referencePoint := by
  obtain ⟨id, data⟩ := clustersOnDet
  cases data with
  | nil => simp [getClosestClusterOnDetSetToPoint]
  | cons first tl =>
    refine ⟨by simp [getClosestClusterOnDetSetToPoint], ?_⟩
    intro i hi
    simp only [getClosestClusterOnDetSetToPoint, Option.some.injEq] at hi
    obtain ⟨h1, _, h3⟩ := closestClusterLoop_spec env id referencePoint (first :: tl) 0
      (0, clusterPointDistanceSquared env id first referencePoint)
    rcases h1 with h1 | ⟨j, c, hj, h1⟩
    · rw [h1] at hi h3
      subst hi
      exact ⟨first, by simp, h3⟩
    · rw [h1] at hi h3
      simp only [Nat.zero_add] at hi
      subst hi
      exact ⟨c, hj, h3⟩

/-- Witness of C1 on three clusters at local x = 3, 1, 2 and the reference point at the
origin: the second cluster is returned. -/
theorem getClosestClusterOnDetSetToPoint_nearest_witness :
    getClosestClusterOnDetSetToPoint demoEnv demoClusters ⟨0, 0, 0⟩ = some 1 ∧
    ∃ c, demoClusters.data[1]? = some c ∧
      ∀ other ∈ demoClusters.data,
        clusterPointDistanceSquared demoEnv demoClusters.id c ⟨0, 0, 0⟩ ≤
          clusterPointDistanceSquared demoEnv demoClusters.id other ⟨0, 0, 0⟩ :=
  ⟨by decide!,
    (getClosestClusterOnDetSetToPoint_nearest demoEnv demoClusters ⟨0, 0, 0⟩).2 1 (by decide!)⟩

/-- Invariant of the inner loop of `getClosestOtherTrajMeasurementDistanceByLooping`: the final
pair is the initial pair or a scanned measurement other than the query with its squared
distance, and its distance is below the initial one and below that of every scanned measurement
other than the query. -/
theorem closestOtherMeasurementLoop_spec (env : Env) (measurement : TrajectoryMeasurement)
    (addr : MeasAddr) (t : Nat) (rest : List TrajectoryMeasurement) (i : Nat)
    (st : TrajectoryMeasurement × ℚ) :
    (closestOtherMeasurementLoop env measurement addr t rest i st = st ∨
      ∃ j m, rest[j]? = some m ∧ addr ≠ some (t, i + j) ∧
        closestOtherMeasurementLoop env measurement addr t rest i st =
          (m, trajMeasurementDistanceSquared env measurement m)) ∧
    (closestOtherMeasurementLoop env measurement addr t rest i st).2 ≤ st.2 ∧
    ∀ j m, rest[j]? = some m → addr ≠ some (t, i + j) →
      (closestOtherMeasurementLoop env measurement addr t rest i st).2 ≤
        trajMeasurementDistanceSquared env measurement m := by
  induction rest generalizing i st with
  | nil => simp [closestOtherMeasurementLoop]
  | cons other rest ih =>
    obtain ⟨cm, cd⟩ := st
    have shift : ∀ j, i + 1 + j = i + (j + 1) := fun j => by omega
    by_cases hq : addr = some (t, i)
    · obtain ⟨h1, h2, h3⟩ := ih (i + 1) (cm, cd)
      simp only [closestOtherMeasurementLoop, hq, if_true] at h1 h2 h3 ⊢
      refine ⟨?_, h2, ?_⟩
      · rcases h1 with h1 | ⟨j, m, hj, hne, h1⟩
        · exact Or.inl h1
        · exact Or.inr ⟨j + 1, m, by simpa using hj, by rw [← shift]; exact hne, h1⟩
      · intro j m hj hne
        cases j with
        | zero => exact absurd rfl hne
        | succ j => exact h3 j m (by simpa using hj) (by rw [shift]; exact hne)
    · by_cases hlt : trajMeasurementDistanceSquared env measurement other < cd
      · obtain ⟨h1, h2, h3⟩ := ih (i + 1)
          (other, trajMeasurementDistanceSquared env measurement other)
        simp only [closestOtherMeasurementLoop, hq, hlt, if_true, if_false]
        refine ⟨Or.inr ?_, le_trans h2 (le_of_lt hlt), ?_⟩
        · rcases h1 with h1 | ⟨j, m, hj, hne, h1⟩
          · exact ⟨0, other, by simp, by simpa using hq, h1⟩
          · exact ⟨j + 1, m, by simpa using hj, by rw [← shift]; exact hne, h1⟩
        · intro j m hj hne
          cases j with
          | zero =>
            simp only [List.getElem?_cons_zero, Option.some.injEq] at hj
            subst hj
            exact h2
          | succ j => exact h3 j m (by simpa using hj) (by rw [shift]; exact hne)
      · obtain ⟨h1, h2, h3⟩ := ih (i + 1) (cm, cd)
        simp only [closestOtherMeasurementLoop, hq, hlt, if_false]
        refine ⟨?_, h2, ?_⟩
        · rcases h1 with h1 | ⟨j, m, hj, hne, h1⟩
          · exact Or.inl h1
          · exact Or.inr ⟨j + 1, m, by simpa using hj, by rw [← shift]; exact hne, h1⟩
        · intro j m hj hne
          cases j with
          | zero =>
            simp only [List.getElem?_cons_zero, Option.some.injEq] at hj
            subst hj
            exact le_trans h2 (not_lt.mp hlt)
          | succ j => exact h3 j m (by simpa using hj) (by rw [shift]; exact hne)

/-- Invariant of the outer loop of `getClosestOtherTrajMeasurementDistanceByLooping`, the same
statement over the measurements of all scanned tracks. -/
theorem closestOtherTrackLoop_spec (env : Env) (measurement : TrajectoryMeasurement)
    (addr : MeasAddr) (rest : List TrajTrackPair) (t : Nat)
    (st : TrajectoryMeasurement × ℚ) :
    (closestOtherTrackLoop env measurement addr rest t st = st ∨
      ∃ k p j m, rest[k]? = some p ∧ p.key.measurements[j]? = some m ∧
        addr ≠ some (t + k, j) ∧
        closestOtherTrackLoop env measurement addr rest t st =
          (m, trajMeasurementDistanceSquared env measurement m)) ∧
    (closestOtherTrackLoop env measurement addr rest t st).2 ≤ st.2 ∧
    ∀ k p j m, rest[k]? = some p → p.key.measurements[j]? = some m →
      addr ≠ some (t + k, j) →
      (closestOtherTrackLoop env measurement addr rest t st).2 ≤
        trajMeasurementDistanceSquared env measurement m := by
  induction rest generalizing t st with
  | nil => simp [closestOtherTrackLoop]
  | cons pair rest ih =>
    have shift : ∀ k, t + 1 + k = t + (k + 1) := fun k => by omega
    obtain ⟨a1, a2, a3⟩ := closestOtherMeasurementLoop_spec env measurement addr t
      pair.key.measurements 0 st
    obtain ⟨h1, h2, h3⟩ := ih (t + 1)
      (closestOtherMeasurementLoop env measurement addr t pair.key.measurements 0 st)
    simp only [closestOtherTrackLoop]
    refine ⟨?_, le_trans h2 a2, ?_⟩
    · rcases h1 with h1 | ⟨k, p, j, m, hk, hj, hne, h1⟩
      · rw [h1]
        rcases a1 with a1 | ⟨j, m, hj, hne, a1⟩
        · exact Or.inl a1
        · exact Or.inr ⟨0, pair, j, m, by simp, hj, by simpa using hne, a1⟩
      · exact Or.inr ⟨k + 1, p, j, m, by simpa using hk, hj, by rw [← shift]; exact hne, h1⟩
    · intro k p j m hk hj hne
      cases k with
      | zero =>
        simp only [List.getElem?_cons_zero, Option.some.injEq] at hk
        subst hk
        exact le_trans h2 (a3 j m hj (by simpa using hne))
      | succ k => exact h3 k p j m (by simpa using hk) hj (by rw [shift]; exact hne)

/-- Where the first measurement vector has an element at the position the scan starts from
(position 1 when the query is its first element, position 0 otherwise),
`getClosestOtherTrajMeasurementDistanceByLooping` reports the distances to a measurement of the
event other than the query whose squared 2-D local distance to the query is minimal among all
measurements other than the query. -/
theorem getClosestOtherTrajMeasurementDistanceByLooping_min_of_start (env : Env)
    (measurement : TrajectoryMeasurement) (addr : MeasAddr) (first : TrajTrackPair)
    (rest : List TrajTrackPair) (start : TrajectoryMeasurement)
    (hstart : first.key.measurements[if addr = some (0, 0) then 1 else 0]? = some start) :
    ∃ closest k p j,
      getClosestOtherTrajMeasurementDistanceByLooping env measurement addr (first :: rest) =
        some (trajMeasurementDistance env measurement closest) ∧
      (first :: rest)[k]? = some p ∧ p.key.measurements[j]? = some closest ∧
      addr ≠ some (k, j) ∧
      ∀ k p j m, (first :: rest)[k]? = some p → p.key.measurements[j]? = some m →
        addr ≠ some (k, j) →
        trajMeasurementDistanceSquared env measurement closest ≤
          trajMeasurementDistanceSquared env measurement m := by
  obtain ⟨h1, _, h3⟩ := closestOtherTrackLoop_spec env measurement addr (first :: rest) 0
    (start, trajMeasurementDistanceSquared env measurement start)
  simp only [Nat.zero_add] at h1 h3
  have hne : addr ≠ some (0, if addr = some (0, 0) then 1 else 0) := by
    by_cases h : addr = some (0, 0)
    · rw [if_pos h, h]
      decide
    · rw [if_neg h]
      exact h
  rcases h1 with h1 | ⟨k, p, j, m, hk, hj, hn, h1⟩
  · refine ⟨start, 0, first, _, ?_, by simp, hstart, hne, ?_⟩
    · simp only [getClosestOtherTrajMeasurementDistanceByLooping, hstart, h1]
    · rw [h1] at h3
      exact h3
  · refine ⟨m, k, p, j, ?_, hk, hj, hn, ?_⟩
    · simp only [getClosestOtherTrajMeasurementDistanceByLooping, hstart, h1]
    · rw [h1] at h3
      exact h3

/-- Where the first measurement vector of the event holds the query alone, the scan
dereferences the end iterator of that vector, whatever the rest of the event is. -/
theorem getClosestOtherTrajMeasurementDistanceByLooping_first_track_only_query (env : Env)
    (measurement : TrajectoryMeasurement) (val : Nat) (rest : List TrajTrackPair) :
    getClosestOtherTrajMeasurementDistanceByLooping env measurement (some (0, 0))
      (⟨⟨[measurement]⟩, val⟩ :: rest) = none := by
  simp [getClosestOtherTrajMeasurementDistanceByLooping]

/-- C2: in the event with two tracks of one measurement each, the call on the measurement of
the first track has no defined result (it reads past the end of the first measurement vector),
although the measurement of the second track is another measurement of the event, at squared
distance 25. -/
theorem getClosestOtherTrajMeasurementDistanceByLooping_two_tracks_undefined :
    getClosestOtherTrajMeasurementDistanceByLooping demoEnv
      (demoMeasurement 0 0 (demoValidHit (demoBarrelId 2))) (some (0, 0))
      demoTwoTrackEvent = none ∧
    trajMeasurementDistanceSquared demoEnv
      (demoMeasurement 0 0 (demoValidHit (demoBarrelId 2)))
      (demoMeasurement 3 4 (demoValidHit (demoBarrelId 2))) = 25 :=
  ⟨getClosestOtherTrajMeasurementDistanceByLooping_first_track_only_query _ _ _ _,
    by decide!⟩

/-- C3: in an event with exactly one trajectory measurement, the call on that measurement has
no defined result: the running minimum is initialised from the element one past the end of the
only measurement vector. -/
theorem getClosestOtherTrajMeasurementDistanceByLooping_lone_measurement_undefined :
    getClosestOtherTrajMeasurementDistanceByLooping demoEnv
      (demoMeasurement 0 0 (demoValidHit (demoBarrelId 2))) (some (0, 0))
      demoLoneEvent = none ∧
    (demoLoneEvent.map (fun p => p.key.measurements.length)).sum = 1 :=
  ⟨getClosestOtherTrajMeasurementDistanceByLooping_first_track_only_query _ _ _ _,
    by decide⟩

/-- C5: `getTrajectoryStateOnSurface` returns the combination of the forward and backward
predicted states when both are valid, the valid one when exactly one is valid, and the invalid
default state when neither is valid. -/
theorem getTrajectoryStateOnSurface_reconciliation (env : Env)
    (measurement : TrajectoryMeasurement) :
    (measurement.forwardPredictedState.isValid = true →
      measurement.backwardPredictedState.isValid = true →
      getTrajectoryStateOnSurface env measurement =
        env.trajStateCombiner measurement.forwardPredictedState
          measurement.backwardPredictedState) ∧
    (measurement.forwardPredictedState.isValid = true →
      measurement.backwardPredictedState.isValid = false →
      getTrajectoryStateOnSurface env measurement = measurement.forwardPredictedState) ∧
    (measurement.forwardPredictedState.isValid = false →
      measurement.backwardPredictedState.isValid = true →
      getTrajectoryStateOnSurface env measurement = measurement.backwardPredictedState) ∧
    (measurement.forwardPredictedState.isValid = false →
      measurement.backwardPredictedState.isValid = false →
      getTrajectoryStateOnSurface env measurement = none) := by
  refine ⟨?_, ?_, ?_, ?_⟩ <;> intro hf hb <;> simp [getTrajectoryStateOnSurface, hf, hb]

/-- Witness of C5: the four cases on measurements whose forward state is at local (1, 2) and
whose backward state is at local (5, 6), each state present or absent. -/
theorem getTrajectoryStateOnSurface_reconciliation_witness :
    getTrajectoryStateOnSurface demoEnv
        ⟨none, demoState 1 2, demoState 5 6, demoValidHit (demoBarrelId 2)⟩ =
      demoEnv.trajStateCombiner (demoState 1 2) (demoState 5 6) ∧
    getTrajectoryStateOnSurface demoEnv
        ⟨none, demoState 1 2, none, demoValidHit (demoBarrelId 2)⟩ = demoState 1 2 ∧
    getTrajectoryStateOnSurface demoEnv
        ⟨none, none, demoState 5 6, demoValidHit (demoBarrelId 2)⟩ = demoState 5 6 ∧
    getTrajectoryStateOnSurface demoEnv
        ⟨none, none, none, demoValidHit (demoBarrelId 2)⟩ = none :=
  ⟨(getTrajectoryStateOnSurface_reconciliation demoEnv
      ⟨none, demoState 1 2, demoState 5 6, demoValidHit (demoBarrelId 2)⟩).1 rfl rfl,
    (getTrajectoryStateOnSurface_reconciliation demoEnv
      ⟨none, demoState 1 2, none, demoValidHit (demoBarrelId 2)⟩).2.1 rfl rfl,
    (getTrajectoryStateOnSurface_reconciliation demoEnv
      ⟨none, none, demoState 5 6, demoValidHit (demoBarrelId 2)⟩).2.2.1 rfl rfl,
    (getTrajectoryStateOnSurface_reconciliation demoEnv
      ⟨none, none, none, demoValidHit (demoBarrelId 2)⟩).2.2.2 rfl rfl⟩

/-- On a run that has been cut short `checkAndSaveTrajMeasurementData` does nothing. -/
theorem checkAndSaveTrajMeasurementData_of_crashed (env : Env)
    (measurement : TrajectoryMeasurement) (addr : MeasAddr)
    (trajTrackCollection : TrajTrackAssociationCollection)
    (clusterCollection : Option (List DetSet)) (targetTree : TargetTree) (out : Output)
    (hcrashed : out.crashed = true) :
    checkAndSaveTrajMeasurementData env measurement addr trajTrackCollection clusterCollection
        targetTree out = out := by
  unfold checkAndSaveTrajMeasurementData
  simp [hcrashed]

/-- The call `checkAndSaveTrajMeasurementData` for a measurement that passes the three checks
with a hit of type valid and a null `hit()` logs itself and cuts the run short. -/
theorem checkAndSaveTrajMeasurementData_of_cutsShort (env : Env)
    (measurement : TrajectoryMeasurement) (addr : MeasAddr)
    (trajTrackCollection : TrajTrackAssociationCollection)
    (clusterCollection : Option (List DetSet)) (targetTree : TargetTree) (out : Output)
    (hrun : out.crashed = false) (hcut : cutsShort env measurement = true) :
    checkAndSaveTrajMeasurementData env measurement addr trajTrackCollection clusterCollection
        targetTree out =
      { out with
        calls := out.calls ++
          [Call.checkAndSaveTrajMeasurementData measurement addr targetTree]
        crashed := true } := by
  unfold cutsShort passesRecordChecks at hcut
  simp only [Bool.and_eq_true] at hcut
  obtain ⟨⟨⟨hu, hp⟩, hs⟩, hnull⟩ := hcut
  obtain ⟨state, hstate⟩ := Option.isSome_iff_exists.mp hs
  unfold checkAndSaveTrajMeasurementData
  simp [hrun, hu, hp, hstate, hnull]

/-- The call `checkAndSaveTrajMeasurementData`, on a run that has not been cut short and for a
measurement that does not cut it short, logs itself and fills the record of the measurement,
when there is one, into the target tree. -/
theorem checkAndSaveTrajMeasurementData_eq (env : Env) (measurement : TrajectoryMeasurement)
    (addr : MeasAddr) (trajTrackCollection : TrajTrackAssociationCollection)
    (clusterCollection : Option (List DetSet)) (targetTree : TargetTree) (out : Output)
    (hrun : out.crashed = false) (hhit : cutsShort env measurement = false) :
    checkAndSaveTrajMeasurementData env measurement addr trajTrackCollection clusterCollection
        targetTree out =
      match trajMeasRecord env measurement addr trajTrackCollection clusterCollection with
      | some traj_ =>
        Fill targetTree traj_ { out with calls := out.calls ++
          [Call.checkAndSaveTrajMeasurementData measurement addr targetTree] }
      | none =>
        { out with calls := out.calls ++
          [Call.checkAndSaveTrajMeasurementData measurement addr targetTree] } := by
  unfold checkAndSaveTrajMeasurementData trajMeasRecord
  cases hu : measurement.updatedState.isValid <;>
    cases hp : detidIsOnPixel env measurement.recHit.geographicalId <;>
    cases hs : getTrajectoryStateOnSurface env measurement <;>
    cases hn : dereferencesNullHit measurement.recHit <;>
    simp only [cutsShort, passesRecordChecks, hu, hp, hn, hs] at hhit <;>
    simp [hp, hrun, hn, TrajectoryStateOnSurface.isValid] at hhit ⊢

/-- The calls after `checkAndSaveTrajMeasurementData`: the call itself is added unless the
run has been cut short before. -/
theorem checkAndSaveTrajMeasurementData_calls (env : Env)
    (measurement : TrajectoryMeasurement) (addr : MeasAddr)
    (trajTrackCollection : TrajTrackAssociationCollection)
    (clusterCollection : Option (List DetSet)) (targetTree : TargetTree) (out : Output) :
    (checkAndSaveTrajMeasurementData env measurement addr trajTrackCollection
        clusterCollection targetTree out).calls =
      out.calls ++
        (if out.crashed then []
        else [Call.checkAndSaveTrajMeasurementData measurement addr targetTree]) := by
  cases hrun : out.crashed with
  | true => rw [checkAndSaveTrajMeasurementData_of_crashed _ _ _ _ _ _ _ hrun]; simp
  | false =>
    cases hcut : cutsShort env measurement with
    | true => rw [checkAndSaveTrajMeasurementData_of_cutsShort _ _ _ _ _ _ _ hrun hcut]; simp
    | false =>
      rw [checkAndSaveTrajMeasurementData_eq _ _ _ _ _ _ _ hrun hcut]
      cases trajMeasRecord env measurement addr trajTrackCollection clusterCollection <;>
        cases targetTree <;> simp [Fill]

/-- The records of a tree after `checkAndSaveTrajMeasurementData`: the record of the
measurement, when there is one, is added to the target tree unless the run has been cut short
before or is cut short by the call. -/
theorem checkAndSaveTrajMeasurementData_tree (env : Env)
    (measurement : TrajectoryMeasurement) (addr : MeasAddr)
    (trajTrackCollection : TrajTrackAssociationCollection)
    (clusterCollection : Option (List DetSet)) (targetTree : TargetTree) (out : Output)
    (tree : TargetTree) :
    (checkAndSaveTrajMeasurementData env measurement addr trajTrackCollection
        clusterCollection targetTree out).tree tree =
      out.tree tree ++
        (if out.crashed = true ∨ cutsShort env measurement = true then []
        else if tree = targetTree then
          (trajMeasRecord env measurement addr trajTrackCollection clusterCollection).toList
        else []) := by
  cases hrun : out.crashed with
  | true => rw [checkAndSaveTrajMeasurementData_of_crashed _ _ _ _ _ _ _ hrun]; simp
  | false =>
    cases hcut : cutsShort env measurement with
    | true =>
      rw [checkAndSaveTrajMeasurementData_of_cutsShort _ _ _ _ _ _ _ hrun hcut]
      cases tree <;> simp [Output.tree]
    | false =>
      rw [checkAndSaveTrajMeasurementData_eq _ _ _ _ _ _ _ hrun hcut]
      cases trajMeasRecord env measurement addr trajTrackCollection clusterCollection <;>
        cases targetTree <;> cases tree <;> simp [Fill, Output.tree]

/-- A measurement has a record exactly when its updated state is valid, its identifier is on
the pixel detector and its combined state is valid. -/
theorem trajMeasRecord_isSome (env : Env) (measurement : TrajectoryMeasurement)
    (addr : MeasAddr) (trajTrackCollection : TrajTrackAssociationCollection)
    (clusterCollection : Option (List DetSet)) :
    (trajMeasRecord env measurement addr trajTrackCollection clusterCollection).isSome =
      (measurement.updatedState.isValid &&
        detidIsOnPixel env measurement.recHit.geographicalId &&
        (getTrajectoryStateOnSurface env measurement).isValid) := by
  unfold trajMeasRecord TrajectoryStateOnSurface.isValid
  cases hu : measurement.updatedState.isSome <;>
    cases hp : detidIsOnPixel env measurement.recHit.geographicalId <;>
    cases hs : getTrajectoryStateOnSurface env measurement <;> simp [hp]

/-- A row of `checkAndSaveTrajMeasurementData` calls on a run that has been cut short does
nothing. -/
theorem saveAll_of_crashed (env : Env) (trajTrackCollection : TrajTrackAssociationCollection)
    (clusterCollection : Option (List DetSet)) (targetTree : TargetTree)
    (items : List (TrajectoryMeasurement × MeasAddr)) (out : Output)
    (hcrashed : out.crashed = true) :
    saveAll env trajTrackCollection clusterCollection targetTree items out = out := by
  induction items with
  | nil => rfl
  | cons p items ih =>
    simp only [saveAll, List.foldl_cons] at ih ⊢
    rw [checkAndSaveTrajMeasurementData_of_crashed _ _ _ _ _ _ _ hcrashed]
    exact ih

/-- Calls after a row of `checkAndSaveTrajMeasurementData` calls, cut short or not: the calls
for the leading measurements of the row. -/
theorem saveAll_calls_prefix (env : Env) (trajTrackCollection : TrajTrackAssociationCollection)
    (clusterCollection : Option (List DetSet)) (targetTree : TargetTree)
    (items : List (TrajectoryMeasurement × MeasAddr)) (out : Output) :
    ∃ k, (saveAll env trajTrackCollection clusterCollection targetTree items out).calls =
      out.calls ++ (items.take k).map
        (fun p => Call.checkAndSaveTrajMeasurementData p.1 p.2 targetTree) := by
  induction items generalizing out with
  | nil => exact ⟨0, by simp [saveAll]⟩
  | cons p items ih =>
    cases hrun : out.crashed with
    | true =>
      exact ⟨0, by rw [saveAll_of_crashed _ _ _ _ _ _ hrun]; simp⟩
    | false =>
      obtain ⟨k, hk⟩ := ih (checkAndSaveTrajMeasurementData env p.1 p.2 trajTrackCollection
        clusterCollection targetTree out)
      refine ⟨k + 1, ?_⟩
      simp only [saveAll, List.foldl_cons] at hk ⊢
      rw [hk, checkAndSaveTrajMeasurementData_calls]
      simp [hrun]

/-- A row of `checkAndSaveTrajMeasurementData` calls for measurements without a record leaves
the trees as they are. -/
theorem saveAll_tree_of_no_record (env : Env)
    (trajTrackCollection : TrajTrackAssociationCollection)
    (clusterCollection : Option (List DetSet)) (targetTree : TargetTree)
    (items : List (TrajectoryMeasurement × MeasAddr)) (out : Output) (tree : TargetTree)
    (hitems : ∀ p ∈ items,
      trajMeasRecord env p.1 p.2 trajTrackCollection clusterCollection = none) :
    (saveAll env trajTrackCollection clusterCollection targetTree items out).tree tree =
      out.tree tree := by
  induction items generalizing out with
  | nil => rfl
  | cons p items ih =>
    have h := ih (checkAndSaveTrajMeasurementData env p.1 p.2 trajTrackCollection
      clusterCollection targetTree out) (fun q hq => hitems q (List.mem_cons_of_mem p hq))
    simp only [saveAll, List.foldl_cons] at h ⊢
    rw [h, checkAndSaveTrajMeasurementData_tree, hitems p (List.mem_cons_self p items)]
    simp

/-- A loop over a range of positions inside the measurement vector calls
`checkAndSaveTrajMeasurementData` for the measurements at these positions, in order. -/
theorem saveMeasurementRange_eq_saveAll (env : Env)
    (trajTrackCollection : TrajTrackAssociationCollection)
    (clusterCollection : Option (List DetSet)) (targetTree : TargetTree) (t : Nat)
    (trajectoryMeasurements : List TrajectoryMeasurement) (lo hi : Nat) (out : Output)
    (hlo : lo ≤ hi) (hhi : hi ≤ trajectoryMeasurements.length) :
    saveMeasurementRange env trajTrackCollection clusterCollection targetTree t
        trajectoryMeasurements lo hi out =
      saveAll env trajTrackCollection clusterCollection targetTree
        (((trajectoryMeasurements.enum.drop lo).take (hi - lo)).map
          (fun p => (p.2, some (t, p.1)))) out := by
  unfold saveMeasurementRange
  have key : ∀ n lo out, lo + n ≤ trajectoryMeasurements.length →
      (List.range' lo n).foldl
        (fun out i =>
          match trajectoryMeasurements[i]? with
          | none => out
          | some measurement =>
            checkAndSaveTrajMeasurementData env measurement (some (t, i)) trajTrackCollection
              clusterCollection targetTree out)
        out =
      saveAll env trajTrackCollection clusterCollection targetTree
        (((trajectoryMeasurements.enum.drop lo).take n).map
          (fun p => (p.2, some (t, p.1)))) out := by
    intro n
    induction n with
    | zero => intro lo out _; simp [saveAll]
    | succ n ih =>
      intro lo out h
      have hlt : lo < trajectoryMeasurements.length := by omega
      have hlt2 : lo < trajectoryMeasurements.enum.length := by
        rw [List.enum_length]; exact hlt
      rw [List.range'_succ, List.foldl_cons, List.getElem?_eq_getElem hlt,
        ih (lo + 1) _ (by omega), List.drop_eq_getElem_cons hlt2, List.take_succ_cons,
        List.map_cons, List.getElem_enum]
      simp [saveAll]
  exact key (hi - lo) lo out (by omega)

/-- The loop over the propagated hits calls `checkAndSaveTrajMeasurementData` for every
candidate, in order, with the primary tree. -/
theorem saveExtrapolatedHits_eq_saveAll (env : Env)
    (trajTrackCollection : TrajTrackAssociationCollection)
    (clusterCollection : Option (List DetSet))
    (extrapolatedHitsOnLayer1 : List TrajectoryMeasurement) (out : Output) :
    saveExtrapolatedHits env trajTrackCollection clusterCollection extrapolatedHitsOnLayer1
        out =
      saveAll env trajTrackCollection clusterCollection TargetTree.trajTree_
        (extrapolatedHitsOnLayer1.map (fun c => (c, none))) out := by
  simp [saveExtrapolatedHits, saveAll, List.foldl_map]

/-- The position `std::find_if` returns is inside the vector or its end. -/
theorem find_if_le_length {α : Type} (pred : α → Bool) (l : List α) :
    find_if pred l ≤ l.length := by
  induction l with
  | nil => simp [find_if]
  | cons a l ih =>
    by_cases h : pred a = true
    · simp [find_if, h]
    · simp only [find_if, h, List.length_cons]
      simpa using ih

/-- The elements before the position `std::find_if` returns are the leading elements that do
not satisfy the predicate; the elements from that position on are the rest. -/
theorem enumFrom_find_if {α : Type} (pred : α → Bool) (l : List α) (s : Nat) :
    (l.enumFrom s).takeWhile (fun p => !pred p.2) = (l.enumFrom s).take (find_if pred l) ∧
    (l.enumFrom s).dropWhile (fun p => !pred p.2) = (l.enumFrom s).drop (find_if pred l) := by
  induction l generalizing s with
  | nil => simp [find_if]
  | cons a l ih =>
    by_cases h : pred a = true
    · simp [find_if, h, List.enumFrom_cons, List.takeWhile_cons, List.dropWhile_cons]
    · obtain ⟨h1, h2⟩ := ih (s + 1)
      simp only [Bool.not_eq_true] at h
      simp [find_if, h, List.enumFrom_cons, List.takeWhile_cons, List.dropWhile_cons, h1, h2]

/-- The measurements before the first layer-1 measurement are those before the position
`std::find_if` returns. -/
theorem preLayer1Measurements_eq_take (env : Env)
    (trajectoryMeasurements : List TrajectoryMeasurement) :
    preLayer1Measurements env trajectoryMeasurements =
      trajectoryMeasurements.enum.take
        (find_if (isLayer1Measurement env) trajectoryMeasurements) := by
  unfold preLayer1Measurements
  rw [List.enum_eq_enumFrom]
  exact (enumFrom_find_if _ _ 0).1

/-- The extrapolation source is the measurement `std::prev` of the iterator `std::find_if`
returns points to, when that iterator is not `begin()` and the hit is valid. -/
theorem extrapolationSource_eq (env : Env)
    (trajectoryMeasurements : List TrajectoryMeasurement) :
    extrapolationSource env trajectoryMeasurements =
      if find_if (isLayer1Measurement env) trajectoryMeasurements = 0 then none
      else
        match trajectoryMeasurements[
          find_if (isLayer1Measurement env) trajectoryMeasurements - 1]? with
        | none => none
        | some last => if last.recHit.isValid then some last else none := by
  unfold extrapolationSource
  rw [preLayer1Measurements_eq_take, List.getLast?_take]
  have hle := find_if_le_length (isLayer1Measurement env) trajectoryMeasurements
  by_cases hk : find_if (isLayer1Measurement env) trajectoryMeasurements = 0
  · simp [hk]
  · have hlt : find_if (isLayer1Measurement env) trajectoryMeasurements - 1 <
        trajectoryMeasurements.length := by omega
    simp only [hk, if_false, List.getElem?_enum, List.getElem?_eq_getElem hlt, Option.map_some',
      Option.or_some]

/-- The body of the track loop does nothing on a run that has been cut short. -/
theorem getTrajTrackDataLoopBody_of_crashed (env : Env)
    (trajTrackCollection : TrajTrackAssociationCollection)
    (clusterCollection : Option (List DetSet)) (t : Nat) (currentTrackKeypair : TrajTrackPair)
    (out : Output) (hcrashed : out.crashed = true) :
    getTrajTrackDataLoopBody env trajTrackCollection clusterCollection t currentTrackKeypair
      out = out := by
  have hle := find_if_le_length (isLayer1Measurement env) currentTrackKeypair.key.measurements
  unfold getTrajTrackDataLoopBody
  simp only []
  split
  · rfl
  · rw [saveMeasurementRange_eq_saveAll _ _ _ _ _ _ _ _ _ (Nat.zero_le _) hle,
      saveAll_of_crashed _ _ _ _ _ _ hcrashed,
      saveMeasurementRange_eq_saveAll _ _ _ _ _ _ _ _ _ hle (le_refl _),
      saveAll_of_crashed _ _ _ _ _ _ hcrashed, if_pos hcrashed]

/-- Nothing is called and nothing is filled by `getTrajTrackData` once the run has been cut
short: the loop over the tracks that are left returns the output as it is. -/
theorem getTrajTrackDataLoop_of_crashed (env : Env)
    (trajTrackCollection : TrajTrackAssociationCollection)
    (clusterCollection : Option (List DetSet)) (l : List TrajTrackPair) (t : Nat)
    (out : Output) (hcrashed : out.crashed = true) :
    getTrajTrackDataLoop env trajTrackCollection clusterCollection l t out = out := by
  induction l generalizing t with
  | nil => rfl
  | cons a l ih =>
    show getTrajTrackDataLoop env trajTrackCollection clusterCollection l (t + 1)
      (getTrajTrackDataLoopBody env trajTrackCollection clusterCollection t a out) = out
    rw [getTrajTrackDataLoopBody_of_crashed _ _ _ _ _ _ hcrashed]
    exact ih (t + 1)

/-- A hit of type valid with a null `hit()` ends the run of `getTrajTrackData`: on the track
with layers 3 and 2 whose first hit is such a hit, the first measurement is submitted, no
record is filled, the second measurement is never submitted and no extrapolation is made. -/
theorem getTrajTrackData_null_hit_cuts_short :
    trajectoryHasPixelHit demoEnv demoTrackNullHit.key ≠ 0 ∧
    getTrajTrackData demoEnv [demoTrackNullHit] none Output.empty =
      ⟨[], [], [Call.checkAndSaveTrajMeasurementData
        (demoMeasurement 0 0 (demoNullHit (demoBarrelId 3))) (some (0, 0))
        TargetTree.trajTree_], true⟩ := by
  constructor <;> decide!

/-- No call of the extrapolation is among submissions. -/
theorem extrapolationCalls_map_save {α : Type} (l : List α)
    (f : α → TrajectoryMeasurement) (g : α → MeasAddr) (tree : TargetTree) :
    extrapolationCalls (l.map (fun a => Call.checkAndSaveTrajMeasurementData (f a) (g a) tree))
      = [] := by
  induction l with
  | nil => rfl
  | cons a l ih =>
    simp only [extrapolationCalls, List.map_cons, List.filterMap_cons] at ih ⊢
    exact ih

/-- The extrapolation calls of a list of calls put after another. -/
theorem extrapolationCalls_append (l l2 : List Call) :
    extrapolationCalls (l ++ l2) = extrapolationCalls l ++ extrapolationCalls l2 := by
  simp [extrapolationCalls, List.filterMap_append]

/-- The extrapolation calls among the calls made for a track, whether the run is cut short or
not: no other call than the one for the extrapolation source. -/
theorem getTrajTrackDataLoopBody_extrapolationCalls_mem (env : Env)
    (trajTrackCollection : TrajTrackAssociationCollection)
    (clusterCollection : Option (List DetSet)) (t : Nat) (currentTrackKeypair : TrajTrackPair)
    (out : Output) :
    ∀ m ∈ extrapolationCalls
        ((getTrajTrackDataLoopBody env trajTrackCollection clusterCollection t
          currentTrackKeypair out).calls.drop out.calls.length),
      extrapolationSource env currentTrackKeypair.key.measurements = some m := by
  have hle := find_if_le_length (isLayer1Measurement env) currentTrackKeypair.key.measurements
  obtain ⟨k1, hk1⟩ := saveAll_calls_prefix env trajTrackCollection clusterCollection
    TargetTree.trajTree_
    (((currentTrackKeypair.key.measurements.enum.drop 0).take
      (find_if (isLayer1Measurement env) currentTrackKeypair.key.measurements - 0)).map
      (fun p => (p.2, some (t, p.1)))) out
  obtain ⟨k2, hk2⟩ := saveAll_calls_prefix env trajTrackCollection clusterCollection
    TargetTree.nonPropagatedExtraTrajTree_
    (((currentTrackKeypair.key.measurements.enum.drop
      (find_if (isLayer1Measurement env) currentTrackKeypair.key.measurements)).take
      (currentTrackKeypair.key.measurements.length -
        find_if (isLayer1Measurement env) currentTrackKeypair.key.measurements)).map
      (fun p => (p.2, some (t, p.1))))
    (saveAll env trajTrackCollection clusterCollection TargetTree.trajTree_
      (((currentTrackKeypair.key.measurements.enum.drop 0).take
        (find_if (isLayer1Measurement env) currentTrackKeypair.key.measurements - 0)).map
        (fun p => (p.2, some (t, p.1)))) out)
  rw [hk1] at hk2
  have hsub : ∀ (l : List (TrajectoryMeasurement × MeasAddr)) (tree : TargetTree),
      extrapolationCalls
        (l.map (fun p => Call.checkAndSaveTrajMeasurementData p.1 p.2 tree)) = [] :=
    fun l tree => extrapolationCalls_map_save l (fun p => p.1) (fun p => p.2) tree
  unfold getTrajTrackDataLoopBody
  by_cases hfilter : trajectoryHasPixelHit env currentTrackKeypair.key = 0
  · simp [hfilter, extrapolationCalls]
  · simp only [hfilter, if_false]
    rw [saveMeasurementRange_eq_saveAll _ _ _ _ _ _ _ _ _ (Nat.zero_le _) hle,
      saveMeasurementRange_eq_saveAll _ _ _ _ _ _ _ _ _ hle (le_refl _)]
    split
    · intro m hm
      rw [hk2, List.append_assoc, List.drop_left, extrapolationCalls_append, hsub, hsub] at hm
      simp at hm
    · split
      · intro m hm
        rw [hk2, List.append_assoc, List.drop_left, extrapolationCalls_append, hsub,
          hsub] at hm
        simp at hm
      · rename_i hk
        split
        · intro m hm
          rw [hk2, List.append_assoc, List.drop_left, extrapolationCalls_append, hsub,
            hsub] at hm
          simp at hm
        · rename_i last hlast
          split
          · intro m hm
            rw [hk2, List.append_assoc, List.drop_left, extrapolationCalls_append, hsub,
              hsub] at hm
            simp at hm
          · rename_i hvalid
            rw [saveExtrapolatedHits_eq_saveAll]
            obtain ⟨k3, hk3⟩ := saveAll_calls_prefix env trajTrackCollection clusterCollection
              TargetTree.trajTree_
              ((getLayer1ExtrapolatedHitsFromMeas env last
                (saveAll env trajTrackCollection clusterCollection
                  TargetTree.nonPropagatedExtraTrajTree_
                  (((currentTrackKeypair.key.measurements.enum.drop
                    (find_if (isLayer1Measurement env)
                      currentTrackKeypair.key.measurements)).take
                    (currentTrackKeypair.key.measurements.length -
                      find_if (isLayer1Measurement env)
                        currentTrackKeypair.key.measurements)).map
                    (fun p => (p.2, some (t, p.1))))
                  (saveAll env trajTrackCollection clusterCollection TargetTree.trajTree_
                    (((currentTrackKeypair.key.measurements.enum.drop 0).take
                      (find_if (isLayer1Measurement env)
                        currentTrackKeypair.key.measurements - 0)).map
                      (fun p => (p.2, some (t, p.1)))) out))).1.map (fun c => (c, none)))
              (getLayer1ExtrapolatedHitsFromMeas env last
                (saveAll env trajTrackCollection clusterCollection
                  TargetTree.nonPropagatedExtraTrajTree_
                  (((currentTrackKeypair.key.measurements.enum.drop
                    (find_if (isLayer1Measurement env)
                      currentTrackKeypair.key.measurements)).take
                    (currentTrackKeypair.key.measurements.length -
                      find_if (isLayer1Measurement env)
                        currentTrackKeypair.key.measurements)).map
                    (fun p => (p.2, some (t, p.1))))
                  (saveAll env trajTrackCollection clusterCollection TargetTree.trajTree_
                    (((currentTrackKeypair.key.measurements.enum.drop 0).take
                      (find_if (isLayer1Measurement env)
                        currentTrackKeypair.key.measurements - 0)).map
                      (fun p => (p.2, some (t, p.1)))) out))).2
            intro m hm
            rw [hk3] at hm
            simp only [getLayer1ExtrapolatedHitsFromMeas] at hm
            rw [hk2] at hm
            simp only [List.append_assoc] at hm
            rw [List.drop_left, extrapolationCalls_append, extrapolationCalls_append,
              extrapolationCalls_append, hsub, hsub, hsub] at hm
            simp only [extrapolationCalls, List.filterMap_cons, List.filterMap_nil,
              List.nil_append, List.append_nil, List.mem_singleton] at hm
            subst hm
            rw [extrapolationSource_eq, if_neg hk, hlast]
            have hv : m.recHit.isValid = true := by simpa using hvalid
            simp [hv]

/-- The three checks decide whether a measurement has a record. -/
theorem trajMeasRecord_isSome_eq_passesRecordChecks (env : Env)
    (measurement : TrajectoryMeasurement) (addr : MeasAddr)
    (trajTrackCollection : TrajTrackAssociationCollection)
    (clusterCollection : Option (List DetSet)) :
    (trajMeasRecord env measurement addr trajTrackCollection clusterCollection).isSome =
      passesRecordChecks env measurement :=
  trajMeasRecord_isSome env measurement addr trajTrackCollection clusterCollection

/-- The extrapolation source is a measurement of the trajectory with a valid hit. -/
theorem extrapolationSource_mem (env : Env)
    (trajectoryMeasurements : List TrajectoryMeasurement) (last : TrajectoryMeasurement)
    (hsource : extrapolationSource env trajectoryMeasurements = some last) :
    last ∈ trajectoryMeasurements ∧ last.recHit.isValid = true := by
  unfold extrapolationSource at hsource
  cases hlast : (preLayer1Measurements env trajectoryMeasurements).getLast? with
  | none => simp [hlast] at hsource
  | some p =>
    simp only [hlast] at hsource
    cases hvalid : p.2.recHit.isValid with
    | false => simp [hvalid] at hsource
    | true =>
      simp only [hvalid, if_true, Option.some.injEq] at hsource
      subst hsource
      refine ⟨?_, hvalid⟩
      have hmem : p ∈ trajectoryMeasurements.enum :=
        (List.takeWhile_sublist _).subset (List.mem_of_getLast?_eq_some hlast)
      have hp : p = (p.1, p.2) := rfl
      rw [hp] at hmem
      have hget := (List.mem_enum hmem).2
      rw [hget]
      exact List.getElem_mem _

/-- C10, as stated, fails: on a track that passes the pixel-hit filter, whose hits all have
pixel hits behind them and whose layer-2 measurement has a valid hit and an invalid updated
state, the extrapolation is called from that measurement; the run is not cut short. -/
theorem getTrajTrackData_extrapolates_invalid_state :
    trajectoryHasPixelHit demoEnv demoTrackInvalidUpdated.key ≠ 0 ∧
    extrapolationCalls
        (getTrajTrackDataLoopBody demoEnv [demoTrackInvalidUpdated] none 0
          demoTrackInvalidUpdated Output.empty).calls = [demoBackwardOnlyMeasurement] ∧
    demoBackwardOnlyMeasurement.updatedState.isValid = false ∧
    (∀ m ∈ demoTrackInvalidUpdated.key.measurements, dereferencesNullHit m.recHit = false) ∧
    (getTrajTrackDataLoopBody demoEnv [demoTrackInvalidUpdated] none 0
      demoTrackInvalidUpdated Output.empty).crashed = false := by
  refine ⟨by decide, by decide!, by decide, by decide, by decide!⟩

/-- C10, amended: `getTrajTrackData` calls `getLayer1ExtrapolatedHitsFromMeas` only for a
measurement whose hit is valid; the updated state handed to the propagation is valid when
every measurement of the track with a valid hit has a valid updated state; a track whose last
measurement before layer 1 has an invalid hit is skipped for extrapolation. -/
theorem getTrajTrackData_extrapolates_valid_hit (env : Env)
    (trajTrackCollection : TrajTrackAssociationCollection)
    (clusterCollection : Option (List DetSet)) (t : Nat) (currentTrackKeypair : TrajTrackPair)
    (out : Output) (hfilter : trajectoryHasPixelHit env currentTrackKeypair.key ≠ 0) :
    (∀ m ∈ extrapolationCalls
        ((getTrajTrackDataLoopBody env trajTrackCollection clusterCollection t
          currentTrackKeypair out).calls.drop out.calls.length),
      m.recHit.isValid = true) ∧
    ((∀ m ∈ currentTrackKeypair.key.measurements,
        m.recHit.isValid = true → m.updatedState.isValid = true) →
      ∀ m ∈ extrapolationCalls
        ((getTrajTrackDataLoopBody env trajTrackCollection clusterCollection t
          currentTrackKeypair out).calls.drop out.calls.length),
      m.updatedState.isValid = true) ∧
    (∀ last,
      (preLayer1Measurements env currentTrackKeypair.key.measurements).getLast? = some last →
      last.2.recHit.isValid = false →
      extrapolationCalls
        ((getTrajTrackDataLoopBody env trajTrackCollection clusterCollection t
          currentTrackKeypair out).calls.drop out.calls.length) = []) := by
  have hmem := getTrajTrackDataLoopBody_extrapolationCalls_mem env trajTrackCollection
    clusterCollection t currentTrackKeypair out
  refine ⟨?_, ?_, ?_⟩
  · intro m hm
    exact (extrapolationSource_mem env _ m (hmem m hm)).2
  · intro hwf m hm
    obtain ⟨hmem2, hvalid⟩ := extrapolationSource_mem env _ m (hmem m hm)
    exact hwf m hmem2 hvalid
  · intro last hlast hinvalid
    rw [List.eq_nil_iff_forall_not_mem]
    intro m hm
    have hsrc := hmem m hm
    simp [extrapolationSource, hlast, hinvalid] at hsrc

/-- Witness of C10 (amended): on the track with layers 3, 2, 1 the extrapolation is called
from the layer-2 measurement, whose hit and updated state are valid; on the track whose
layer-2 hit is missing no extrapolation is called. -/
theorem getTrajTrackData_extrapolates_valid_hit_witness :
    (demoMeasurement 1 1 (demoValidHit (demoBarrelId 2))).recHit.isValid = true ∧
    (demoMeasurement 1 1 (demoValidHit (demoBarrelId 2))).updatedState.isValid = true ∧
    extrapolationCalls
        ((getTrajTrackDataLoopBody demoEnv [demoTrackMissingLayer2] none 0
          demoTrackMissingLayer2 Output.empty).calls.drop Output.empty.calls.length) = [] :=
  ⟨(getTrajTrackData_extrapolates_valid_hit demoEnv [demoTrack321] none 0 demoTrack321
      Output.empty (by decide)).1
      (demoMeasurement 1 1 (demoValidHit (demoBarrelId 2))) (by decide!),
    (getTrajTrackData_extrapolates_valid_hit demoEnv [demoTrack321] none 0 demoTrack321
      Output.empty (by decide)).2.1 (by decide)
      (demoMeasurement 1 1 (demoValidHit (demoBarrelId 2))) (by decide!),
    (getTrajTrackData_extrapolates_valid_hit demoEnv [demoTrackMissingLayer2] none 0
      demoTrackMissingLayer2 Output.empty (by decide)).2.2
      (1, demoMeasurement 1 1 (demoMissingHit (demoBarrelId 2))) (by decide!) (by decide)⟩

/-- The cluster selection leaves every field of the record outside its cluster part as it
is. -/
theorem selectCluster_fields (env : Env) (recHit : TrackingRecHit) (localPosition : LocalPoint)
    (clusterCollection : Option (List DetSet)) (traj_ : TrajMeasData) :
    (selectCluster env recHit localPosition clusterCollection traj_).1.mod = traj_.mod ∧
    (selectCluster env recHit localPosition clusterCollection traj_).1.mod_on = traj_.mod_on ∧
    (selectCluster env recHit localPosition clusterCollection traj_).1.validhit =
      traj_.validhit ∧
    (selectCluster env recHit localPosition clusterCollection traj_).1.missing =
      traj_.missing := by
  unfold selectCluster
  split
  · simp
  · split
    · simp
    · split <;> simp

/-- Module coordinates and hit classification of the record at `Fill()`. -/
theorem trajMeasDataAtFill_fields (env : Env) (measurement : TrajectoryMeasurement)
    (addr : MeasAddr) (trajTrackCollection : TrajTrackAssociationCollection)
    (clusterCollection : Option (List DetSet)) (trajStateOnSurface : TrajectoryStateData) :
    (trajMeasDataAtFill env measurement addr trajTrackCollection clusterCollection
        trajStateOnSurface).mod =
      getModuleData env false measurement.recHit.geographicalId ∧
    (trajMeasDataAtFill env measurement addr trajTrackCollection clusterCollection
        trajStateOnSurface).mod_on =
      getModuleData env true measurement.recHit.geographicalId ∧
    (trajMeasDataAtFill env measurement addr trajTrackCollection clusterCollection
        trajStateOnSurface).validhit =
      (if measurement.recHit.getType = RecHitType.valid then 1 else 0) ∧
    (trajMeasDataAtFill env measurement addr trajTrackCollection clusterCollection
        trajStateOnSurface).missing =
      (if measurement.recHit.getType = RecHitType.missing then 1 else 0) := by
  unfold trajMeasDataAtFill
  simp only []
  split
  · simp [selectCluster_fields]
  · simp [selectCluster_fields]

/-- An identifier on the pixel detector is in the barrel or in the endcap. -/
theorem subdetId_of_detidIsOnPixel (env : Env) (detid : DetId)
    (h : detidIsOnPixel env detid = true) :
    detid.subdetId = env.PixelBarrel ∨ detid.subdetId = env.PixelEndcap := by
  unfold detidIsOnPixel at h
  by_cases h1 : detid.subdetId = env.PixelBarrel
  · exact Or.inl h1
  · by_cases h2 : detid.subdetId = env.PixelEndcap
    · exact Or.inr h2
    · simp [h1, h2] at h

/-- In every event with exactly one trajectory measurement, the scan called on that measurement
dereferences an iterator that is not dereferenceable: the first measurement vector is empty,
or it holds the query alone and the start position is moved past it. -/
theorem getClosestOtherTrajMeasurementDistanceByLooping_undefined_of_single (env : Env)
    (measurement : TrajectoryMeasurement) (trajTrackCollection : TrajTrackAssociationCollection)
    (t i : Nat) (p : TrajTrackPair)
    (hcount : (trajTrackCollection.map (fun p => p.key.measurements.length)).sum = 1)
    (ht : trajTrackCollection[t]? = some p)
    (hi : p.key.measurements[i]? = some measurement) :
    getClosestOtherTrajMeasurementDistanceByLooping env measurement (some (t, i))
      trajTrackCollection = none := by
  cases trajTrackCollection with
  | nil => simp at ht
  | cons first rest =>
    cases hfm : first.key.measurements with
    | nil => simp [getClosestOtherTrajMeasurementDistanceByLooping, hfm]
    | cons m ms =>
      simp only [List.map_cons, List.sum_cons, hfm, List.length_cons] at hcount
      have hms : ms = [] := List.length_eq_zero.mp (by omega)
      have hrest : (rest.map (fun p => p.key.measurements.length)).sum = 0 := by omega
      cases t with
      | zero =>
        simp only [List.getElem?_cons_zero, Option.some.injEq] at ht
        subst ht
        rw [hfm, hms] at hi
        cases i with
        | zero => simp [getClosestOtherTrajMeasurementDistanceByLooping, hfm, hms]
        | succ i => simp at hi
      | succ t =>
        simp only [List.getElem?_cons_succ] at ht
        have hmem : p ∈ rest := by
          obtain ⟨hlt, hget⟩ := List.getElem?_eq_some_iff.mp ht
          rw [← hget]
          exact List.getElem_mem _
        have hzero : p.key.measurements.length = 0 := by
          have := List.sum_eq_zero_iff.mp hrest p.key.measurements.length
            (List.mem_map.mpr ⟨p, hmem, rfl⟩)
          exact this
        rw [List.length_eq_zero.mp hzero] at hi
        simp at hi

/-- With a square root that returns the absolute value on squares and a negative `NOVAL_F`,
`trajMeasurementDistance` reports the square root of the squared 2-D distance and the absolute
differences of the local x and y coordinates. -/
theorem trajMeasurementDistance_eq (env : Env) (lhs rhs : TrajectoryMeasurement)
    (hsqrt : ∀ a : ℚ, env.sqrt (a * a) = |a|) (hnoval : env.NOVAL_F < 0) :
    trajMeasurementDistance env lhs rhs =
      (env.sqrt (trajMeasurementDistanceSquared env lhs rhs),
        |(getLocalXY env lhs).1 - (getLocalXY env rhs).1|,
        |(getLocalXY env lhs).2 - (getLocalXY env rhs).2|) := by
  have hne : ∀ a : ℚ, |a| ≠ env.NOVAL_F := fun a h => by
    have := abs_nonneg a
    rw [h] at this
    exact absurd hnoval (not_lt.mpr this)
  simp [trajMeasurementDistance, trajMeasurementDistanceSquaredOut,
    trajMeasurementDistanceSquared, hsqrt, hne]

/-- The loop of `getTrajTrackData` over entries put one after the other. -/
theorem getTrajTrackDataLoop_append (env : Env)
    (trajTrackCollection : TrajTrackAssociationCollection)
    (clusterCollection : Option (List DetSet)) (l l2 : List TrajTrackPair) (t : Nat)
    (out : Output) :
    getTrajTrackDataLoop env trajTrackCollection clusterCollection (l ++ l2) t out =
      getTrajTrackDataLoop env trajTrackCollection clusterCollection l2 (t + l.length)
        (getTrajTrackDataLoop env trajTrackCollection clusterCollection l t out) := by
  induction l generalizing t out with
  | nil => simp [getTrajTrackDataLoop]
  | cons a l ih =>
    show getTrajTrackDataLoop env trajTrackCollection clusterCollection (l ++ l2) (t + 1)
        (getTrajTrackDataLoopBody env trajTrackCollection clusterCollection t a out) =
      getTrajTrackDataLoop env trajTrackCollection clusterCollection l2 (t + (l.length + 1))
        (getTrajTrackDataLoop env trajTrackCollection clusterCollection l (t + 1)
          (getTrajTrackDataLoopBody env trajTrackCollection clusterCollection t a out))
    rw [ih]
    congr 1
    omega

/-- The run of `getTrajTrackData` around entry `t` of the association: the loop over the
entries before it, the body of the loop for it, the loop over the entries after it. -/
theorem getTrajTrackData_at_entry (env : Env)
    (trajTrackCollection : TrajTrackAssociationCollection)
    (clusterCollection : Option (List DetSet)) (out : Output) (t : Nat)
    (currentTrackKeypair : TrajTrackPair)
    (ht : trajTrackCollection[t]? = some currentTrackKeypair) :
    getTrajTrackData env trajTrackCollection clusterCollection out =
      getTrajTrackDataLoop env trajTrackCollection clusterCollection
        (trajTrackCollection.drop (t + 1)) (t + 1)
        (getTrajTrackDataLoopBody env trajTrackCollection clusterCollection t
          currentTrackKeypair
          (getTrajTrackDataLoop env trajTrackCollection clusterCollection
            (trajTrackCollection.take t) 0 out)) := by
  obtain ⟨hlt, hget⟩ := List.getElem?_eq_some_iff.mp ht
  have hsplit : trajTrackCollection =
      trajTrackCollection.take t ++ currentTrackKeypair :: trajTrackCollection.drop (t + 1) := by
    rw [← hget, ← List.drop_eq_getElem_cons hlt, List.take_append_drop]
  have hloop : getTrajTrackDataLoop env trajTrackCollection clusterCollection
      trajTrackCollection 0 out =
      getTrajTrackDataLoop env trajTrackCollection clusterCollection
        (trajTrackCollection.take t ++
          currentTrackKeypair :: trajTrackCollection.drop (t + 1)) 0 out := by
    rw [← hsplit]
  unfold getTrajTrackData
  rw [hloop, getTrajTrackDataLoop_append]
  simp only [getTrajTrackDataLoop, List.length_take, Nat.zero_add]
  rw [Nat.min_eq_left (le_of_lt hlt)]

/-- C11: for a track that passes the pixel-hit filter, a measurement from which
`getTrajTrackData` extrapolates to barrel layer 1 is not located on barrel layer 1: its module
data do not have `det = 0` and `layer = 1`. -/
theorem getTrajTrackData_extrapolation_source_not_on_layer1 (env : Env)
    (trajTrackCollection : TrajTrackAssociationCollection)
    (clusterCollection : Option (List DetSet)) (t : Nat) (currentTrackKeypair : TrajTrackPair)
    (out : Output) (hfilter : trajectoryHasPixelHit env currentTrackKeypair.key ≠ 0) :
    ∀ m ∈ extrapolationCalls
        ((getTrajTrackDataLoopBody env trajTrackCollection clusterCollection t
          currentTrackKeypair out).calls.drop out.calls.length),
      ¬((getModuleData env true m.recHit.geographicalId).det = 0 ∧
        (getModuleData env true m.recHit.geographicalId).layer = 1) := by
  intro m hcall
  have hm := getTrajTrackDataLoopBody_extrapolationCalls_mem env trajTrackCollection
    clusterCollection t currentTrackKeypair out m hcall
  unfold extrapolationSource at hm
  cases hlast : (preLayer1Measurements env currentTrackKeypair.key.measurements).getLast? with
  | none => simp [hlast] at hm
  | some p =>
    simp only [hlast] at hm
    cases hvalid : p.2.recHit.isValid with
    | false => simp [hvalid] at hm
    | true =>
      simp only [hvalid, if_true, Option.some.injEq] at hm
      subst hm
      have hpre : p ∈ preLayer1Measurements env currentTrackKeypair.key.measurements :=
        List.mem_of_getLast?_eq_some hlast
      have hnot := List.mem_takeWhile_imp hpre
      simp only [isLayer1Measurement, Bool.not_eq_true', Bool.and_eq_false_iff,
        beq_eq_false_iff_ne, ne_eq] at hnot
      intro h
      rcases hnot with hnot | hnot
      · exact hnot h.1
      · exact hnot h.2

/-- Witness of C11 on the track with layers 3, 2, 1: the extrapolation starts from the layer-2
measurement. -/
theorem getTrajTrackData_extrapolation_source_not_on_layer1_witness :
    ¬((getModuleData demoEnv true
          (demoMeasurement 1 1 (demoValidHit (demoBarrelId 2))).recHit.geographicalId).det = 0 ∧
      (getModuleData demoEnv true
          (demoMeasurement 1 1 (demoValidHit (demoBarrelId 2))).recHit.geographicalId).layer
        = 1) :=
  getTrajTrackData_extrapolation_source_not_on_layer1 demoEnv [demoTrack321] none 0
    demoTrack321 Output.empty (by decide)
    (demoMeasurement 1 1 (demoValidHit (demoBarrelId 2))) (by decide!)

/-- C12: in an event that `analyze` processes with `getTrajTrackData`, every call of
`getLayer1ExtrapolatedHitsFromMeas` is the call `LayerMeasurements::measurements` on the first
pixel barrel layer with the clone of the propagator whose direction `analyze` has set to
`oppositeToMomentum`, and the body of the loop runs for every track with these members. -/
theorem analyze_extrapolates_opposite_to_momentum (env : Env) (ev : EventInputs)
    (out : Output) :
    (analyzeTrackerPropagator ev).propagationDirection =
      PropagationDirection.oppositeToMomentum ∧
    (analyzeTrackerPropagator ev).configuration = ev.propagator.configuration ∧
    (∀ trajMeasurement out2,
      (getLayer1ExtrapolatedHitsFromMeas (analyzeMembers env ev) trajMeasurement out2).1 =
        ev.measurements ev.pixelBarrelLayers.1 trajMeasurement.updatedState
          (analyzeTrackerPropagator ev)) ∧
    analyze env false ev out =
      getTrajTrackData (analyzeMembers env ev) ev.trajTrackCollection ev.clusterCollection
        out ∧
    (∀ t currentTrackKeypair, ev.trajTrackCollection[t]? = some currentTrackKeypair →
      analyze env false ev out =
        getTrajTrackDataLoop (analyzeMembers env ev) ev.trajTrackCollection
          ev.clusterCollection (ev.trajTrackCollection.drop (t + 1)) (t + 1)
          (getTrajTrackDataLoopBody (analyzeMembers env ev) ev.trajTrackCollection
            ev.clusterCollection t currentTrackKeypair
            (getTrajTrackDataLoop (analyzeMembers env ev) ev.trajTrackCollection
              ev.clusterCollection (ev.trajTrackCollection.take t) 0 out))) := by
  refine ⟨rfl, rfl, fun _ _ => rfl, by simp [analyze], ?_⟩
  intro t currentTrackKeypair ht
  have h : analyze env false ev out =
      getTrajTrackData (analyzeMembers env ev) ev.trajTrackCollection ev.clusterCollection
        out := by simp [analyze]
  rw [h]
  exact getTrajTrackData_at_entry _ _ _ _ _ _ ht

/-- Witness of C12 on `demoEventInputs`, whose propagator comes along the momentum: the
extrapolation from the layer-2 measurement is run against the momentum on layer 1 and finds
the candidate, which is saved in the primary tree after the two records of the track. -/
theorem analyze_extrapolates_opposite_to_momentum_witness :
    (analyze demoEnv false demoEventInputs Output.empty).trajTree_.map
        (fun traj_ => (traj_.mod_on.layer, traj_.lx)) = [(3, 0), (2, 1), (1, 7)] ∧
    analyze demoEnv false demoEventInputs Output.empty =
      getTrajTrackDataLoop (analyzeMembers demoEnv demoEventInputs)
        demoEventInputs.trajTrackCollection demoEventInputs.clusterCollection
        (demoEventInputs.trajTrackCollection.drop (0 + 1)) (0 + 1)
        (getTrajTrackDataLoopBody (analyzeMembers demoEnv demoEventInputs)
          demoEventInputs.trajTrackCollection demoEventInputs.clusterCollection 0 demoTrack321
          (getTrajTrackDataLoop (analyzeMembers demoEnv demoEventInputs)
            demoEventInputs.trajTrackCollection demoEventInputs.clusterCollection
            (demoEventInputs.trajTrackCollection.take 0) 0 Output.empty)) :=
  ⟨by decide!,
    (analyze_extrapolates_opposite_to_momentum demoEnv demoEventInputs Output.empty).2.2.2.2
      0 demoTrack321 (by decide!)⟩

/-- C14: for a fixed environment, `getModuleData` with `online = true` and with
`online = false` agree, for every identifier, on the region, layer, sector, half, flipped,
shell, side, ring, panel, raw identifier, FED identifier and FED error; for a barrel identifier
they also agree on disk and blade, so they can differ in ladder and module only; for an endcap
identifier they also agree on ladder and module, so they can differ in disk and blade only. -/
theorem getModuleData_online_offline (env : Env) (detId : DetId)
    (hdistinct : env.PixelBarrel ≠ env.PixelEndcap) :
    ((getModuleData env true detId).det = (getModuleData env false detId).det ∧
      (getModuleData env true detId).layer = (getModuleData env false detId).layer ∧
      (getModuleData env true detId).sec = (getModuleData env false detId).sec ∧
      (getModuleData env true detId).half = (getModuleData env false detId).half ∧
      (getModuleData env true detId).flipped = (getModuleData env false detId).flipped ∧
      (getModuleData env true detId).shl = (getModuleData env false detId).shl ∧
      (getModuleData env true detId).side = (getModuleData env false detId).side ∧
      (getModuleData env true detId).ring = (getModuleData env false detId).ring ∧
      (getModuleData env true detId).panel = (getModuleData env false detId).panel ∧
      (getModuleData env true detId).rawid = (getModuleData env false detId).rawid ∧
      (getModuleData env true detId).fedid = (getModuleData env false detId).fedid ∧
      (getModuleData env true detId).federr = (getModuleData env false detId).federr) ∧
    (detId.subdetId = env.PixelBarrel →
      (getModuleData env true detId).disk = (getModuleData env false detId).disk ∧
      (getModuleData env true detId).blade = (getModuleData env false detId).blade ∧
      getModuleData env true detId =
        { getModuleData env false detId with
          ladder := env.coord_.signed_ladder detId
          module := env.coord_.signed_module detId }) ∧
    (detId.subdetId = env.PixelEndcap →
      (getModuleData env true detId).ladder = (getModuleData env false detId).ladder ∧
      (getModuleData env true detId).module = (getModuleData env false detId).module ∧
      getModuleData env true detId =
        { getModuleData env false detId with
          disk := env.coord_.signed_disk detId
          blade := env.coord_.signed_blade detId }) := by
  refine ⟨?_, ?_, ?_⟩
  · unfold getModuleData
    by_cases hb : detId.subdetId = env.PixelBarrel
    · simp [hb]
    · by_cases he : detId.subdetId = env.PixelEndcap
      · simp only [if_neg hb, if_pos he]
        simp
      · simp [hb, he]
  · intro hb
    unfold getModuleData
    simp [hb]
  · intro he
    have hb : detId.subdetId ≠ env.PixelBarrel := fun h => hdistinct (h.symm.trans he)
    unfold getModuleData
    simp only [if_neg hb, if_pos he]
    simp

/-- Witness of C14 on a barrel and on an endcap identifier. -/
theorem getModuleData_online_offline_witness :
    getModuleData demoEnv true (demoBarrelId 2) =
      { getModuleData demoEnv false (demoBarrelId 2) with
        ladder := demoEnv.coord_.signed_ladder (demoBarrelId 2)
        module := demoEnv.coord_.signed_module (demoBarrelId 2) } ∧
    getModuleData demoEnv true (demoEndcapId 1) =
      { getModuleData demoEnv false (demoEndcapId 1) with
        disk := demoEnv.coord_.signed_disk (demoEndcapId 1)
        blade := demoEnv.coord_.signed_blade (demoEndcapId 1) } :=
  ⟨((getModuleData_online_offline demoEnv (demoBarrelId 2) (by decide)).2.1
      (by decide)).2.2,
    ((getModuleData_online_offline demoEnv (demoEndcapId 1) (by decide)).2.2
      (by decide)).2.2⟩

/-- C15, as stated, fails: the identifier of a muon chamber (detector 2, subdetector 1) is not
on the pixel detector, and `getModuleData` gives it the region of the barrel, `det = 0`. -/
theorem getModuleData_off_pixel_region_barrel :
    detidIsOnPixel demoEnv demoMuonId = false ∧
    (getModuleData demoEnv true demoMuonId).det = 0 ∧
    (getModuleData demoEnv false demoMuonId).det = 0 := by
  refine ⟨by decide, by decide, by decide⟩

/-- C15, amended: `getModuleData` sets the region of every identifier to the subdetector
number minus one; with the pixel barrel as subdetector 1 and the pixel endcap as subdetector 2,
the region of every tracker identifier that is not on the pixel detector is neither 0 nor 1. -/
theorem getModuleData_off_pixel_tracker_region (env : Env) (online : Bool) (detId : DetId) :
    (getModuleData env online detId).det = (detId.subdetId : Int) - 1 ∧
    (env.PixelBarrel = 1 → env.PixelEndcap = 2 → detId.det = env.Tracker →
      detidIsOnPixel env detId = false →
      (getModuleData env online detId).det ≠ 0 ∧
      (getModuleData env online detId).det ≠ 1) := by
  have hdet : (getModuleData env online detId).det = (detId.subdetId : Int) - 1 := by
    unfold getModuleData
    by_cases hb : detId.subdetId = env.PixelBarrel
    · cases online <;> simp [hb]
    · by_cases he : detId.subdetId = env.PixelEndcap
      · simp only [if_neg hb, if_pos he]
        cases online <;> simp
      · simp [hb, he]
  refine ⟨hdet, ?_⟩
  intro hbarrel hendcap htracker hoff
  have h1 : detId.subdetId ≠ 1 := by
    intro h
    simp [detidIsOnPixel, htracker, hbarrel, h] at hoff
  have h2 : detId.subdetId ≠ 2 := by
    intro h
    simp [detidIsOnPixel, htracker, hbarrel, hendcap, h] at hoff
  constructor
  · rw [hdet]
    omega
  · rw [hdet]
    omega

/-- Witness of C15 (amended) on the identifier of a strip module (tracker, subdetector 3):
its region is 2, neither 0 nor 1; the region of the identifier of a muon chamber is its
subdetector number minus one as well. -/
theorem getModuleData_off_pixel_tracker_region_witness :
    (getModuleData demoEnv true demoStripId).det = ((demoStripId.subdetId : Nat) : Int) - 1 ∧
    (getModuleData demoEnv true demoStripId).det ≠ 0 ∧
    (getModuleData demoEnv true demoStripId).det ≠ 1 ∧
    (getModuleData demoEnv true demoMuonId).det = ((demoMuonId.subdetId : Nat) : Int) - 1 :=
  ⟨(getModuleData_off_pixel_tracker_region demoEnv true demoStripId).1,
    ((getModuleData_off_pixel_tracker_region demoEnv true demoStripId).2 (by decide)
      (by decide) (by decide) (by decide)).1,
    ((getModuleData_off_pixel_tracker_region demoEnv true demoStripId).2 (by decide)
      (by decide) (by decide) (by decide)).2,
    (getModuleData_off_pixel_tracker_region demoEnv true demoMuonId).1⟩

/-- C16: the FED error `getModuleData` attaches to an identifier is the value the map
`federrors_` holds for its raw identifier, 0 when the map has no entry for it; `analyze` binds
the map to the result of `getFedErrors`, which is the empty map when the raw-error collection
of the event is absent, and then every module gets the error code 0. -/
theorem getModuleData_federr (env : Env) (online : Bool) (detId : DetId) (ev : EventInputs) :
    (getModuleData env online detId).federr =
      (match env.federrors_.lookup detId.rawId with
        | some federr => federr
        | none => 0) ∧
    (analyzeMembers env ev).federrors_ = getFedErrors ev.siPixelRawDataErrorCollection ∧
    getFedErrors none = [] ∧
    (getModuleData { env with federrors_ := getFedErrors none } online detId).federr = 0 := by
  have hfederr : ∀ e : Env, (getModuleData e online detId).federr =
      (match e.federrors_.lookup detId.rawId with
        | some federr => federr
        | none => 0) := by
    intro e
    unfold getModuleData
    by_cases hb : detId.subdetId = e.PixelBarrel
    · cases online <;> simp [hb]
    · by_cases he : detId.subdetId = e.PixelEndcap
      · simp only [if_neg hb, if_pos he]
      · simp [hb, he]
  refine ⟨hfederr env, rfl, rfl, ?_⟩
  rw [hfederr]
  simp [getFedErrors]

/-- The FED error of the module on barrel layer 2 in an event whose raw-error collection is
`demoRawErrors`: the type of the first error listed for the module. -/
theorem getModuleData_federr_example :
    (getModuleData
      (analyzeMembers demoEnv
        { demoEventInputs with siPixelRawDataErrorCollection := some demoRawErrors })
      true (demoBarrelId 2)).federr = 30 ∧
    (getModuleData
      (analyzeMembers demoEnv
        { demoEventInputs with siPixelRawDataErrorCollection := some demoRawErrors })
      true (demoBarrelId 3)).federr = 0 := by
  refine ⟨by decide, by decide⟩

/-- The cluster `selectCluster` chooses does not depend on the record it is handed. -/
theorem selectCluster_snd (env : Env) (recHit : TrackingRecHit) (localPosition : LocalPoint)
    (clusterCollection : Option (List DetSet)) (traj_ traj2 : TrajMeasData) :
    (selectCluster env recHit localPosition clusterCollection traj_).2 =
      (selectCluster env recHit localPosition clusterCollection traj2).2 := by
  unfold selectCluster
  split
  · rfl
  · split
    · rfl
    · split <;> rfl

/-- Where no cluster is chosen, `selectCluster` returns the record it is handed. -/
theorem selectCluster_fst_of_none (env : Env) (recHit : TrackingRecHit)
    (localPosition : LocalPoint) (clusterCollection : Option (List DetSet))
    (traj_ : TrajMeasData)
    (hnone : (selectCluster env recHit localPosition clusterCollection traj_).2 = none) :
    (selectCluster env recHit localPosition clusterCollection traj_).1 = traj_ := by
  unfold selectCluster at hnone ⊢
  split
  · rename_i h1 h2
    simp [h1, h2] at hnone
  · split
    · rfl
    · split <;> rfl

/-- The cluster selection leaves the position and the angles of the record as they are. -/
theorem selectCluster_position (env : Env) (recHit : TrackingRecHit)
    (localPosition : LocalPoint) (clusterCollection : Option (List DetSet))
    (traj_ : TrajMeasData) :
    (selectCluster env recHit localPosition clusterCollection traj_).1.lx = traj_.lx ∧
    (selectCluster env recHit localPosition clusterCollection traj_).1.ly = traj_.ly ∧
    (selectCluster env recHit localPosition clusterCollection traj_).1.alpha = traj_.alpha ∧
    (selectCluster env recHit localPosition clusterCollection traj_).1.beta = traj_.beta ∧
    (selectCluster env recHit localPosition clusterCollection traj_).1.roc = traj_.roc ∧
    (selectCluster env recHit localPosition clusterCollection traj_).1.roc_on =
      traj_.roc_on := by
  unfold selectCluster
  split
  · simp
  · split
    · simp
    · split <;> simp

/-- The cluster quantities of the record at `Fill()`: untouched since `init()` when no cluster
is chosen, computed from the chosen cluster otherwise. -/
theorem trajMeasDataAtFill_cluster (env : Env) (measurement : TrajectoryMeasurement)
    (addr : MeasAddr) (trajTrackCollection : TrajTrackAssociationCollection)
    (clusterCollection : Option (List DetSet)) (trajStateOnSurface : TrajectoryStateData) :
    match (selectCluster env measurement.recHit trajStateOnSurface.localPosition
      clusterCollection env.trajMeasDataInit).2 with
    | none =>
      (trajMeasDataAtFill env measurement addr trajTrackCollection clusterCollection
          trajStateOnSurface).clu = env.trajMeasDataInit.clu ∧
      (trajMeasDataAtFill env measurement addr trajTrackCollection clusterCollection
          trajStateOnSurface).norm_charge = env.trajMeasDataInit.norm_charge ∧
      (trajMeasDataAtFill env measurement addr trajTrackCollection clusterCollection
          trajStateOnSurface).dx_cl = env.trajMeasDataInit.dx_cl ∧
      (trajMeasDataAtFill env measurement addr trajTrackCollection clusterCollection
          trajStateOnSurface).dy_cl = env.trajMeasDataInit.dy_cl ∧
      (trajMeasDataAtFill env measurement addr trajTrackCollection clusterCollection
          trajStateOnSurface).d_cl = env.trajMeasDataInit.d_cl
    | some clust =>
      (trajMeasDataAtFill env measurement addr trajTrackCollection clusterCollection
          trajStateOnSurface).clu.charge = (clust.charge : ℚ) / 1000 ∧
      (trajMeasDataAtFill env measurement addr trajTrackCollection clusterCollection
          trajStateOnSurface).clu.size = clust.size ∧
      (trajMeasDataAtFill env measurement addr trajTrackCollection clusterCollection
          trajStateOnSurface).clu.lx =
        (env.getParameters clust measurement.recHit.geographicalId).x ∧
      (trajMeasDataAtFill env measurement addr trajTrackCollection clusterCollection
          trajStateOnSurface).clu.ly =
        (env.getParameters clust measurement.recHit.geographicalId).y ∧
      (trajMeasDataAtFill env measurement addr trajTrackCollection clusterCollection
          trajStateOnSurface).norm_charge =
        normalizedCharge env ((clust.charge : ℚ) / 1000)
          (trajMeasDataAtFill env measurement addr trajTrackCollection clusterCollection
            trajStateOnSurface).alpha
          (trajMeasDataAtFill env measurement addr trajTrackCollection clusterCollection
            trajStateOnSurface).beta ∧
      (trajMeasDataAtFill env measurement addr trajTrackCollection clusterCollection
          trajStateOnSurface).d_cl =
        clusterPointDistance2D env measurement.recHit.geographicalId clust
          trajStateOnSurface.localPosition := by
  cases hsel : (selectCluster env measurement.recHit trajStateOnSurface.localPosition
      clusterCollection env.trajMeasDataInit).2 with
  | none =>
    simp only []
    unfold trajMeasDataAtFill
    simp only []
    split
    · rename_i h
      simp [selectCluster_fst_of_none _ _ _ _ _ h]
    · rename_i c h
      rw [selectCluster_snd _ _ _ _ _ env.trajMeasDataInit, hsel] at h
      cases h
  | some clust =>
    simp only []
    unfold trajMeasDataAtFill clusterPointDistance2D
    simp only []
    split
    · rename_i h
      rw [selectCluster_snd _ _ _ _ _ env.trajMeasDataInit, hsel] at h
      cases h
    · rename_i c h
      rw [selectCluster_snd _ _ _ _ _ env.trajMeasDataInit, hsel] at h
      cases h
      simp [selectCluster_position]

/-- C17: the cluster `checkAndSaveTrajMeasurementData` uses is the cluster of the underlying
hit when the hit is valid and has a pixel hit behind it; otherwise the result of
`getClosestClusterOnDetSetToPoint` at the predicted local position on the clusters of the
module of the measurement, when the cluster collection is valid and holds that module;
otherwise none.  With no cluster, the cluster part of the record, the normalised charge and the
cluster distances stay as `init()` left them; with a cluster they are computed from it. -/
theorem checkAndSaveTrajMeasurementData_cluster_choice (env : Env)
    (measurement : TrajectoryMeasurement) (addr : MeasAddr)
    (trajTrackCollection : TrajTrackAssociationCollection)
    (clusterCollection : Option (List DetSet)) (trajStateOnSurface : TrajectoryStateData) :
    (∀ hit, measurement.recHit.isValid = true → measurement.recHit.hit = some hit →
      chosenCluster env measurement.recHit trajStateOnSurface.localPosition clusterCollection =
        some hit.cluster) ∧
    (¬(measurement.recHit.isValid = true ∧ measurement.recHit.hit.isSome = true) →
      ∀ collection clustersOnDet, clusterCollection = some collection →
        collection.find? (fun ds => ds.id.rawId = measurement.recHit.geographicalId.rawId) =
          some clustersOnDet →
        chosenCluster env measurement.recHit trajStateOnSurface.localPosition
            clusterCollection =
          (getClosestClusterOnDetSetToPoint env clustersOnDet
            trajStateOnSurface.localPosition).bind (fun i => clustersOnDet.data[i]?)) ∧
    (¬(measurement.recHit.isValid = true ∧ measurement.recHit.hit.isSome = true) →
      (clusterCollection = none ∨
        ∃ collection, clusterCollection = some collection ∧
          collection.find?
            (fun ds => ds.id.rawId = measurement.recHit.geographicalId.rawId) = none) →
      chosenCluster env measurement.recHit trajStateOnSurface.localPosition clusterCollection =
        none) ∧
    (chosenCluster env measurement.recHit trajStateOnSurface.localPosition clusterCollection =
        none →
      (trajMeasDataAtFill env measurement addr trajTrackCollection clusterCollection
          trajStateOnSurface).clu = env.trajMeasDataInit.clu ∧
      (trajMeasDataAtFill env measurement addr trajTrackCollection clusterCollection
          trajStateOnSurface).norm_charge = env.trajMeasDataInit.norm_charge ∧
      (trajMeasDataAtFill env measurement addr trajTrackCollection clusterCollection
          trajStateOnSurface).dx_cl = env.trajMeasDataInit.dx_cl ∧
      (trajMeasDataAtFill env measurement addr trajTrackCollection clusterCollection
          trajStateOnSurface).dy_cl = env.trajMeasDataInit.dy_cl ∧
      (trajMeasDataAtFill env measurement addr trajTrackCollection clusterCollection
          trajStateOnSurface).d_cl = env.trajMeasDataInit.d_cl) ∧
    (∀ clust,
      chosenCluster env measurement.recHit trajStateOnSurface.localPosition clusterCollection =
        some clust →
      (trajMeasDataAtFill env measurement addr trajTrackCollection clusterCollection
          trajStateOnSurface).clu.charge = (clust.charge : ℚ) / 1000 ∧
      (trajMeasDataAtFill env measurement addr trajTrackCollection clusterCollection
          trajStateOnSurface).clu.size = clust.size ∧
      (trajMeasDataAtFill env measurement addr trajTrackCollection clusterCollection
          trajStateOnSurface).clu.lx =
        (env.getParameters clust measurement.recHit.geographicalId).x ∧
      (trajMeasDataAtFill env measurement addr trajTrackCollection clusterCollection
          trajStateOnSurface).clu.ly =
        (env.getParameters clust measurement.recHit.geographicalId).y ∧
      (trajMeasDataAtFill env measurement addr trajTrackCollection clusterCollection
          trajStateOnSurface).norm_charge =
        normalizedCharge env ((clust.charge : ℚ) / 1000)
          (trajMeasDataAtFill env measurement addr trajTrackCollection clusterCollection
            trajStateOnSurface).alpha
          (trajMeasDataAtFill env measurement addr trajTrackCollection clusterCollection
            trajStateOnSurface).beta ∧
      (trajMeasDataAtFill env measurement addr trajTrackCollection clusterCollection
          trajStateOnSurface).d_cl =
        clusterPointDistance2D env measurement.recHit.geographicalId clust
          trajStateOnSurface.localPosition) := by
  have hbranch : ¬(measurement.recHit.isValid = true ∧
      measurement.recHit.hit.isSome = true) →
      chosenCluster env measurement.recHit trajStateOnSurface.localPosition
          clusterCollection =
        match clusterCollection with
        | none => none
        | some collection =>
          match collection.find?
            (fun ds => ds.id.rawId = measurement.recHit.geographicalId.rawId) with
          | none => none
          | some clustersOnDet =>
            (getClosestClusterOnDetSetToPoint env clustersOnDet
              trajStateOnSurface.localPosition).bind (fun i => clustersOnDet.data[i]?) := by
    intro hnot
    unfold chosenCluster selectCluster
    cases hv : measurement.recHit.isValid <;> cases hh : measurement.recHit.hit
    · cases clusterCollection with
      | none => rfl
      | some collection => simp only []; split <;> rfl
    · cases clusterCollection with
      | none => rfl
      | some collection => simp only []; split <;> rfl
    · cases clusterCollection with
      | none => rfl
      | some collection => simp only []; split <;> rfl
    · exact absurd ⟨hv, by simp [hh]⟩ hnot
  have hrecord := trajMeasDataAtFill_cluster env measurement addr trajTrackCollection
    clusterCollection trajStateOnSurface
  refine ⟨?_, ?_, ?_, ?_, ?_⟩
  · intro hit hvalid hhit
    simp [chosenCluster, selectCluster, hvalid, hhit]
  · intro hnot collection clustersOnDet hcoll hfind
    rw [hbranch hnot, hcoll]
    simp only [hfind]
  · intro hnot hcase
    rw [hbranch hnot]
    rcases hcase with hnone | ⟨collection, hcoll, hfind⟩
    · rw [hnone]
    · rw [hcoll]
      simp only [hfind]
  · intro hnone
    unfold chosenCluster at hnone
    rw [hnone] at hrecord
    exact hrecord
  · intro clust hsome
    unfold chosenCluster at hsome
    rw [hsome] at hrecord
    exact hrecord

/-- Witness of C17: a valid hit with a pixel hit behind it gives the cluster of that hit; a
missing hit on the module of `demoClusters` gives the cluster closest to the predicted
position; a missing hit without a cluster collection gives no cluster and the charge of the
record stays at -9999. -/
theorem checkAndSaveTrajMeasurementData_cluster_choice_witness :
    chosenCluster demoEnv demoPixelHit ⟨0, 0, 0⟩ demoClusterCollection =
      some ⟨5000, 2, 1, 2, 4, 4⟩ ∧
    chosenCluster demoEnv (demoMissingHit (demoBarrelId 2)) ⟨0, 0, 0⟩ demoClusterCollection =
      (getClosestClusterOnDetSetToPoint demoEnv demoClusters ⟨0, 0, 0⟩).bind
        (fun i => demoClusters.data[i]?) ∧
    chosenCluster demoEnv (demoMissingHit (demoBarrelId 2)) ⟨0, 0, 0⟩ none = none ∧
    (trajMeasDataAtFill demoEnv (demoMeasurement 0 0 (demoMissingHit (demoBarrelId 2)))
      (some (0, 0)) demoTwoTrackEvent none
      ⟨⟨0, 0, 0⟩, ⟨0, 0, 0⟩, 1, 1, ⟨0, 0, 1⟩⟩).clu = demoEnv.trajMeasDataInit.clu ∧
    (trajMeasDataAtFill demoEnv (demoMeasurement 0 0 (demoMissingHit (demoBarrelId 2)))
      (some (0, 0)) demoTwoTrackEvent demoClusterCollection
      ⟨⟨0, 0, 0⟩, ⟨0, 0, 0⟩, 1, 1, ⟨0, 0, 1⟩⟩).clu.charge = (1000 : ℚ) / 1000 :=
  ⟨(checkAndSaveTrajMeasurementData_cluster_choice demoEnv
      (demoMeasurement 0 0 demoPixelHit) none [] demoClusterCollection
      ⟨⟨0, 0, 0⟩, ⟨0, 0, 0⟩, 1, 1, ⟨0, 0, 1⟩⟩).1
      ⟨demoBarrelId 3, ⟨5000, 2, 1, 2, 4, 4⟩, false, false, false⟩ rfl rfl,
    (checkAndSaveTrajMeasurementData_cluster_choice demoEnv
      (demoMeasurement 0 0 (demoMissingHit (demoBarrelId 2))) none [] demoClusterCollection
      ⟨⟨0, 0, 0⟩, ⟨0, 0, 0⟩, 1, 1, ⟨0, 0, 1⟩⟩).2.1
      (by decide) [demoClusters] demoClusters rfl (by decide),
    (checkAndSaveTrajMeasurementData_cluster_choice demoEnv
      (demoMeasurement 0 0 (demoMissingHit (demoBarrelId 2))) none [] none
      ⟨⟨0, 0, 0⟩, ⟨0, 0, 0⟩, 1, 1, ⟨0, 0, 1⟩⟩).2.2.1
      (by decide) (Or.inl rfl),
    ((checkAndSaveTrajMeasurementData_cluster_choice demoEnv
      (demoMeasurement 0 0 (demoMissingHit (demoBarrelId 2))) (some (0, 0)) demoTwoTrackEvent
      none ⟨⟨0, 0, 0⟩, ⟨0, 0, 0⟩, 1, 1, ⟨0, 0, 1⟩⟩).2.2.2.1 (by decide!)).1,
    ((checkAndSaveTrajMeasurementData_cluster_choice demoEnv
      (demoMeasurement 0 0 (demoMissingHit (demoBarrelId 2))) (some (0, 0)) demoTwoTrackEvent
      demoClusterCollection ⟨⟨0, 0, 0⟩, ⟨0, 0, 0⟩, 1, 1, ⟨0, 0, 1⟩⟩).2.2.2.2
      ⟨1000, 1, 1, 1, 1, 0⟩ (by decide!)).1⟩

/-- A position `getClosestClusterOnDetSetToPoint` returns is the position of a cluster of the
set whose squared distance to the reference point is the least. -/
theorem getClosestClusterOnDetSetToPoint_some_min (env : Env) (clustersOnDet : DetSet)
    (referencePoint : LocalPoint) (i : Nat)
    (hi : getClosestClusterOnDetSetToPoint env clustersOnDet referencePoint = some i) :
    ∃ c, clustersOnDet.data[i]? = some c ∧
      ∀ other ∈ clustersOnDet.data,
        clusterPointDistanceSquared env clustersOnDet.id c referencePoint ≤
          clusterPointDistanceSquared env clustersOnDet.id other referencePoint := by
  obtain ⟨id, data⟩ := clustersOnDet
  cases data with
  | nil => simp [getClosestClusterOnDetSetToPoint] at hi
  | cons first tl =>
    simp only [getClosestClusterOnDetSetToPoint, Option.some.injEq] at hi
    obtain ⟨h1, _, h3⟩ := closestClusterLoop_spec env id referencePoint (first :: tl) 0
      (0, clusterPointDistanceSquared env id first referencePoint)
    rcases h1 with h1 | ⟨j, c, hj, h1⟩
    · rw [h1] at hi h3
      subst hi
      exact ⟨first, by simp, h3⟩
    · rw [h1] at hi h3
      simp only [Nat.zero_add] at hi
      subst hi
      exact ⟨c, hj, h3⟩

/-- The factor of the normalised charge is a function of the squares of the two tangents. -/
theorem chargeCorrection_of_sq_eq (env : Env) (tanAlpha tanBeta tanAlpha2 tanBeta2 : ℚ)
    (halpha : tanAlpha2 ^ 2 = tanAlpha ^ 2) (hbeta : tanBeta2 ^ 2 = tanBeta ^ 2) :
    chargeCorrection env tanAlpha2 tanBeta2 = chargeCorrection env tanAlpha tanBeta := by
  unfold chargeCorrection
  rw [halpha, hbeta]

/-- C19: the normalised charge `checkAndSaveTrajMeasurementData` computes from a cluster
charge and two track angles is the same for two angles whose tangents are the negatives of the
tangents of the first two, and more generally for angles whose tangents have the same squares:
it depends on the tangents through their squares only. -/
theorem normalizedCharge_sign_flip (env : Env) (charge alpha beta alpha2 beta2 : ℚ) :
    (env.tan alpha2 = -env.tan alpha → env.tan beta2 = -env.tan beta →
      normalizedCharge env charge alpha2 beta2 = normalizedCharge env charge alpha beta) ∧
    (env.tan alpha2 ^ 2 = env.tan alpha ^ 2 → env.tan beta2 ^ 2 = env.tan beta ^ 2 →
      normalizedCharge env charge alpha2 beta2 = normalizedCharge env charge alpha beta) ∧
    charge * chargeCorrection env (-env.tan alpha) (-env.tan beta) =
      normalizedCharge env charge alpha beta := by
  refine ⟨?_, ?_, ?_⟩
  · intro halpha hbeta
    unfold normalizedCharge
    rw [chargeCorrection_of_sq_eq env (env.tan alpha) (env.tan beta) (env.tan alpha2)
      (env.tan beta2) (by rw [halpha]; ring) (by rw [hbeta]; ring)]
  · intro halpha hbeta
    unfold normalizedCharge
    rw [chargeCorrection_of_sq_eq env _ _ _ _ halpha hbeta]
  · unfold normalizedCharge
    rw [chargeCorrection_of_sq_eq env (env.tan alpha) (env.tan beta) (-env.tan alpha)
      (-env.tan beta) (by ring) (by ring)]

/-- Witness of C19 with the tangents 2 and 3 and their negatives (the tangent of `demoEnv` is
the identity). -/
theorem normalizedCharge_sign_flip_witness :
    normalizedCharge demoEnv 5 (-2) (-3) = normalizedCharge demoEnv 5 2 3 :=
  (normalizedCharge_sign_flip demoEnv 5 2 3 (-2) (-3)).1 (by decide!) (by decide!)

/-- The readout-chip coordinates of the record at `Fill()` are those `getRocData` computes from
the point `rocPointOfMeasurement` gives, and undefined when that point is. -/
theorem trajMeasDataAtFill_roc (env : Env) (measurement : TrajectoryMeasurement)
    (addr : MeasAddr) (trajTrackCollection : TrajTrackAssociationCollection)
    (clusterCollection : Option (List DetSet)) (trajStateOnSurface : TrajectoryStateData) :
    (trajMeasDataAtFill env measurement addr trajTrackCollection clusterCollection
        trajStateOnSurface).roc =
      (rocPointOfMeasurement measurement.recHit trajStateOnSurface.localPosition).bind
        (getRocData env env.rocCoordinatesInit false) ∧
    (trajMeasDataAtFill env measurement addr trajTrackCollection clusterCollection
        trajStateOnSurface).roc_on =
      (rocPointOfMeasurement measurement.recHit trajStateOnSurface.localPosition).bind
        (getRocData env env.rocCoordinatesInit true) := by
  unfold trajMeasDataAtFill
  simp only []
  split
  · simp [selectCluster_position]
  · simp [selectCluster_position]

/-- The overloads of `getRocData` compute coordinates for every input but the null pointer to
a pixel hit. -/
theorem getRocData_eq_none_iff (env : Env) (mod : RocCoordinates) (online : Bool)
    (point : RocPoint) :
    getRocData env mod online point = none ↔ point = RocPoint.rechit none := by
  cases point with
  | digi detId digi => simp [getRocData]
  | rechit rechit =>
    cases rechit with
    | none => simp [getRocData]
    | some r => simp [getRocData]

/-- The hits for which `checkAndSaveTrajMeasurementData` hands a null pointer to `getRocData`
are those `dereferencesNullHit` describes. -/
theorem dereferencesNullHit_iff (recHit : TrackingRecHit) (localPosition : LocalPoint) :
    dereferencesNullHit recHit = true ↔
      rocPointOfMeasurement recHit localPosition = some (RocPoint.rechit none) := by
  unfold dereferencesNullHit rocPointOfMeasurement
  by_cases h : recHit.getType = RecHitType.valid
  · rw [if_pos h]
    cases recHit.hit <;> simp [h]
  · rw [if_neg h]
    cases missingHitDigi localPosition <;> simp [h]

/-- The call of `checkAndSaveTrajMeasurementData` is cut short exactly when its call of
`getRocData` has a null pointer to read: `dereferencesNullHit` holds of the hit if and only if
`getRocData` has no result on the point the function hands to it. -/
theorem dereferencesNullHit_iff_getRocData (env : Env) (online : Bool)
    (recHit : TrackingRecHit) (localPosition : LocalPoint) :
    dereferencesNullHit recHit = true ↔
      ∃ point, rocPointOfMeasurement recHit localPosition = some point ∧
        getRocData env env.rocCoordinatesInit online point = none := by
  rw [dereferencesNullHit_iff recHit localPosition]
  constructor
  · intro h
    exact ⟨RocPoint.rechit none, h, (getRocData_eq_none_iff _ _ _ _).mpr rfl⟩
  · rintro ⟨point, hpoint, hnone⟩
    rw [hpoint, (getRocData_eq_none_iff _ _ _ _).mp hnone]

/-- The value of `pow2` is the power of two. -/
theorem pow2_eq_zpow (e : Int) : pow2 e = (2 : ℚ) ^ e := by
  unfold pow2
  by_cases h : 0 ≤ e
  · rw [if_pos h]
    obtain ⟨n, rfl⟩ := Int.eq_ofNat_of_zero_le h
    simp
  · rw [if_neg h]
    have h2 : 0 ≤ -e := by omega
    obtain ⟨n, hn⟩ := Int.eq_ofNat_of_zero_le h2
    have he : e = -(n : Int) := by omega
    rw [he]
    simp

/-- With enough steps the loop counts the binary digits: a positive `n` lies between
`2 ^ (digits - 1)` and `2 ^ digits`. -/
theorem bitLengthLoop_spec : ∀ (fuel n : Nat), n ≤ fuel → n ≠ 0 →
    2 ^ (bitLengthLoop fuel n - 1) ≤ n ∧ n < 2 ^ bitLengthLoop fuel n
  | 0, n, h, h0 => absurd (Nat.le_zero.mp h) h0
  | fuel + 1, n, h, h0 => by
    unfold bitLengthLoop
    rw [if_neg h0]
    by_cases h2 : n / 2 = 0
    · have hn : n = 1 := by omega
      subst hn
      have hb : bitLengthLoop fuel (1 / 2) = 0 := by cases fuel <;> simp [bitLengthLoop]
      simp [hb]
    · have ih := bitLengthLoop_spec fuel (n / 2) (by omega) h2
      have hpos : bitLengthLoop fuel (n / 2) ≠ 0 := by
        intro hb
        rw [hb] at ih
        omega
      obtain ⟨k, hk⟩ := Nat.exists_eq_succ_of_ne_zero hpos
      rw [hk] at ih ⊢
      simp only [Nat.succ_sub_one, Nat.add_sub_cancel] at ih ⊢
      obtain ⟨ih1, ih2⟩ := ih
      rw [pow_succ] at ih2 ⊢
      constructor
      · omega
      · rw [pow_succ]
        omega

/-- A positive `n` lies between `2 ^ (bitLength n - 1)` and `2 ^ bitLength n`. -/
theorem bitLength_spec (n : Nat) (h0 : n ≠ 0) :
    2 ^ (bitLength n - 1) ≤ n ∧ n < 2 ^ bitLength n :=
  bitLengthLoop_spec n n (le_refl n) h0

/-- A quotient of two positive numbers with `p` and `q` binary digits lies between
`2 ^ (p - q - 1)` and `2 ^ (p - q + 1)`. -/
theorem zpow_two_bracket (N D p q : Nat) (hD : 0 < D) (hN1 : 2 ^ (p - 1) ≤ N)
    (hN2 : N < 2 ^ p) (hD1 : 2 ^ (q - 1) ≤ D) (hD2 : D < 2 ^ q) (hp : p ≠ 0) (hq : q ≠ 0) :
    (2 : ℚ) ^ (((p : Int) - (q : Int)) - 1) ≤ (N : ℚ) / (D : ℚ) ∧
    (N : ℚ) / (D : ℚ) < (2 : ℚ) ^ (((p : Int) - (q : Int)) + 1) := by
  have hDpos : (0 : ℚ) < (D : ℚ) := by exact_mod_cast hD
  have hN1q : (2 : ℚ) ^ (p - 1) ≤ (N : ℚ) := by exact_mod_cast hN1
  have hN2q : (N : ℚ) < (2 : ℚ) ^ p := by exact_mod_cast hN2
  have hD1q : (2 : ℚ) ^ (q - 1) ≤ (D : ℚ) := by exact_mod_cast hD1
  have hD2q : (D : ℚ) < (2 : ℚ) ^ q := by exact_mod_cast hD2
  have hNnn : (0 : ℚ) ≤ (N : ℚ) := Nat.cast_nonneg N
  constructor
  · have he : ((p : Int) - (q : Int)) - 1 = ((p - 1 : Nat) : Int) - (q : Nat) := by omega
    rw [he, zpow_sub₀ (by norm_num), zpow_natCast, zpow_natCast]
    rw [div_le_div_iff₀ (by positivity) hDpos]
    calc (2 : ℚ) ^ (p - 1) * (D : ℚ)
        ≤ (N : ℚ) * (D : ℚ) := mul_le_mul_of_nonneg_right hN1q hDpos.le
      _ ≤ (N : ℚ) * (2 : ℚ) ^ q := mul_le_mul_of_nonneg_left hD2q.le hNnn
  · have he : ((p : Int) - (q : Int)) + 1 = ((p : Nat) : Int) - ((q - 1 : Nat) : Int) := by
      omega
    rw [he, zpow_sub₀ (by norm_num), zpow_natCast, zpow_natCast]
    rw [div_lt_div_iff₀ hDpos (by positivity)]
    calc (N : ℚ) * (2 : ℚ) ^ (q - 1)
        ≤ (N : ℚ) * (D : ℚ) := mul_le_mul_of_nonneg_left hD1q hNnn
      _ < (2 : ℚ) ^ p * (D : ℚ) := mul_lt_mul_of_pos_right hN2q hDpos

/-- The binary exponent of a positive value brackets it between two powers of two. -/
theorem binaryExponent_spec (a : ℚ) (ha : 0 < a) :
    (2 : ℚ) ^ binaryExponent a ≤ a ∧ a < (2 : ℚ) ^ (binaryExponent a + 1) := by
  have hnum : 0 < a.num := Rat.num_pos.mpr ha
  have hN : a.num.natAbs ≠ 0 := by
    intro h
    have := Int.natAbs_eq_zero.mp h
    omega
  have hD : a.den ≠ 0 := a.den_nz
  obtain ⟨hN1, hN2⟩ := bitLength_spec _ hN
  obtain ⟨hD1, hD2⟩ := bitLength_spec _ hD
  have hp : bitLength a.num.natAbs ≠ 0 := by
    intro h
    rw [h] at hN2
    omega
  have hq : bitLength a.den ≠ 0 := by
    intro h
    rw [h] at hD2
    omega
  have hval : (a.num.natAbs : ℚ) / (a.den : ℚ) = a := by
    rw [Nat.cast_natAbs, abs_of_pos hnum]
    exact Rat.num_div_den a
  obtain ⟨hlow, hup⟩ := zpow_two_bracket a.num.natAbs a.den _ _ a.den_pos hN1 hN2 hD1 hD2 hp hq
  rw [hval] at hlow hup
  unfold binaryExponent
  simp only []
  rw [pow2_eq_zpow]
  by_cases hk : (2 : ℚ) ^ ((bitLength a.num.natAbs : Int) - (bitLength a.den : Int)) ≤ a
  · rw [if_pos hk]
    exact ⟨hk, hup⟩
  · rw [if_neg hk]
    refine ⟨hlow, ?_⟩
    rw [sub_add_cancel]
    exact not_le.mp hk

/-- The integer `roundHalfEven` gives is at most one half away. -/
theorem roundHalfEven_spec (m : ℚ) : |(roundHalfEven m : ℚ) - m| ≤ 1 / 2 := by
  have hf : Rat.floor m = ⌊m⌋ := rfl
  have h1 : (⌊m⌋ : ℚ) ≤ m := Int.floor_le m
  have h2 : m < (⌊m⌋ : ℚ) + 1 := Int.lt_floor_add_one m
  unfold roundHalfEven
  simp only [hf]
  rw [abs_le]
  split_ifs with ha hb hc
  · constructor <;> linarith
  · push_cast
    constructor <;> linarith
  · constructor <;> linarith
  · push_cast
    constructor <;> linarith

/-- The rounding to `double` moves a value by at most half a unit of its 53rd significant
binary digit: the relative error is at most `2 ^ -53`. -/
theorem roundToDouble_error (x : ℚ) : |roundToDouble x - x| ≤ |x| / 2 ^ 53 := by
  unfold roundToDouble
  by_cases h0 : x = 0
  · simp [h0]
  · rw [if_neg h0]
    simp only []
    have key : ∀ a : ℚ, 0 < a →
        |(roundHalfEven (a / pow2 (binaryExponent a - 52)) : ℚ) * pow2 (binaryExponent a - 52)
          - a| ≤ a / 2 ^ 53 := by
      intro a ha
      obtain ⟨hE, _⟩ := binaryExponent_spec a ha
      rw [pow2_eq_zpow]
      have hpos : (0 : ℚ) < (2 : ℚ) ^ (binaryExponent a - 52) := zpow_pos (by norm_num) _
      have hr := roundHalfEven_spec (a / (2 : ℚ) ^ (binaryExponent a - 52))
      have hfactor : (roundHalfEven (a / (2 : ℚ) ^ (binaryExponent a - 52)) : ℚ) *
          (2 : ℚ) ^ (binaryExponent a - 52) - a =
          ((roundHalfEven (a / (2 : ℚ) ^ (binaryExponent a - 52)) : ℚ) -
            a / (2 : ℚ) ^ (binaryExponent a - 52)) * (2 : ℚ) ^ (binaryExponent a - 52) := by
        field_simp
      rw [hfactor, abs_mul, abs_of_pos hpos]
      have hsplit : (2 : ℚ) ^ (binaryExponent a - 52) = (2 : ℚ) ^ binaryExponent a / 2 ^ 52 := by
        rw [zpow_sub₀ (by norm_num)]
        norm_num
      calc |(roundHalfEven (a / (2 : ℚ) ^ (binaryExponent a - 52)) : ℚ) -
            a / (2 : ℚ) ^ (binaryExponent a - 52)| * (2 : ℚ) ^ (binaryExponent a - 52)
          ≤ 1 / 2 * (2 : ℚ) ^ (binaryExponent a - 52) :=
            mul_le_mul_of_nonneg_right hr hpos.le
        _ = (2 : ℚ) ^ binaryExponent a / 2 ^ 53 := by
            rw [hsplit]
            ring
        _ ≤ a / 2 ^ 53 := by
            apply div_le_div_of_nonneg_right hE
            positivity
    by_cases hneg : x < 0
    · simp only [if_pos hneg]
      have := key (-x) (by linarith)
      rw [abs_of_neg hneg]
      have hrw : -((roundHalfEven (-x / pow2 (binaryExponent (-x) - 52)) : ℚ) *
          pow2 (binaryExponent (-x) - 52)) - x =
          -((roundHalfEven (-x / pow2 (binaryExponent (-x) - 52)) : ℚ) *
            pow2 (binaryExponent (-x) - 52) - -x) := by ring
      rw [hrw, abs_neg]
      exact this
    · simp only [if_neg hneg]
      have hpos : 0 < x := lt_of_le_of_ne (not_lt.mp hneg) (Ne.symm h0)
      rw [abs_of_pos hpos]
      exact key x hpos

/-- A bound on a value gives a bound on its rounding to `double`. -/
theorem abs_roundToDouble_le (x b : ℚ) (h : |x| ≤ b) :
    |roundToDouble x| ≤ b * (1 + 1 / 2 ^ 53) := by
  have herr := roundToDouble_error x
  have htri : |roundToDouble x| ≤ |roundToDouble x - x| + |x| := by
    have := abs_add (roundToDouble x - x) x
    simpa using this
  have hx : 0 ≤ |x| := abs_nonneg x
  calc |roundToDouble x| ≤ |roundToDouble x - x| + |x| := htri
    _ ≤ |x| / 2 ^ 53 + |x| := by linarith
    _ = |x| * (1 + 1 / 2 ^ 53) := by ring
    _ ≤ b * (1 + 1 / 2 ^ 53) := by
        apply mul_le_mul_of_nonneg_right h
        positivity

/-- The scaled value `(v / 0.81 + offset) * scale` of a coordinate of size at most `2 ^ 24`,
with an offset of size at most 4 and a scale of size at most 80, computed in double precision,
lies within the range in which the conversion to `int` is defined. -/
theorem scaledCoordinate_in_int_range (v offset scale : ℚ) (hv : |v| ≤ 2 ^ 24)
    (hoffset : |offset| ≤ 4) (hscale : |scale| ≤ 80) :
    -(2 ^ 31) - 1 <
        roundToDouble (roundToDouble (roundToDouble (v / roundToDouble (81 / 100)) + offset) *
          scale) ∧
      roundToDouble (roundToDouble (roundToDouble (v / roundToDouble (81 / 100)) + offset) *
          scale) < 2 ^ 31 := by
  have hc : roundToDouble (81 / 100) = 7295831396340204 / 2 ^ 53 := by decide!
  rw [hc]
  have h1 : |v / (7295831396340204 / 2 ^ 53 : ℚ)| ≤ 2 ^ 24 / (7295831396340204 / 2 ^ 53) := by
    rw [abs_div, abs_of_pos (by norm_num : (0 : ℚ) < 7295831396340204 / 2 ^ 53)]
    apply div_le_div_of_nonneg_right hv
    norm_num
  have h2 := abs_roundToDouble_le _ _ h1
  have h3 : |roundToDouble (v / (7295831396340204 / 2 ^ 53 : ℚ)) + offset| ≤
      2 ^ 24 / (7295831396340204 / 2 ^ 53) * (1 + 1 / 2 ^ 53) + 4 :=
    le_trans (abs_add _ _) (add_le_add h2 hoffset)
  have h4 := abs_roundToDouble_le _ _ h3
  have h5 : |roundToDouble (roundToDouble (v / (7295831396340204 / 2 ^ 53 : ℚ)) + offset) *
      scale| ≤
      (2 ^ 24 / (7295831396340204 / 2 ^ 53) * (1 + 1 / 2 ^ 53) + 4) * (1 + 1 / 2 ^ 53) * 80 := by
    rw [abs_mul]
    apply mul_le_mul h4 hscale (abs_nonneg _)
    positivity
  have h6 := abs_roundToDouble_le _ _ h5
  have h7 : (2 ^ 24 / (7295831396340204 / 2 ^ 53) * (1 + 1 / 2 ^ 53) + 4) * (1 + 1 / 2 ^ 53) *
      80 * (1 + 1 / 2 ^ 53) < (2 : ℚ) ^ 31 := by norm_num
  have h8 := lt_of_le_of_lt h6 h7
  rw [abs_lt] at h8
  constructor <;> linarith [h8.1, h8.2]

/-- The truncation toward zero is a value of the 32-bit type `int` exactly when the value lies
strictly between `-2^31 - 1` and `2^31`. -/
theorem truncate_in_int_range (x : ℚ) :
    (-(2 ^ 31) ≤ truncate x ∧ truncate x < 2 ^ 31) ↔ (-(2 ^ 31) - 1 < x ∧ x < 2 ^ 31) := by
  unfold truncate
  by_cases h : 0 ≤ x
  · rw [if_pos h]
    have hfloor : Rat.floor x = ⌊x⌋ := rfl
    rw [hfloor]
    have h0 : (0 : Int) ≤ ⌊x⌋ := Int.floor_nonneg.mpr h
    constructor
    · rintro ⟨_, h2⟩
      have h3 : x < ((2 ^ 31 : Int) : ℚ) := Int.floor_lt.mp h2
      refine ⟨by linarith, by simpa using h3⟩
    · rintro ⟨_, h2⟩
      refine ⟨by omega, Int.floor_lt.mpr (by simpa using h2)⟩
  · rw [if_neg h]
    have hx : x < 0 := not_le.mp h
    have hfloor : -Rat.floor (-x) = ⌈x⌉ := by
      have h1 : Rat.floor (-x) = ⌊-x⌋ := rfl
      rw [h1, Int.floor_neg, neg_neg]
    rw [hfloor]
    have h0 : ⌈x⌉ ≤ (0 : Int) := Int.ceil_le.mpr (by simpa using hx.le)
    have hcast : ((-(2 ^ 31) - 1 : Int) : ℚ) = -(2 ^ 31) - 1 := by norm_num
    constructor
    · rintro ⟨h1, _⟩
      have h3 : (-(2 ^ 31) - 1 : Int) < ⌈x⌉ := by omega
      have h4 : ((-(2 ^ 31) - 1 : Int) : ℚ) < x := Int.lt_ceil.mp h3
      rw [hcast] at h4
      exact ⟨h4, by linarith⟩
    · rintro ⟨h1, _⟩
      have h4 : ((-(2 ^ 31) - 1 : Int) : ℚ) < x := by
        rw [hcast]
        exact h1
      have h3 : (-(2 ^ 31) - 1 : Int) < ⌈x⌉ := Int.lt_ceil.mpr h4
      refine ⟨by omega, by omega⟩

/-- The conversion `static_cast_int` is defined exactly on the values strictly between
`-2^31 - 1` and `2^31`, where it is the truncation toward zero. -/
theorem static_cast_int_eq (x : ℚ) :
    static_cast_int x =
      if -(2 ^ 31) - 1 < x ∧ x < 2 ^ 31 then some (truncate x) else none := by
  unfold static_cast_int
  by_cases h : -(2 ^ 31) - 1 < x ∧ x < 2 ^ 31
  · rw [if_pos h, if_pos ((truncate_in_int_range x).mpr h)]
  · rw [if_neg h, if_neg (fun h2 => h ((truncate_in_int_range x).mp h2))]

/-- The truncation toward zero is the largest integer below a value that is not negative and
the smallest integer above a negative value. -/
theorem truncate_spec (x : ℚ) :
    (0 ≤ x → ((truncate x : Int) : ℚ) ≤ x ∧ x < ((truncate x : Int) : ℚ) + 1) ∧
    (x < 0 → x ≤ ((truncate x : Int) : ℚ) ∧ ((truncate x : Int) : ℚ) < x + 1) := by
  constructor
  · intro h
    have hdef : truncate x = ⌊x⌋ := by simp [truncate, h]; rfl
    rw [hdef]
    exact ⟨Int.floor_le x, Int.lt_floor_add_one x⟩
  · intro h
    have hdef : truncate x = ⌈x⌉ := by
      have h1 : Rat.floor (-x) = ⌊-x⌋ := rfl
      simp [truncate, not_le.mpr h, h1, Int.floor_neg]
    rw [hdef]
    exact ⟨Int.le_ceil x, Int.ceil_lt_add_one x⟩

/-- Every digit `missingHitDigi` gives has its row in [0, 159], its column in [0, 415] and the
charge 0. -/
theorem missingHitDigi_range (localPosition : LocalPoint) (digi : PixelDigi)
    (h : missingHitDigi localPosition = some digi) :
    0 ≤ digi.row ∧ digi.row ≤ 159 ∧ 0 ≤ digi.column ∧ digi.column ≤ 415 ∧ digi.adc = 0 := by
  unfold missingHitDigi at h
  split at h
  · injection h with h
    subst h
    exact ⟨le_max_left _ _, max_le (by decide) (min_le_left _ _), le_max_left _ _,
      max_le (by decide) (min_le_left _ _), rfl⟩
  · exact absurd h (by simp)

/-- The operations on `double` are rounded: for a missing hit predicted at local
x = -2^-100 the sum `lx / 0.81 + 1` is the double 1, so the row is 80, where the exact
arithmetic on the same operands gives a value below 80, truncated to 79. -/
theorem missingHitDigi_rounds_in_double :
    missingHitDigi ⟨-(1 / 2 ^ 100), 0, 0⟩ = some ⟨80, 208, 0⟩ ∧
    truncate ((-(1 / 2 ^ 100) / (81 / 100) + 1) * 80) = 79 := by
  constructor <;> decide!

/-- C20, counterexample: a missing hit predicted at local x = 2^100.  The scaled value
`(lx / 0.81 + 1) * 80` is about 1.25e32 in double precision, outside the range of `int`, so the
conversion `static_cast<int>` has no defined value and neither has the digit, while the claim
gives the row `clamp(trunc(1.25e32), 0, 159) = 159` for this position. -/
theorem checkAndSaveTrajMeasurementData_roc_input_out_of_range :
    (demoMissingHit (demoBarrelId 2)).getType ≠ RecHitType.valid ∧
    roundToDouble (roundToDouble (roundToDouble (2 ^ 100 / roundToDouble (81 / 100)) + 1) * 80) =
      125200059281800432269323975786496 ∧
    max 0 (min 159 (truncate 125200059281800432269323975786496)) = 159 ∧
    static_cast_int 125200059281800432269323975786496 = none ∧
    missingHitDigi ⟨2 ^ 100, 0, 0⟩ = none ∧
    rocPointOfMeasurement (demoMissingHit (demoBarrelId 2)) ⟨2 ^ 100, 0, 0⟩ = none ∧
    (trajMeasDataAtFill demoEnv (demoMeasurement (2 ^ 100) 0 (demoMissingHit (demoBarrelId 2)))
      none [] none ⟨⟨2 ^ 100, 0, 0⟩, ⟨2 ^ 100, 0, 0⟩, 1, 1, ⟨0, 0, 1⟩⟩).roc = none := by
  refine ⟨by decide, by decide!, by decide!, by decide!, by decide!, by decide!, ?_⟩
  rw [(trajMeasDataAtFill_roc _ _ _ _ _ _).1]
  have h : rocPointOfMeasurement
      (demoMeasurement (2 ^ 100) 0 (demoMissingHit (demoBarrelId 2))).recHit
      (⟨⟨2 ^ 100, 0, 0⟩, ⟨2 ^ 100, 0, 0⟩, 1, 1, ⟨0, 0, 1⟩⟩ :
        TrajectoryStateData).localPosition = none := by decide!
  rw [h]
  rfl

/-- C20, amended: for a measurement whose hit type is not valid and a predicted local position
whose scaled values `(lx / 0.81 + 1) * 80` and `(ly / 0.81 + 4) * 52`, computed in double
precision, lie strictly between `-2^31 - 1` and `2^31`, the digit handed to `getRocData` has
row `max(0, min(159, trunc((lx / 0.81 + 1) * 80)))` and column
`max(0, min(415, trunc((ly / 0.81 + 4) * 52)))`; the scaled values lie in that range whenever
the coordinate is at most `2^24` in size; whenever a digit is handed to `getRocData` its row is
in [0, 159] and its column in [0, 415]; for a hit of type valid the pixel hit is handed to
`getRocData` instead; the readout-chip coordinates of the record are computed from that
input. -/
theorem checkAndSaveTrajMeasurementData_roc_input (env : Env)
    (measurement : TrajectoryMeasurement) (addr : MeasAddr)
    (trajTrackCollection : TrajTrackAssociationCollection)
    (clusterCollection : Option (List DetSet)) (trajStateOnSurface : TrajectoryStateData) :
    (measurement.recHit.getType ≠ RecHitType.valid →
      (-(2 ^ 31) - 1 <
          roundToDouble (roundToDouble (roundToDouble
            (trajStateOnSurface.localPosition.x / roundToDouble (81 / 100)) + 1) * 80) ∧
        roundToDouble (roundToDouble (roundToDouble
            (trajStateOnSurface.localPosition.x / roundToDouble (81 / 100)) + 1) * 80) <
          2 ^ 31 →
        -(2 ^ 31) - 1 <
          roundToDouble (roundToDouble (roundToDouble
            (trajStateOnSurface.localPosition.y / roundToDouble (81 / 100)) + 4) * 52) ∧
        roundToDouble (roundToDouble (roundToDouble
            (trajStateOnSurface.localPosition.y / roundToDouble (81 / 100)) + 4) * 52) <
          2 ^ 31 →
        rocPointOfMeasurement measurement.recHit trajStateOnSurface.localPosition =
          some (RocPoint.digi measurement.recHit.geographicalId
            ⟨max 0 (min 159 (truncate (roundToDouble (roundToDouble (roundToDouble
                (trajStateOnSurface.localPosition.x / roundToDouble (81 / 100)) + 1) * 80)))),
              max 0 (min 415 (truncate (roundToDouble (roundToDouble (roundToDouble
                (trajStateOnSurface.localPosition.y / roundToDouble (81 / 100)) + 4) * 52)))),
              0⟩)) ∧
      (∀ point,
        rocPointOfMeasurement measurement.recHit trajStateOnSurface.localPosition =
          some point →
        ∃ digi, point = RocPoint.digi measurement.recHit.geographicalId digi ∧
          0 ≤ digi.row ∧ digi.row ≤ 159 ∧ 0 ≤ digi.column ∧ digi.column ≤ 415)) ∧
    (|trajStateOnSurface.localPosition.x| ≤ 2 ^ 24 →
      -(2 ^ 31) - 1 <
          roundToDouble (roundToDouble (roundToDouble
            (trajStateOnSurface.localPosition.x / roundToDouble (81 / 100)) + 1) * 80) ∧
        roundToDouble (roundToDouble (roundToDouble
            (trajStateOnSurface.localPosition.x / roundToDouble (81 / 100)) + 1) * 80) <
          2 ^ 31) ∧
    (|trajStateOnSurface.localPosition.y| ≤ 2 ^ 24 →
      -(2 ^ 31) - 1 <
          roundToDouble (roundToDouble (roundToDouble
            (trajStateOnSurface.localPosition.y / roundToDouble (81 / 100)) + 4) * 52) ∧
        roundToDouble (roundToDouble (roundToDouble
            (trajStateOnSurface.localPosition.y / roundToDouble (81 / 100)) + 4) * 52) <
          2 ^ 31) ∧
    (measurement.recHit.getType = RecHitType.valid →
      rocPointOfMeasurement measurement.recHit trajStateOnSurface.localPosition =
        some (RocPoint.rechit measurement.recHit.hit)) ∧
    (trajMeasDataAtFill env measurement addr trajTrackCollection clusterCollection
        trajStateOnSurface).roc =
      (rocPointOfMeasurement measurement.recHit trajStateOnSurface.localPosition).bind
        (getRocData env env.rocCoordinatesInit false) ∧
    (trajMeasDataAtFill env measurement addr trajTrackCollection clusterCollection
        trajStateOnSurface).roc_on =
      (rocPointOfMeasurement measurement.recHit trajStateOnSurface.localPosition).bind
        (getRocData env env.rocCoordinatesInit true) := by
  obtain ⟨hroc, hroc_on⟩ := trajMeasDataAtFill_roc env measurement addr trajTrackCollection
    clusterCollection trajStateOnSurface
  refine ⟨?_, ?_, ?_, ?_, hroc, hroc_on⟩
  · intro hnot
    refine ⟨?_, ?_⟩
    · intro hx hy
      unfold rocPointOfMeasurement missingHitDigi
      rw [if_neg hnot, static_cast_int_eq, static_cast_int_eq, if_pos hx, if_pos hy]
      rfl
    · intro point hpoint
      unfold rocPointOfMeasurement at hpoint
      rw [if_neg hnot] at hpoint
      obtain ⟨digi, hdigi, rfl⟩ := Option.map_eq_some'.mp hpoint
      obtain ⟨h1, h2, h3, h4, _⟩ := missingHitDigi_range _ _ hdigi
      exact ⟨digi, rfl, h1, h2, h3, h4⟩
  · intro hx
    exact scaledCoordinate_in_int_range _ 1 80 hx (by norm_num [abs_le]) (by norm_num [abs_le])
  · intro hy
    exact scaledCoordinate_in_int_range _ 4 52 hy (by norm_num [abs_le]) (by norm_num [abs_le])
  · intro hvalid
    simp [rocPointOfMeasurement, hvalid]

/-- Witness of C20: for a missing hit predicted at local (3/10, 1) the scaled values are about
109.6 and 272.2, so the digit has row 109 and column 272; at local (5, -9) the digit is clamped
to row 159 and column 0; for a valid hit the pixel hit is used. -/
theorem checkAndSaveTrajMeasurementData_roc_input_witness :
    rocPointOfMeasurement (demoMissingHit (demoBarrelId 2)) ⟨3 / 10, 1, 0⟩ =
      some (RocPoint.digi (demoBarrelId 2)
        ⟨max 0 (min 159 (truncate (roundToDouble (roundToDouble (roundToDouble
            (3 / 10 / roundToDouble (81 / 100)) + 1) * 80)))),
          max 0 (min 415 (truncate (roundToDouble (roundToDouble (roundToDouble
            (1 / roundToDouble (81 / 100)) + 4) * 52)))), 0⟩) ∧
    rocPointOfMeasurement (demoMissingHit (demoBarrelId 2)) ⟨3 / 10, 1, 0⟩ =
      some (RocPoint.digi (demoBarrelId 2) ⟨109, 272, 0⟩) ∧
    rocPointOfMeasurement (demoMissingHit (demoBarrelId 2)) ⟨5, -9, 0⟩ =
      some (RocPoint.digi (demoBarrelId 2) ⟨159, 0, 0⟩) ∧
    rocPointOfMeasurement demoPixelHit ⟨0, 0, 0⟩ = some (RocPoint.rechit demoPixelHit.hit) :=
  ⟨((checkAndSaveTrajMeasurementData_roc_input demoEnv
      (demoMeasurement (3 / 10) 1 (demoMissingHit (demoBarrelId 2)))
      none [] none ⟨⟨3 / 10, 1, 0⟩, ⟨3 / 10, 1, 0⟩, 1, 1, ⟨0, 0, 1⟩⟩).1 (by decide)).1
      ((checkAndSaveTrajMeasurementData_roc_input demoEnv
        (demoMeasurement (3 / 10) 1 (demoMissingHit (demoBarrelId 2)))
        none [] none ⟨⟨3 / 10, 1, 0⟩, ⟨3 / 10, 1, 0⟩, 1, 1, ⟨0, 0, 1⟩⟩).2.1
        (by norm_num [abs_le]))
      ((checkAndSaveTrajMeasurementData_roc_input demoEnv
        (demoMeasurement (3 / 10) 1 (demoMissingHit (demoBarrelId 2)))
        none [] none ⟨⟨3 / 10, 1, 0⟩, ⟨3 / 10, 1, 0⟩, 1, 1, ⟨0, 0, 1⟩⟩).2.2.1
        (by norm_num [abs_le])),
    by decide!, by decide!,
    (checkAndSaveTrajMeasurementData_roc_input demoEnv (demoMeasurement 0 0 demoPixelHit)
      none [] none ⟨⟨0, 0, 0⟩, ⟨0, 0, 0⟩, 1, 1, ⟨0, 0, 1⟩⟩).2.2.2.1 rfl⟩

/-- Invariant of the scan of `getClosestClusterOnDetSetToPoint` for ties: the final pair is
the initial pair, or the position and the distance of a scanned cluster whose distance is
strictly below the initial one and strictly below that of every cluster scanned before it. -/
theorem closestClusterLoop_first (env : Env) (detId : DetId) (referencePoint : LocalPoint)
    (rest : List SiPixelCluster) (i : Nat) (st : Nat × ℚ) :
    closestClusterLoop env detId referencePoint rest i st = st ∨
      ∃ j c, rest[j]? = some c ∧
        closestClusterLoop env detId referencePoint rest i st =
          (i + j, clusterPointDistanceSquared env detId c referencePoint) ∧
        clusterPointDistanceSquared env detId c referencePoint < st.2 ∧
        ∀ k c2, k < j → rest[k]? = some c2 →
          clusterPointDistanceSquared env detId c referencePoint <
            clusterPointDistanceSquared env detId c2 referencePoint := by
  induction rest generalizing i st with
  | nil => simp [closestClusterLoop]
  | cons cluster rest ih =>
    obtain ⟨mi, mv⟩ := st
    by_cases hlt : clusterPointDistanceSquared env detId cluster referencePoint < mv
    · simp only [closestClusterLoop, hlt, if_true]
      right
      rcases ih (i + 1) (i, clusterPointDistanceSquared env detId cluster referencePoint)
        with h | ⟨j, c, hj, h, hlt2, hfirst⟩
      · exact ⟨0, cluster, by simp, by simpa using h, hlt, fun k c2 hk _ => by omega⟩
      · refine ⟨j + 1, c, by simpa using hj, by rw [h]; congr 1; omega,
          lt_trans hlt2 hlt, ?_⟩
        intro k c2 hk hc2
        cases k with
        | zero =>
          simp only [List.getElem?_cons_zero, Option.some.injEq] at hc2
          subst hc2
          exact hlt2
        | succ k => exact hfirst k c2 (by omega) (by simpa using hc2)
    · simp only [closestClusterLoop, hlt, if_false]
      rcases ih (i + 1) (mi, mv) with h | ⟨j, c, hj, h, hlt2, hfirst⟩
      · exact Or.inl h
      · right
        refine ⟨j + 1, c, by simpa using hj, by rw [h]; congr 1; omega, hlt2, ?_⟩
        intro k c2 hk hc2
        cases k with
        | zero =>
          simp only [List.getElem?_cons_zero, Option.some.injEq] at hc2
          subst hc2
          exact lt_of_lt_of_le hlt2 (not_lt.mp hlt)
        | succ k => exact hfirst k c2 (by omega) (by simpa using hc2)

/-- C22: the cluster `getClosestClusterOnDetSetToPoint` returns is the first cluster of the set,
in iteration order, at the minimal squared distance: every cluster before it is strictly
farther from the reference point.  The returned position is the only position of the set with
a minimal distance and strictly farther clusters before it, so the result is determined by the
ordered set and the reference point. -/
theorem getClosestClusterOnDetSetToPoint_first_on_ties (env : Env) (clustersOnDet : DetSet)
    (referencePoint : LocalPoint) (i : Nat)
    (hi : getClosestClusterOnDetSetToPoint env clustersOnDet referencePoint = some i) :
    (∀ j c c2, j < i → clustersOnDet.data[i]? = some c → clustersOnDet.data[j]? = some c2 →
      clusterPointDistanceSquared env clustersOnDet.id c referencePoint <
        clusterPointDistanceSquared env clustersOnDet.id c2 referencePoint) ∧
    (∀ i2 c,
      clustersOnDet.data[i2]? = some c →
      (∀ other ∈ clustersOnDet.data,
        clusterPointDistanceSquared env clustersOnDet.id c referencePoint ≤
          clusterPointDistanceSquared env clustersOnDet.id other referencePoint) →
      (∀ j c2, j < i2 → clustersOnDet.data[j]? = some c2 →
        clusterPointDistanceSquared env clustersOnDet.id c referencePoint <
          clusterPointDistanceSquared env clustersOnDet.id c2 referencePoint) →
      i2 = i) := by
  have hfirst : ∀ j c c2, j < i → clustersOnDet.data[i]? = some c →
      clustersOnDet.data[j]? = some c2 →
      clusterPointDistanceSquared env clustersOnDet.id c referencePoint <
        clusterPointDistanceSquared env clustersOnDet.id c2 referencePoint := by
    obtain ⟨id, data⟩ := clustersOnDet
    cases data with
    | nil => simp [getClosestClusterOnDetSetToPoint] at hi
    | cons first tl =>
      simp only [getClosestClusterOnDetSetToPoint, Option.some.injEq] at hi
      rcases closestClusterLoop_first env id referencePoint (first :: tl) 0
        (0, clusterPointDistanceSquared env id first referencePoint)
        with h | ⟨k, c0, hk, h, _, hbefore⟩
      · rw [h] at hi
        intro j c c2 hj
        simp only at hi
        omega
      · rw [h] at hi
        simp only [Nat.zero_add] at hi
        subst hi
        intro j c c2 hj hc hc2
        simp only at hc hk
        rw [hk] at hc
        cases hc
        exact hbefore j c2 hj hc2
  obtain ⟨c, hc, hmin⟩ := getClosestClusterOnDetSetToPoint_some_min env clustersOnDet
    referencePoint i hi
  refine ⟨hfirst, ?_⟩
  intro i2 c2 hc2 hmin2 hfirst2
  have hmem : ∀ (k : Nat) (x : SiPixelCluster),
      clustersOnDet.data[k]? = some x → x ∈ clustersOnDet.data := by
    intro k x hx
    obtain ⟨hlt, heq⟩ := List.getElem?_eq_some_iff.mp hx
    rw [← heq]
    exact List.getElem_mem _
  rcases Nat.lt_trichotomy i2 i with hlt | heq | hgt
  · exact absurd (hfirst i2 c c2 hlt hc hc2) (not_lt.mpr (hmin2 c (hmem i c hc)))
  · exact heq
  · exact absurd (hfirst2 i c hgt hc) (not_lt.mpr (hmin c2 (hmem i2 c2 hc2)))

/-- Witness of C22 on clusters at local x = 2, 1, 1: the second cluster is returned, not the
third at the same distance, and the first is strictly farther. -/
theorem getClosestClusterOnDetSetToPoint_first_on_ties_witness :
    getClosestClusterOnDetSetToPoint demoEnv demoTiedClusters ⟨0, 0, 0⟩ = some 1 ∧
    clusterPointDistanceSquared demoEnv demoTiedClusters.id ⟨2000, 1, 1, 1, 1, 0⟩ ⟨0, 0, 0⟩ <
      clusterPointDistanceSquared demoEnv demoTiedClusters.id ⟨1000, 1, 1, 1, 2, 0⟩
        ⟨0, 0, 0⟩ :=
  ⟨by decide!,
    (getClosestClusterOnDetSetToPoint_first_on_ties demoEnv demoTiedClusters ⟨0, 0, 0⟩ 1
      (by decide!)).1 0 ⟨2000, 1, 1, 1, 1, 0⟩ ⟨1000, 1, 1, 1, 2, 0⟩ (by decide) (by decide!)
      (by decide!)⟩

/-- C23: `clusterPointDistanceSquared` is the sum of the squares of the local x, y and z
differences between the estimated position of the cluster and the reference point, and
`trajMeasurementDistanceSquared` is the sum of the squares of the local x and y differences
between the two measurements, with no contribution of the local z of their states. -/
theorem distanceSquared_metrics (env : Env) (detId : DetId) (cluster : SiPixelCluster)
    (referencePoint : LocalPoint) (lhs rhs : TrajectoryMeasurement) :
    clusterPointDistanceSquared env detId cluster referencePoint =
      ((env.getParameters cluster detId).x - referencePoint.x) ^ 2 +
        ((env.getParameters cluster detId).y - referencePoint.y) ^ 2 +
        ((env.getParameters cluster detId).z - referencePoint.z) ^ 2 ∧
    trajMeasurementDistanceSquared env lhs rhs =
      ((getLocalXY env lhs).1 - (getLocalXY env rhs).1) ^ 2 +
        ((getLocalXY env lhs).2 - (getLocalXY env rhs).2) ^ 2 ∧
    (∀ sl sr, getTrajectoryStateOnSurface env lhs = some sl →
      getTrajectoryStateOnSurface env rhs = some sr →
      trajMeasurementDistanceSquared env lhs rhs =
        (sl.localPosition.x - sr.localPosition.x) ^ 2 +
          (sl.localPosition.y - sr.localPosition.y) ^ 2) := by
  refine ⟨?_, ?_, ?_⟩
  · unfold clusterPointDistanceSquared
    ring
  · unfold trajMeasurementDistanceSquared
    ring
  · intro sl sr hl hr
    unfold trajMeasurementDistanceSquared getLocalXY
    rw [hl, hr]
    ring

/-- Witness of C23: a cluster at (1, 2, 0) and the reference point (0, 0, 2) are at squared
distance 9; two measurements at local (0, 0) and (3, 4) are at squared distance 25. -/
theorem distanceSquared_metrics_witness :
    clusterPointDistanceSquared demoEnv (demoBarrelId 2) ⟨1000, 1, 1, 1, 1, 2⟩ ⟨0, 0, 2⟩ = 9 ∧
    trajMeasurementDistanceSquared demoEnv
        (demoMeasurement 0 0 (demoValidHit (demoBarrelId 2)))
        (demoMeasurement 3 4 (demoValidHit (demoBarrelId 2))) =
      (((0 : ℚ) - 3) ^ 2 + ((0 : ℚ) - 4) ^ 2) :=
  ⟨by decide!,
    (distanceSquared_metrics demoEnv (demoBarrelId 2) ⟨1000, 1, 1, 1, 1, 2⟩ ⟨0, 0, 2⟩
      (demoMeasurement 0 0 (demoValidHit (demoBarrelId 2)))
      (demoMeasurement 3 4 (demoValidHit (demoBarrelId 2)))).2.2
      ⟨⟨0, 0, 0⟩, ⟨0, 0, 0⟩, 1, 1, ⟨0, 0, 1⟩⟩ ⟨⟨3, 4, 0⟩, ⟨3, 4, 0⟩, 1, 1, ⟨0, 0, 1⟩⟩
      (by decide!) (by decide!)⟩

/-- The two proximity flags of the record at `Fill()` as functions of its distances. -/
theorem trajMeasDataAtFill_flags (env : Env) (measurement : TrajectoryMeasurement)
    (addr : MeasAddr) (trajTrackCollection : TrajTrackAssociationCollection)
    (clusterCollection : Option (List DetSet)) (trajStateOnSurface : TrajectoryStateData) :
    (trajMeasDataAtFill env measurement addr trajTrackCollection clusterCollection
        trajStateOnSurface).hit_near =
      (trajMeasDataAtFill env measurement addr trajTrackCollection clusterCollection
        trajStateOnSurface).d_tr.map (fun d_tr => decide (d_tr < 1 / 2)) ∧
    (trajMeasDataAtFill env measurement addr trajTrackCollection clusterCollection
        trajStateOnSurface).clust_near =
      decide ((trajMeasDataAtFill env measurement addr trajTrackCollection clusterCollection
          trajStateOnSurface).d_cl ≠ env.NOVAL_F ∧
        (trajMeasDataAtFill env measurement addr trajTrackCollection clusterCollection
          trajStateOnSurface).d_cl < 1 / 20) ∧
    (trajMeasDataAtFill env measurement addr trajTrackCollection clusterCollection
        trajStateOnSurface).d_tr =
      (getClosestOtherTrajMeasurementDistanceByLooping env measurement addr
        trajTrackCollection).map (fun r => r.1) := by
  unfold trajMeasDataAtFill
  simp only []
  exact ⟨trivial, trivial, trivial⟩

/-- C24: in the record of a measurement, `hit_near` is the comparison `d_tr < 0.5` (both are
undefined together when the scan for the closest other measurement reads out of bounds), and
`clust_near` is true exactly when `d_cl` is not `NOVAL_F` and is below 0.05; where `init()`
sets `d_cl` to `NOVAL_F`, `clust_near` is false for every record without a cluster. -/
theorem checkAndSaveTrajMeasurementData_proximity_flags (env : Env)
    (measurement : TrajectoryMeasurement) (addr : MeasAddr)
    (trajTrackCollection : TrajTrackAssociationCollection)
    (clusterCollection : Option (List DetSet)) (trajStateOnSurface : TrajectoryStateData) :
    (∀ d_tr,
      (trajMeasDataAtFill env measurement addr trajTrackCollection clusterCollection
        trajStateOnSurface).d_tr = some d_tr →
      ∃ hit_near,
        (trajMeasDataAtFill env measurement addr trajTrackCollection clusterCollection
          trajStateOnSurface).hit_near = some hit_near ∧
        (hit_near = true ↔ d_tr < 1 / 2)) ∧
    ((trajMeasDataAtFill env measurement addr trajTrackCollection clusterCollection
        trajStateOnSurface).d_tr = none →
      (trajMeasDataAtFill env measurement addr trajTrackCollection clusterCollection
        trajStateOnSurface).hit_near = none) ∧
    ((trajMeasDataAtFill env measurement addr trajTrackCollection clusterCollection
        trajStateOnSurface).clust_near = true ↔
      (trajMeasDataAtFill env measurement addr trajTrackCollection clusterCollection
          trajStateOnSurface).d_cl ≠ env.NOVAL_F ∧
        (trajMeasDataAtFill env measurement addr trajTrackCollection clusterCollection
          trajStateOnSurface).d_cl < 1 / 20) ∧
    (env.trajMeasDataInit.d_cl = env.NOVAL_F →
      chosenCluster env measurement.recHit trajStateOnSurface.localPosition clusterCollection =
        none →
      (trajMeasDataAtFill env measurement addr trajTrackCollection clusterCollection
        trajStateOnSurface).clust_near = false) := by
  obtain ⟨hhit, hclust, _⟩ := trajMeasDataAtFill_flags env measurement addr
    trajTrackCollection clusterCollection trajStateOnSurface
  refine ⟨?_, ?_, ?_, ?_⟩
  · intro d_tr hd
    rw [hhit, hd]
    exact ⟨decide (d_tr < 1 / 2), rfl, by simp⟩
  · intro hd
    rw [hhit, hd]
    rfl
  · rw [hclust]
    simp
  · intro hinit hnone
    have hrecord := trajMeasDataAtFill_cluster env measurement addr trajTrackCollection
      clusterCollection trajStateOnSurface
    have hsel : (selectCluster env measurement.recHit trajStateOnSurface.localPosition
        clusterCollection env.trajMeasDataInit).2 = none := hnone
    rw [hsel] at hrecord
    rw [hclust, hrecord.2.2.2.2, hinit]
    simp

/-- Witness of C24 on `demoTrack321`.  The first measurement, at local (0, 0), has its closest
other measurement, at local (1, 1), at distance 1 with the integer square root of `demoEnv`,
so `hit_near` is false; the cluster of its hit sits at the predicted position, so `d_cl` is 0
and `clust_near` is true.  The third measurement, a missing hit in an event without clusters,
has no cluster and `clust_near` false. -/
theorem checkAndSaveTrajMeasurementData_proximity_flags_witness :
    (∃ hit_near,
      (trajMeasDataAtFill demoEnv (demoMeasurement 0 0 (demoValidHit (demoBarrelId 3)))
        (some (0, 0)) [demoTrack321] none
        ⟨⟨0, 0, 0⟩, ⟨0, 0, 0⟩, 1, 1, ⟨0, 0, 1⟩⟩).hit_near = some hit_near ∧
      (hit_near = true ↔ (1 : ℚ) < 1 / 2)) ∧
    (trajMeasDataAtFill demoEnv (demoMeasurement 0 0 (demoValidHit (demoBarrelId 3)))
      (some (0, 0)) [demoTrack321] none
      ⟨⟨0, 0, 0⟩, ⟨0, 0, 0⟩, 1, 1, ⟨0, 0, 1⟩⟩).clust_near = true ∧
    (trajMeasDataAtFill demoEnv (demoMeasurement 2 2 (demoMissingHit (demoBarrelId 1)))
      (some (0, 2)) [demoTrack321] none
      ⟨⟨2, 2, 0⟩, ⟨2, 2, 0⟩, 1, 1, ⟨0, 0, 1⟩⟩).clust_near = false :=
  ⟨(checkAndSaveTrajMeasurementData_proximity_flags demoEnv
      (demoMeasurement 0 0 (demoValidHit (demoBarrelId 3))) (some (0, 0)) [demoTrack321] none
      ⟨⟨0, 0, 0⟩, ⟨0, 0, 0⟩, 1, 1, ⟨0, 0, 1⟩⟩).1 1 (by decide!),
    (checkAndSaveTrajMeasurementData_proximity_flags demoEnv
      (demoMeasurement 0 0 (demoValidHit (demoBarrelId 3))) (some (0, 0)) [demoTrack321] none
      ⟨⟨0, 0, 0⟩, ⟨0, 0, 0⟩, 1, 1, ⟨0, 0, 1⟩⟩).2.2.1.mpr ⟨by decide!, by decide!⟩,
    (checkAndSaveTrajMeasurementData_proximity_flags demoEnv
      (demoMeasurement 2 2 (demoMissingHit (demoBarrelId 1))) (some (0, 2)) [demoTrack321] none
      ⟨⟨2, 2, 0⟩, ⟨2, 2, 0⟩, 1, 1, ⟨0, 0, 1⟩⟩).2.2.2 (by decide!) (by decide!)⟩

/-- C25: the record of a measurement has `validhit = 1` and `missing = 0` when the hit type is
valid, `validhit = 0` and `missing = 1` when it is missing, and `validhit = 0` and
`missing = 0` for every other hit type; the two are never both 1. -/
theorem checkAndSaveTrajMeasurementData_validity_classes (env : Env)
    (measurement : TrajectoryMeasurement) (addr : MeasAddr)
    (trajTrackCollection : TrajTrackAssociationCollection)
    (clusterCollection : Option (List DetSet)) (trajStateOnSurface : TrajectoryStateData) :
    (measurement.recHit.getType = RecHitType.valid →
      (trajMeasDataAtFill env measurement addr trajTrackCollection clusterCollection
        trajStateOnSurface).validhit = 1 ∧
      (trajMeasDataAtFill env measurement addr trajTrackCollection clusterCollection
        trajStateOnSurface).missing = 0) ∧
    (measurement.recHit.getType = RecHitType.missing →
      (trajMeasDataAtFill env measurement addr trajTrackCollection clusterCollection
        trajStateOnSurface).validhit = 0 ∧
      (trajMeasDataAtFill env measurement addr trajTrackCollection clusterCollection
        trajStateOnSurface).missing = 1) ∧
    (measurement.recHit.getType = RecHitType.other →
      (trajMeasDataAtFill env measurement addr trajTrackCollection clusterCollection
        trajStateOnSurface).validhit = 0 ∧
      (trajMeasDataAtFill env measurement addr trajTrackCollection clusterCollection
        trajStateOnSurface).missing = 0) ∧
    ¬((trajMeasDataAtFill env measurement addr trajTrackCollection clusterCollection
        trajStateOnSurface).validhit = 1 ∧
      (trajMeasDataAtFill env measurement addr trajTrackCollection clusterCollection
        trajStateOnSurface).missing = 1) := by
  obtain ⟨_, _, hvalid, hmissing⟩ := trajMeasDataAtFill_fields env measurement addr
    trajTrackCollection clusterCollection trajStateOnSurface
  rw [hvalid, hmissing]
  cases measurement.recHit.getType <;> simp

/-- Witness of C25 on a valid, a missing and an inactive hit. -/
theorem checkAndSaveTrajMeasurementData_validity_classes_witness :
    ((trajMeasDataAtFill demoEnv (demoMeasurement 0 0 (demoValidHit (demoBarrelId 2))) none []
        none ⟨⟨0, 0, 0⟩, ⟨0, 0, 0⟩, 1, 1, ⟨0, 0, 1⟩⟩).validhit = 1 ∧
      (trajMeasDataAtFill demoEnv (demoMeasurement 0 0 (demoValidHit (demoBarrelId 2))) none []
        none ⟨⟨0, 0, 0⟩, ⟨0, 0, 0⟩, 1, 1, ⟨0, 0, 1⟩⟩).missing = 0) ∧
    ((trajMeasDataAtFill demoEnv (demoMeasurement 0 0 (demoMissingHit (demoBarrelId 2))) none
        [] none ⟨⟨0, 0, 0⟩, ⟨0, 0, 0⟩, 1, 1, ⟨0, 0, 1⟩⟩).validhit = 0 ∧
      (trajMeasDataAtFill demoEnv (demoMeasurement 0 0 (demoMissingHit (demoBarrelId 2))) none
        [] none ⟨⟨0, 0, 0⟩, ⟨0, 0, 0⟩, 1, 1, ⟨0, 0, 1⟩⟩).missing = 1) ∧
    ((trajMeasDataAtFill demoEnv
        (demoMeasurement 0 0 ⟨demoBarrelId 2, RecHitType.other, false, none⟩) none
        [] none ⟨⟨0, 0, 0⟩, ⟨0, 0, 0⟩, 1, 1, ⟨0, 0, 1⟩⟩).validhit = 0 ∧
      (trajMeasDataAtFill demoEnv
        (demoMeasurement 0 0 ⟨demoBarrelId 2, RecHitType.other, false, none⟩) none
        [] none ⟨⟨0, 0, 0⟩, ⟨0, 0, 0⟩, 1, 1, ⟨0, 0, 1⟩⟩).missing = 0) :=
  ⟨(checkAndSaveTrajMeasurementData_validity_classes demoEnv
      (demoMeasurement 0 0 (demoValidHit (demoBarrelId 2))) none [] none
      ⟨⟨0, 0, 0⟩, ⟨0, 0, 0⟩, 1, 1, ⟨0, 0, 1⟩⟩).1 rfl,
    (checkAndSaveTrajMeasurementData_validity_classes demoEnv
      (demoMeasurement 0 0 (demoMissingHit (demoBarrelId 2))) none [] none
      ⟨⟨0, 0, 0⟩, ⟨0, 0, 0⟩, 1, 1, ⟨0, 0, 1⟩⟩).2.1 rfl,
    (checkAndSaveTrajMeasurementData_validity_classes demoEnv
      (demoMeasurement 0 0 ⟨demoBarrelId 2, RecHitType.other, false, none⟩) none [] none
      ⟨⟨0, 0, 0⟩, ⟨0, 0, 0⟩, 1, 1, ⟨0, 0, 1⟩⟩).2.2.1 rfl⟩


/-- A trajectory the pixel-hit filter gives 0 for has no measurement with a valid updated state
on the pixel barrel or the pixel endcap. -/
theorem trajectoryHasPixelHitLoop_zero (env : Env) (measurements : List TrajectoryMeasurement)
    (hzero : trajectoryHasPixelHitLoop env measurements = 0) :
    ∀ m ∈ measurements, m.updatedState.isValid = true →
      m.recHit.geographicalId.subdetId ≠ env.PixelBarrel ∧
        m.recHit.geographicalId.subdetId ≠ env.PixelEndcap := by
  induction measurements with
  | nil => intro m hm; simp at hm
  | cons a rest ih =>
    intro m hm hvalid
    unfold trajectoryHasPixelHitLoop at hzero
    by_cases hu : a.updatedState.isValid = true
    · simp only [hu, Bool.not_true, Bool.false_eq_true, if_false] at hzero
      by_cases hb : a.recHit.geographicalId.subdetId = env.PixelBarrel
      · simp [hb] at hzero
      · by_cases he : a.recHit.geographicalId.subdetId = env.PixelEndcap
        · simp [hb, he] at hzero
        · simp only [hb, he, if_false] at hzero
          rcases List.mem_cons.mp hm with h | h
          · subst h; exact ⟨hb, he⟩
          · exact ih hzero m h hvalid
    · simp only [Bool.not_eq_true] at hu
      simp only [hu, Bool.not_false, if_true] at hzero
      rcases List.mem_cons.mp hm with h | h
      · subst h; rw [hu] at hvalid; cases hvalid
      · exact ih hzero m h hvalid

/-- C26: when `trajectoryHasPixelHit` returns 0 for a trajectory, no measurement of the
trajectory passes the record checks of `checkAndSaveTrajMeasurementData`, none has a record,
and a loop of `getTrajTrackData` over any range of its measurements, with either target tree,
would add no record to either tree. -/
theorem trajectoryHasPixelHit_zero_drops_no_record (env : Env)
    (trajTrackCollection : TrajTrackAssociationCollection)
    (clusterCollection : Option (List DetSet)) (trajectory : Trajectory)
    (hfilter : trajectoryHasPixelHit env trajectory = 0) :
    (∀ m ∈ trajectory.measurements, passesRecordChecks env m = false) ∧
    (∀ m ∈ trajectory.measurements, ∀ addr,
      trajMeasRecord env m addr trajTrackCollection clusterCollection = none) ∧
    (∀ (targetTree : TargetTree) (t lo hi : Nat) (out : Output) (tree : TargetTree),
      lo ≤ hi → hi ≤ trajectory.measurements.length →
      (saveMeasurementRange env trajTrackCollection clusterCollection targetTree t
        trajectory.measurements lo hi out).tree tree = out.tree tree) := by
  have hchecks : ∀ m ∈ trajectory.measurements, passesRecordChecks env m = false := by
    intro m hm
    unfold passesRecordChecks
    cases hu : m.updatedState.isValid with
    | false => rfl
    | true =>
      obtain ⟨hb, he⟩ := trajectoryHasPixelHitLoop_zero env _ hfilter m hm hu
      have hp : detidIsOnPixel env m.recHit.geographicalId = false := by
        unfold detidIsOnPixel
        simp [hb, he]
      simp [hp]
  have hrecord : ∀ m ∈ trajectory.measurements, ∀ addr,
      trajMeasRecord env m addr trajTrackCollection clusterCollection = none := by
    intro m hm addr
    have h := trajMeasRecord_isSome_eq_passesRecordChecks env m addr trajTrackCollection
      clusterCollection
    rw [hchecks m hm] at h
    cases hr : trajMeasRecord env m addr trajTrackCollection clusterCollection with
    | none => rfl
    | some r => rw [hr] at h; cases h
  refine ⟨hchecks, hrecord, ?_⟩
  intro targetTree t lo hi out tree hlo hhi
  rw [saveMeasurementRange_eq_saveAll _ _ _ _ _ _ _ _ _ hlo hhi]
  apply saveAll_tree_of_no_record
  intro p hp
  obtain ⟨q, hq, rfl⟩ := List.mem_map.mp hp
  have hq2 : q ∈ trajectory.measurements.enum :=
    List.mem_of_mem_drop (List.mem_of_mem_take hq)
  have hq3 : q = (q.1, q.2) := rfl
  rw [hq3] at hq2
  have hget := (List.mem_enum hq2).2
  apply hrecord
  show q.2 ∈ trajectory.measurements
  rw [hget]
  exact List.getElem_mem _

/-- Witness of C26 on a track with two pixel measurements whose updated states are
invalid. -/
theorem trajectoryHasPixelHit_zero_drops_no_record_witness :
    trajectoryHasPixelHit demoEnv demoTrackNoUpdatedState.key = 0 ∧
    (∀ m ∈ demoTrackNoUpdatedState.key.measurements, passesRecordChecks demoEnv m = false) ∧
    (saveMeasurementRange demoEnv [demoTrackNoUpdatedState] none TargetTree.trajTree_ 0
      demoTrackNoUpdatedState.key.measurements 0 2 Output.empty).tree TargetTree.trajTree_ =
      [] :=
  ⟨by decide,
    (trajectoryHasPixelHit_zero_drops_no_record demoEnv [demoTrackNoUpdatedState] none
      demoTrackNoUpdatedState.key (by decide)).1,
    (trajectoryHasPixelHit_zero_drops_no_record demoEnv [demoTrackNoUpdatedState] none
      demoTrackNoUpdatedState.key (by decide)).2.2 TargetTree.trajTree_ 0 0 2 Output.empty
      TargetTree.trajTree_ (by decide) (by decide)⟩

/-- The value `std::map::find` gives after `insert`: the old value when the key is there,
the inserted value for the inserted key otherwise. -/
theorem mapInsert_lookup (federrors : List (Nat × Int)) (key : Nat) (value : Int) (k : Nat) :
    (mapInsert federrors key value).lookup k =
      (federrors.lookup k).or (if k = key then some value else none) := by
  unfold mapInsert
  cases h : federrors.lookup key with
  | none =>
    simp only [List.lookup_append, List.lookup_cons, List.lookup_nil]
    by_cases hk : k = key
    · simp [hk]
    · have hbeq : (k == key) = false := by simpa using hk
      simp [hk, hbeq]
  | some x =>
    by_cases hk : k = key
    · subst hk; rw [h]; rfl
    · simp [hk]

/-- A list of entries with distinct keys has an entry exactly where `lookup` finds it. -/
theorem mem_iff_lookup_of_nodup (l : List (Nat × Int)) (hnodup : (l.map Prod.fst).Nodup)
    (k : Nat) (v : Int) : (k, v) ∈ l ↔ l.lookup k = some v := by
  induction l with
  | nil => simp
  | cons p l ih =>
    obtain ⟨pk, pv⟩ := p
    simp only [List.map_cons, List.nodup_cons] at hnodup
    rw [List.lookup_cons, List.mem_cons]
    by_cases hk : k = pk
    · subst hk
      simp only [beq_self_eq_true, Option.some.injEq, Prod.mk.injEq, true_and]
      constructor
      · rintro (h | h)
        · exact h.symm
        · exact absurd (List.mem_map.mpr ⟨(k, v), h, rfl⟩) hnodup.1
      · intro h; exact Or.inl h.symm
    · have hbeq : (k == pk) = false := by simpa using hk
      simp only [hbeq, Prod.mk.injEq, hk, false_and, false_or]
      exact ih hnodup.2

/-- A key is among the keys of a list of entries exactly when `lookup` finds a value. -/
theorem mem_keys_iff_lookup_isSome (l : List (Nat × Int)) (k : Nat) :
    k ∈ l.map Prod.fst ↔ (l.lookup k).isSome = true := by
  induction l with
  | nil => simp
  | cons p l ih =>
    obtain ⟨pk, pv⟩ := p
    rw [List.lookup_cons, List.map_cons, List.mem_cons]
    by_cases hk : k = pk
    · subst hk; simp
    · have hbeq : (k == pk) = false := by simpa using hk
      simp only [hbeq, hk, false_or]
      exact ih

/-- The call `std::map::insert` keeps the keys distinct. -/
theorem mapInsert_nodup (federrors : List (Nat × Int)) (key : Nat) (value : Int)
    (hnodup : (federrors.map Prod.fst).Nodup) :
    ((mapInsert federrors key value).map Prod.fst).Nodup := by
  unfold mapInsert
  cases h : federrors.lookup key with
  | some x => exact hnodup
  | none =>
    simp only [List.map_append, List.map_cons, List.map_nil]
    rw [List.nodup_append]
    refine ⟨hnodup, List.nodup_singleton _, ?_⟩
    intro a ha hb
    rw [List.mem_singleton] at hb
    subst hb
    have := (mem_keys_iff_lookup_isSome federrors a).mp ha
    rw [h] at this
    cases this

/-- The keys stay distinct in the inner loop of `getFedErrors`. -/
theorem getFedErrorsErrorLoop_nodup (detId : Nat) (errors : List SiPixelRawDataError)
    (federrors : List (Nat × Int)) (hnodup : (federrors.map Prod.fst).Nodup) :
    ((getFedErrorsErrorLoop detId errors federrors).map Prod.fst).Nodup := by
  induction errors generalizing federrors with
  | nil => exact hnodup
  | cons e rest ih =>
    unfold getFedErrorsErrorLoop
    by_cases hd : detId ≠ 0xffffffff
    · rw [if_pos hd]
      exact ih _ (mapInsert_nodup _ _ _ hnodup)
    · rw [if_neg hd]
      exact ih _ hnodup

/-- The keys stay distinct in the outer loop of `getFedErrors`. -/
theorem getFedErrorsSetLoop_nodup (sets : List RawDataErrorDetSet)
    (federrors : List (Nat × Int)) (hnodup : (federrors.map Prod.fst).Nodup) :
    ((getFedErrorsSetLoop sets federrors).map Prod.fst).Nodup := by
  induction sets generalizing federrors with
  | nil => exact hnodup
  | cons s rest ih =>
    unfold getFedErrorsSetLoop
    exact ih _ (getFedErrorsErrorLoop_nodup _ _ _ hnodup)

/-- The first entry for a key among the errors of one set. -/
theorem lookup_map_detId (detId : Nat) (errors : List SiPixelRawDataError) (k : Nat) :
    (errors.map (fun pixel_error => (detId, pixel_error.getType))).lookup k =
      if k = detId then errors.head?.map (fun pixel_error => pixel_error.getType)
      else none := by
  induction errors with
  | nil => simp
  | cons e rest ih =>
    rw [List.map_cons, List.lookup_cons]
    by_cases hk : k = detId
    · simp [hk]
    · have hbeq : (k == detId) = false := by simpa using hk
      simp only [hbeq, hk, if_false] at ih ⊢
      exact ih

/-- The value found for a key after the inner loop of `getFedErrors`. -/
theorem getFedErrorsErrorLoop_lookup (detId : Nat) (errors : List SiPixelRawDataError)
    (federrors : List (Nat × Int)) (k : Nat) :
    (getFedErrorsErrorLoop detId errors federrors).lookup k =
      (federrors.lookup k).or
        (if detId ≠ 0xffffffff then
          (errors.map (fun pixel_error => (detId, pixel_error.getType))).lookup k
        else none) := by
  induction errors generalizing federrors with
  | nil => simp [getFedErrorsErrorLoop]
  | cons e rest ih =>
    unfold getFedErrorsErrorLoop
    by_cases hd : detId ≠ 0xffffffff
    · rw [if_pos hd, ih, mapInsert_lookup, Option.or_assoc, if_pos hd, if_pos hd,
        List.map_cons, List.lookup_cons]
      by_cases hk : k = detId
      · simp [hk]
      · have hbeq : (k == detId) = false := by simpa using hk
        simp [hbeq, hk]
    · rw [if_neg hd, ih, if_neg hd, if_neg hd]

/-- The value found for a key after the outer loop of `getFedErrors`. -/
theorem getFedErrorsSetLoop_lookup (sets : List RawDataErrorDetSet)
    (federrors : List (Nat × Int)) (k : Nat) :
    (getFedErrorsSetLoop sets federrors).lookup k =
      (federrors.lookup k).or
        (if k = 0xffffffff then none else (rawErrorEntries sets).lookup k) := by
  induction sets generalizing federrors with
  | nil => simp [getFedErrorsSetLoop, rawErrorEntries]
  | cons s rest ih =>
    unfold getFedErrorsSetLoop rawErrorEntries
    rw [ih, getFedErrorsErrorLoop_lookup, Option.or_assoc, List.lookup_append,
      lookup_map_detId]
    congr 1
    by_cases hk : k = 0xffffffff
    · by_cases hd : s.detId ≠ 0xffffffff
      · have hne : k ≠ s.detId := fun h => hd (h ▸ hk)
        simp [hk, hd, hne]
        intro h
        exact absurd h.symm hd
      · simp [hk, hd]
    · by_cases hd : s.detId ≠ 0xffffffff
      · simp [hk, hd]
      · have hd2 : s.detId = 0xffffffff := by simpa using hd
        have hne : k ≠ s.detId := by rw [hd2]; exact hk
        simp [hk, hd2, hne]

/-- The identifiers that have an entry among the errors of a collection. -/
theorem mem_keys_rawErrorEntries (sets : List RawDataErrorDetSet) (k : Nat) :
    k ∈ (rawErrorEntries sets).map Prod.fst ↔
      ∃ s ∈ sets, s.detId = k ∧ s.data ≠ [] := by
  induction sets with
  | nil => simp [rawErrorEntries]
  | cons s rest ih =>
    unfold rawErrorEntries
    rw [List.map_append, List.mem_append, ih]
    constructor
    · rintro (h | ⟨s2, hs2, h2⟩)
      · obtain ⟨p, hp, hpk⟩ := List.mem_map.mp h
        obtain ⟨e, he, rfl⟩ := List.mem_map.mp hp
        exact ⟨s, List.mem_cons_self _ _, hpk, List.ne_nil_of_mem he⟩
      · exact ⟨s2, List.mem_cons_of_mem _ hs2, h2⟩
    · rintro ⟨s2, hs2, hk, hdata⟩
      rcases List.mem_cons.mp hs2 with h | h
      · subst h
        left
        obtain ⟨e, he⟩ := List.exists_mem_of_ne_nil _ hdata
        exact List.mem_map.mpr ⟨(s2.detId, e.getType),
          List.mem_map.mpr ⟨e, he, rfl⟩, hk⟩
      · exact Or.inr ⟨s2, h, hk, hdata⟩

/-- C29: the map `getFedErrors` returns for a raw-error collection has distinct keys; a raw
identifier is a key exactly when it is not `0xffffffff` and a set of the collection with this
identifier has at least one error; and the value stored for a key is the type of the first
error for that identifier in iteration order. -/
theorem getFedErrors_first_error_per_identifier (collection : List RawDataErrorDetSet) :
    ((getFedErrors (some collection)).map Prod.fst).Nodup ∧
    (∀ k, k ∈ (getFedErrors (some collection)).map Prod.fst ↔
      k ≠ 0xffffffff ∧ ∃ s ∈ collection, s.detId = k ∧ s.data ≠ []) ∧
    (∀ k v, (k, v) ∈ getFedErrors (some collection) ↔
      k ≠ 0xffffffff ∧ (rawErrorEntries collection).lookup k = some v) ∧
    (∀ k, (getFedErrors (some collection)).lookup k =
      if k = 0xffffffff then none else (rawErrorEntries collection).lookup k) := by
  have hnodup : ((getFedErrors (some collection)).map Prod.fst).Nodup :=
    getFedErrorsSetLoop_nodup collection [] (by simp)
  have hlookup : ∀ k, (getFedErrors (some collection)).lookup k =
      if k = 0xffffffff then none else (rawErrorEntries collection).lookup k := by
    intro k
    show (getFedErrorsSetLoop collection []).lookup k = _
    rw [getFedErrorsSetLoop_lookup]
    simp
  refine ⟨hnodup, ?_, ?_, hlookup⟩
  · intro k
    rw [mem_keys_iff_lookup_isSome, hlookup, ← mem_keys_rawErrorEntries,
      mem_keys_iff_lookup_isSome]
    by_cases hk : k = 0xffffffff
    · simp [hk]
    · simp [hk]
  · intro k v
    rw [mem_iff_lookup_of_nodup _ hnodup, hlookup]
    by_cases hk : k = 0xffffffff
    · simp [hk]
    · simp [hk]

/-- Witness of C29 on `demoRawErrors`: one key, the module on barrel layer 2, with the type
30 of its first error; the later errors 25 and 40 and the error of the dummy identifier leave
no trace. -/
theorem getFedErrors_first_error_per_identifier_witness :
    ((demoBarrelId 2).rawId, 30) ∈ getFedErrors (some demoRawErrors) ∧
    getFedErrors (some demoRawErrors) = [((demoBarrelId 2).rawId, 30)] :=
  ⟨((getFedErrors_first_error_per_identifier demoRawErrors).2.2.1 (demoBarrelId 2).rawId
      30).mpr ⟨by decide, by decide⟩,
    by decide⟩


/-- The elements before the position `std::find_if` returns do not satisfy the predicate. -/
theorem find_if_before {α : Type} (pred : α → Bool) (l : List α) (j : Nat) (a : α)
    (hj : j < find_if pred l) (ha : l[j]? = some a) : pred a = false := by
  induction l generalizing j with
  | nil => simp at ha
  | cons b l ih =>
    unfold find_if at hj
    by_cases hb : pred b = true
    · simp [hb] at hj
    · rw [if_neg hb] at hj
      cases j with
      | zero =>
        simp only [List.getElem?_cons_zero, Option.some.injEq] at ha
        subst ha
        simpa using hb
      | succ j =>
        rw [List.getElem?_cons_succ] at ha
        exact ih j (by omega) ha

/-- The element at the position `std::find_if` returns, when it is not the end, satisfies the
predicate. -/
theorem find_if_at {α : Type} (pred : α → Bool) (l : List α)
    (hlt : find_if pred l ≠ l.length) :
    ∃ a, l[find_if pred l]? = some a ∧ pred a = true := by
  induction l with
  | nil => simp [find_if] at hlt
  | cons b l ih =>
    by_cases hb : pred b = true
    · exact ⟨b, by simp [find_if, hb], hb⟩
    · have hf : find_if pred (b :: l) = find_if pred l + 1 := by
        have hb2 : pred b = false := by simpa using hb
        simp only [find_if, hb2, Bool.false_eq_true, if_false]
      rw [hf] at hlt ⊢
      obtain ⟨a, ha, hpa⟩ := ih (fun h => hlt (by rw [h, List.length_cons]))
      exact ⟨a, by rw [List.getElem?_cons_succ]; exact ha, hpa⟩

/-- Invariant of the loop of `findClosestVertexToTrack`: the distance kept is at most the one
the loop starts with and at most that of every admissible vertex seen; the vertex kept is
the one the loop starts with, or an admissible vertex seen that is strictly closer than it
and than every admissible vertex seen before. -/
theorem findClosestVertexLoop_spec (env : Env) (track : Track) (minTracks : Nat)
    (rest : List Vertex) (i : Nat) (st : Nat × ℚ) :
    (findClosestVertexLoop env track minTracks rest i st).2 ≤ st.2 ∧
    (∀ w ∈ rest, isVertexGood minTracks w = true →
      (findClosestVertexLoop env track minTracks rest i st).2 ≤
        trackVertexDistance env track w) ∧
    (findClosestVertexLoop env track minTracks rest i st = st ∨
      ∃ (j : Nat) (v : Vertex), rest[j]? = some v ∧ isVertexGood minTracks v = true ∧
        findClosestVertexLoop env track minTracks rest i st =
          (i + j, trackVertexDistance env track v) ∧
        trackVertexDistance env track v < st.2 ∧
        ∀ (k : Nat) (w : Vertex), k < j → rest[k]? = some w →
          isVertexGood minTracks w = true →
          trackVertexDistance env track v < trackVertexDistance env track w) := by
  induction rest generalizing i st with
  | nil =>
    obtain ⟨c, d⟩ := st
    exact ⟨le_refl _, by intro w hw; simp at hw, Or.inl rfl⟩
  | cons vertex rest ih =>
    obtain ⟨c, d⟩ := st
    unfold findClosestVertexLoop
    by_cases hg : isVertexGood minTracks vertex = true
    · simp only [hg, Bool.not_true, Bool.false_eq_true, if_false]
      by_cases hlt : trackVertexDistance env track vertex < d
      · simp only [hlt, if_true]
        obtain ⟨h1, h2, h3⟩ := ih (i + 1) (i, trackVertexDistance env track vertex)
        refine ⟨le_trans h1 (le_of_lt hlt), ?_, ?_⟩
        · intro w hw hgw
          rcases List.mem_cons.mp hw with h | h
          · subst h; exact h1
          · exact h2 w h hgw
        · right
          rcases h3 with h3 | ⟨j, v, hj, hgv, hr, hvlt, hfirst⟩
          · refine ⟨0, vertex, by simp, hg, ?_, hlt, ?_⟩
            · rw [h3]; rfl
            · intro k w hk; omega
          · refine ⟨j + 1, v, by simpa using hj, hgv, ?_, lt_trans hvlt hlt, ?_⟩
            · rw [hr]; congr 1; omega
            · intro k w hk hw hgw
              cases k with
              | zero =>
                simp only [List.getElem?_cons_zero, Option.some.injEq] at hw
                subst hw
                exact hvlt
              | succ k =>
                rw [List.getElem?_cons_succ] at hw
                exact hfirst k w (by omega) hw hgw
      · simp only [hlt, if_false]
        obtain ⟨h1, h2, h3⟩ := ih (i + 1) (c, d)
        refine ⟨h1, ?_, ?_⟩
        · intro w hw hgw
          rcases List.mem_cons.mp hw with h | h
          · subst h; exact le_trans h1 (not_lt.mp hlt)
          · exact h2 w h hgw
        · rcases h3 with h3 | ⟨j, v, hj, hgv, hr, hvlt, hfirst⟩
          · exact Or.inl h3
          · right
            refine ⟨j + 1, v, by simpa using hj, hgv, ?_, hvlt, ?_⟩
            · rw [hr]; congr 1; omega
            · intro k w hk hw hgw
              cases k with
              | zero =>
                simp only [List.getElem?_cons_zero, Option.some.injEq] at hw
                subst hw
                exact lt_of_lt_of_le hvlt (not_lt.mp hlt)
              | succ k =>
                rw [List.getElem?_cons_succ] at hw
                exact hfirst k w (by omega) hw hgw
    · simp only [Bool.not_eq_true] at hg
      simp only [hg, Bool.not_false, if_true]
      obtain ⟨h1, h2, h3⟩ := ih (i + 1) (c, d)
      refine ⟨h1, ?_, ?_⟩
      · intro w hw hgw
        rcases List.mem_cons.mp hw with h | h
        · subst h; rw [hg] at hgw; cases hgw
        · exact h2 w h hgw
      · rcases h3 with h3 | ⟨j, v, hj, hgv, hr, hvlt, hfirst⟩
        · exact Or.inl h3
        · right
          refine ⟨j + 1, v, by simpa using hj, hgv, ?_, hvlt, ?_⟩
          · rw [hr]; congr 1; omega
          · intro k w hk hw hgw
            cases k with
            | zero =>
              simp only [List.getElem?_cons_zero, Option.some.injEq] at hw
              subst hw
              rw [hg] at hgw; cases hgw
            | succ k =>
              rw [List.getElem?_cons_succ] at hw
              exact hfirst k w (by omega) hw hgw

/-- C21: `findClosestVertexToTrack` returns the end of the collection exactly when no vertex
of the collection is admissible (valid, with at least `minTracks` tracks); otherwise it
returns the position of an admissible vertex whose distance `sqrt(d0^2 + dz^2)` to the track
is at most that of every admissible vertex and strictly below that of every admissible vertex
at an earlier position, so the first of the closest admissible vertices. -/
theorem findClosestVertexToTrack_closest_admissible (env : Env) (track : Track)
    (vertexCollection : List Vertex) (minTracks : Nat) :
    (findClosestVertexToTrack env track vertexCollection minTracks = vertexCollection.length ↔
      ∀ v ∈ vertexCollection, isVertexGood minTracks v = false) ∧
    (findClosestVertexToTrack env track vertexCollection minTracks ≠ vertexCollection.length →
      ∃ v, vertexCollection[findClosestVertexToTrack env track vertexCollection minTracks]? =
          some v ∧
        isVertexGood minTracks v = true ∧
        (∀ w ∈ vertexCollection, isVertexGood minTracks w = true →
          trackVertexDistance env track v ≤ trackVertexDistance env track w) ∧
        (∀ (j : Nat) (w : Vertex),
          j < findClosestVertexToTrack env track vertexCollection minTracks →
          vertexCollection[j]? = some w → isVertexGood minTracks w = true →
          trackVertexDistance env track v < trackVertexDistance env track w)) ∧
    (∀ v : Vertex, trackVertexDistance env track v =
      env.sqrt ((track.dxy v.position) ^ 2 + (track.dz v.position) ^ 2)) := by
  have hdist : ∀ v : Vertex, trackVertexDistance env track v =
      env.sqrt ((track.dxy v.position) ^ 2 + (track.dz v.position) ^ 2) := by
    intro v
    unfold trackVertexDistance
    simp only []
    congr 1
    ring
  by_cases hend : find_if (isVertexGood minTracks) vertexCollection = vertexCollection.length
  · have hres : findClosestVertexToTrack env track vertexCollection minTracks =
        vertexCollection.length := by
      unfold findClosestVertexToTrack
      simp [hend]
    have hnone : ∀ v ∈ vertexCollection, isVertexGood minTracks v = false := by
      intro v hv
      obtain ⟨j, hj, hget⟩ := List.getElem_of_mem hv
      apply find_if_before (isVertexGood minTracks) vertexCollection j v (by omega)
      rw [List.getElem?_eq_getElem hj, hget]
    exact ⟨⟨fun _ => hnone, fun _ => hres⟩, fun h => absurd hres h, hdist⟩
  · obtain ⟨first, hfirst, hgood⟩ := find_if_at (isVertexGood minTracks) vertexCollection hend
    have hle := find_if_le_length (isVertexGood minTracks) vertexCollection
    have hfirstmem : first ∈ vertexCollection := by
      obtain ⟨hlt, hget⟩ := List.getElem?_eq_some_iff.mp hfirst
      rw [← hget]
      exact List.getElem_mem _
    have hklt : find_if (isVertexGood minTracks) vertexCollection < vertexCollection.length :=
      lt_of_le_of_ne hle hend
    have hres : findClosestVertexToTrack env track vertexCollection minTracks =
        (findClosestVertexLoop env track minTracks
          (vertexCollection.drop (find_if (isVertexGood minTracks) vertexCollection))
          (find_if (isVertexGood minTracks) vertexCollection)
          (find_if (isVertexGood minTracks) vertexCollection,
            trackVertexDistance env track first)).1 := by
      unfold findClosestVertexToTrack
      simp only [hend, if_false, hfirst]
    obtain ⟨h1, h2, h3⟩ := findClosestVertexLoop_spec env track minTracks
      (vertexCollection.drop (find_if (isVertexGood minTracks) vertexCollection))
      (find_if (isVertexGood minTracks) vertexCollection)
      (find_if (isVertexGood minTracks) vertexCollection, trackVertexDistance env track first)
    have hdrop : ∀ w ∈ vertexCollection, isVertexGood minTracks w = true →
        w ∈ vertexCollection.drop (find_if (isVertexGood minTracks) vertexCollection) := by
      intro w hw hgw
      obtain ⟨j, hj, hget⟩ := List.getElem_of_mem hw
      have hge : find_if (isVertexGood minTracks) vertexCollection ≤ j := by
        by_contra hlt
        have := find_if_before (isVertexGood minTracks) vertexCollection j w (by omega)
          (by rw [List.getElem?_eq_getElem hj, hget])
        rw [this] at hgw
        cases hgw
      rw [List.mem_iff_getElem?]
      refine ⟨j - find_if (isVertexGood minTracks) vertexCollection, ?_⟩
      rw [List.getElem?_drop, Nat.add_sub_cancel' hge, List.getElem?_eq_getElem hj, hget]
    have hbefore : ∀ (j : Nat) (w : Vertex),
        j < find_if (isVertexGood minTracks) vertexCollection →
        vertexCollection[j]? = some w → isVertexGood minTracks w = true → False := by
      intro j w hj hw hgw
      have := find_if_before (isVertexGood minTracks) vertexCollection j w hj hw
      rw [this] at hgw
      cases hgw
    rcases h3 with h3 | ⟨j, v, hj, hgv, hr, hvlt, hfirstv⟩
    · rw [h3] at h2 hres
      simp only [] at hres h2
      have hne : findClosestVertexToTrack env track vertexCollection minTracks ≠
          vertexCollection.length := by rw [hres]; exact hend
      refine ⟨⟨fun h => absurd h hne, fun hall => ?_⟩, fun _ => ?_, hdist⟩
      · have := hall first hfirstmem
        rw [this] at hgood
        cases hgood
      · refine ⟨first, by rw [hres]; exact hfirst, hgood, ?_, ?_⟩
        · intro w hw hgw
          exact h2 w (hdrop w hw hgw) hgw
        · intro k w hk hw hgw
          rw [hres] at hk
          exact absurd (hbefore k w hk hw hgw) id
    · rw [hr] at h2 hres
      simp only [] at hres h2
      rw [List.getElem?_drop] at hj
      have hjlt : find_if (isVertexGood minTracks) vertexCollection + j <
          vertexCollection.length := by
        by_contra hge
        rw [List.getElem?_eq_none (by omega)] at hj
        cases hj
      have hne : findClosestVertexToTrack env track vertexCollection minTracks ≠
          vertexCollection.length := by rw [hres]; omega
      refine ⟨⟨fun h => absurd h hne, fun hall => ?_⟩, fun _ => ?_, hdist⟩
      · have := hall first hfirstmem
        rw [this] at hgood
        cases hgood
      · refine ⟨v, by rw [hres]; exact hj, hgv, ?_, ?_⟩
        · intro w hw hgw
          exact h2 w (hdrop w hw hgw) hgw
        · intro k w hk hw hgw
          rw [hres] at hk
          by_cases hkk : k < find_if (isVertexGood minTracks) vertexCollection
          · exact absurd (hbefore k w hkk hw hgw) id
          · apply hfirstv (k - find_if (isVertexGood minTracks) vertexCollection) w
              (by omega) _ hgw
            rw [List.getElem?_drop, Nat.add_sub_cancel' (by omega)]
            exact hw

/-- Witness of C21 on `demoVertices` with `minTracks = 2`: the two vertices at distance 2 are
the closest admissible ones and the first of them, at position 3, is returned; with
`minTracks = 10` no vertex is admissible and the end, position 5, is returned. -/
theorem findClosestVertexToTrack_closest_admissible_witness :
    findClosestVertexToTrack demoEnv demoTrack demoVertices 2 = 3 ∧
    findClosestVertexToTrack demoEnv demoTrack demoVertices 10 = demoVertices.length ∧
    (∃ v, demoVertices[findClosestVertexToTrack demoEnv demoTrack demoVertices 2]? = some v ∧
      isVertexGood 2 v = true ∧
      (∀ w ∈ demoVertices, isVertexGood 2 w = true →
        trackVertexDistance demoEnv demoTrack v ≤ trackVertexDistance demoEnv demoTrack w) ∧
      (∀ (j : Nat) (w : Vertex),
        j < findClosestVertexToTrack demoEnv demoTrack demoVertices 2 →
        demoVertices[j]? = some w → isVertexGood 2 w = true →
        trackVertexDistance demoEnv demoTrack v < trackVertexDistance demoEnv demoTrack w)) :=
  ⟨by decide!, by decide!,
    (findClosestVertexToTrack_closest_admissible demoEnv demoTrack demoVertices 2).2.1
      (by decide!)⟩


/-- The factor `chargeCorrection` is the generic expression with the square root of the
environment. -/
theorem chargeCorrection_eq_over (env : Env) (tanAlpha tanBeta : ℚ) :
    chargeCorrection env tanAlpha tanBeta = chargeCorrectionOver env.sqrt tanAlpha tanBeta :=
  rfl

/-- The argument of the square root in the factor of the normalised charge, for the tangents
`dz/dx` and `dz/dy` of a direction with non-zero components. -/
theorem chargeCorrection_argument {K : Type} [LinearOrderedField K] (dx dy dz : K)
    (hx : dx ≠ 0) (hy : dy ≠ 0) (hz : dz ≠ 0) :
    1 / (1 / (dz / dx) ^ 2 + 1 / (dz / dy) ^ 2 + 1) = dz ^ 2 / (dx ^ 2 + dy ^ 2 + dz ^ 2) := by
  have hn : dx ^ 2 + dy ^ 2 + dz ^ 2 ≠ 0 := by positivity
  field_simp

/-- The factor of the normalised charge over the real numbers, with the real square root. -/
theorem chargeCorrectionOver_real (dx dy dz charge : ℝ) (hx : dx ≠ 0) (hy : dy ≠ 0)
    (hz : dz ≠ 0) :
    chargeCorrectionOver Real.sqrt (dz / dx) (dz / dy) =
      |dz| / Real.sqrt (dx ^ 2 + dy ^ 2 + dz ^ 2) ∧
    0 < chargeCorrectionOver Real.sqrt (dz / dx) (dz / dy) ∧
    chargeCorrectionOver Real.sqrt (dz / dx) (dz / dy) ≤ 1 ∧
    |charge * chargeCorrectionOver Real.sqrt (dz / dx) (dz / dy)| ≤ |charge| := by
  have hn : 0 < dx ^ 2 + dy ^ 2 + dz ^ 2 := by positivity
  have heq : chargeCorrectionOver Real.sqrt (dz / dx) (dz / dy) =
      |dz| / Real.sqrt (dx ^ 2 + dy ^ 2 + dz ^ 2) := by
    unfold chargeCorrectionOver
    rw [chargeCorrection_argument dx dy dz hx hy hz, Real.sqrt_div (sq_nonneg dz),
      Real.sqrt_sq_eq_abs]
  have hpos : 0 < |dz| / Real.sqrt (dx ^ 2 + dy ^ 2 + dz ^ 2) :=
    div_pos (abs_pos.mpr hz) (Real.sqrt_pos.mpr hn)
  have hle : |dz| / Real.sqrt (dx ^ 2 + dy ^ 2 + dz ^ 2) ≤ 1 := by
    rw [div_le_one (Real.sqrt_pos.mpr hn)]
    apply Real.abs_le_sqrt
    nlinarith [sq_nonneg dx, sq_nonneg dy]
  rw [heq]
  refine ⟨rfl, hpos, hle, ?_⟩
  rw [abs_mul, abs_of_pos hpos]
  exact mul_le_of_le_one_right (abs_nonneg _) hle

/-- The factor of the normalised charge in an environment whose square root is exact at the
two arguments `dz^2 / (dx^2 + dy^2 + dz^2)` and `dx^2 + dy^2 + dz^2`. -/
theorem chargeCorrection_exact (env : Env) (dx dy dz charge : ℚ) (hx : dx ≠ 0) (hy : dy ≠ 0)
    (hz : dz ≠ 0)
    (hfactor : 0 ≤ env.sqrt (dz ^ 2 / (dx ^ 2 + dy ^ 2 + dz ^ 2)) ∧
      env.sqrt (dz ^ 2 / (dx ^ 2 + dy ^ 2 + dz ^ 2)) ^ 2 =
        dz ^ 2 / (dx ^ 2 + dy ^ 2 + dz ^ 2))
    (hnorm : 0 < env.sqrt (dx ^ 2 + dy ^ 2 + dz ^ 2) ∧
      env.sqrt (dx ^ 2 + dy ^ 2 + dz ^ 2) ^ 2 = dx ^ 2 + dy ^ 2 + dz ^ 2) :
    chargeCorrection env (dz / dx) (dz / dy) =
      |dz| / env.sqrt (dx ^ 2 + dy ^ 2 + dz ^ 2) ∧
    0 < chargeCorrection env (dz / dx) (dz / dy) ∧
    chargeCorrection env (dz / dx) (dz / dy) ≤ 1 ∧
    |charge * chargeCorrection env (dz / dx) (dz / dy)| ≤ |charge| := by
  have hn : 0 < dx ^ 2 + dy ^ 2 + dz ^ 2 := by positivity
  have hz2 : 0 < dz ^ 2 := by positivity
  have harg : chargeCorrection env (dz / dx) (dz / dy) =
      env.sqrt (dz ^ 2 / (dx ^ 2 + dy ^ 2 + dz ^ 2)) := by
    unfold chargeCorrection
    rw [chargeCorrection_argument dx dy dz hx hy hz]
  obtain ⟨hf0, hf2⟩ := hfactor
  obtain ⟨hr0, hr2⟩ := hnorm
  have hpos : 0 < env.sqrt (dz ^ 2 / (dx ^ 2 + dy ^ 2 + dz ^ 2)) := by
    rcases lt_or_eq_of_le hf0 with h | h
    · exact h
    · rw [← h] at hf2
      have : (0 : ℚ) < dz ^ 2 / (dx ^ 2 + dy ^ 2 + dz ^ 2) := div_pos hz2 hn
      rw [← hf2] at this
      norm_num at this
  have hle : env.sqrt (dz ^ 2 / (dx ^ 2 + dy ^ 2 + dz ^ 2)) ≤ 1 := by
    have h1 : dz ^ 2 / (dx ^ 2 + dy ^ 2 + dz ^ 2) ≤ 1 := by
      rw [div_le_one hn]
      nlinarith [sq_nonneg dx, sq_nonneg dy]
    rw [← hf2] at h1
    nlinarith
  have heq : env.sqrt (dz ^ 2 / (dx ^ 2 + dy ^ 2 + dz ^ 2)) =
      |dz| / env.sqrt (dx ^ 2 + dy ^ 2 + dz ^ 2) := by
    have hq : 0 ≤ |dz| / env.sqrt (dx ^ 2 + dy ^ 2 + dz ^ 2) :=
      div_nonneg (abs_nonneg _) (le_of_lt hr0)
    have hsq : env.sqrt (dz ^ 2 / (dx ^ 2 + dy ^ 2 + dz ^ 2)) ^ 2 =
        (|dz| / env.sqrt (dx ^ 2 + dy ^ 2 + dz ^ 2)) ^ 2 := by
      rw [hf2, div_pow, sq_abs, hr2]
    exact (pow_left_inj₀ hf0 hq (by norm_num)).mp hsq
  rw [harg]
  refine ⟨heq, hpos, hle, ?_⟩
  rw [abs_mul, abs_of_pos hpos]
  exact mul_le_of_le_one_right (abs_nonneg _) hle

/-- C28: for a local track direction `(dx, dy, dz)` with three non-zero components and the
tangents `dz/dx` and `dz/dy`, the factor
`sqrt(1 / (1 / tan^2 alpha + 1 / tan^2 beta + 1))` of the normalised charge is
`|dz| / sqrt(dx^2 + dy^2 + dz^2)`, lies in `(0, 1]`, and the absolute value of the
normalised charge is at most that of the cluster charge.  This holds over the real numbers
with the real square root, for every direction; and for the factor and the normalised
charge of `checkAndSaveTrajMeasurementData` over the rationals, for every direction at which
the square root of the environment is exact. -/
theorem normalizedCharge_factor_of_direction :
    (∀ (dx dy dz charge : ℝ), dx ≠ 0 → dy ≠ 0 → dz ≠ 0 →
      chargeCorrectionOver Real.sqrt (dz / dx) (dz / dy) =
        |dz| / Real.sqrt (dx ^ 2 + dy ^ 2 + dz ^ 2) ∧
      0 < chargeCorrectionOver Real.sqrt (dz / dx) (dz / dy) ∧
      chargeCorrectionOver Real.sqrt (dz / dx) (dz / dy) ≤ 1 ∧
      |charge * chargeCorrectionOver Real.sqrt (dz / dx) (dz / dy)| ≤ |charge|) ∧
    (∀ (env : Env) (dx dy dz charge alpha beta : ℚ), dx ≠ 0 → dy ≠ 0 → dz ≠ 0 →
      env.tan alpha = dz / dx → env.tan beta = dz / dy →
      (0 ≤ env.sqrt (dz ^ 2 / (dx ^ 2 + dy ^ 2 + dz ^ 2)) ∧
        env.sqrt (dz ^ 2 / (dx ^ 2 + dy ^ 2 + dz ^ 2)) ^ 2 =
          dz ^ 2 / (dx ^ 2 + dy ^ 2 + dz ^ 2)) →
      (0 < env.sqrt (dx ^ 2 + dy ^ 2 + dz ^ 2) ∧
        env.sqrt (dx ^ 2 + dy ^ 2 + dz ^ 2) ^ 2 = dx ^ 2 + dy ^ 2 + dz ^ 2) →
      chargeCorrection env (env.tan alpha) (env.tan beta) =
        |dz| / env.sqrt (dx ^ 2 + dy ^ 2 + dz ^ 2) ∧
      0 < chargeCorrection env (env.tan alpha) (env.tan beta) ∧
      chargeCorrection env (env.tan alpha) (env.tan beta) ≤ 1 ∧
      normalizedCharge env charge alpha beta =
        charge * (|dz| / env.sqrt (dx ^ 2 + dy ^ 2 + dz ^ 2)) ∧
      |normalizedCharge env charge alpha beta| ≤ |charge|) := by
  refine ⟨chargeCorrectionOver_real, ?_⟩
  intro env dx dy dz charge alpha beta hx hy hz halpha hbeta hfactor hnorm
  obtain ⟨h1, h2, h3, h4⟩ := chargeCorrection_exact env dx dy dz charge hx hy hz hfactor hnorm
  unfold normalizedCharge
  rw [halpha, hbeta]
  exact ⟨h1, h2, h3, by rw [h1], h4⟩

/-- Witness of C28 at the direction (1, 2, 2), where the factor is 2/3: over the real numbers,
and in the environment `demoEnvExactSqrt`, whose tangent is the identity, with the angles 2
and 1 and the charge 6, where the normalised charge is 4. -/
theorem normalizedCharge_factor_of_direction_witness :
    (chargeCorrectionOver Real.sqrt ((2 : ℝ) / 1) ((2 : ℝ) / 2) =
        |(2 : ℝ)| / Real.sqrt ((1 : ℝ) ^ 2 + (2 : ℝ) ^ 2 + (2 : ℝ) ^ 2) ∧
      0 < chargeCorrectionOver Real.sqrt ((2 : ℝ) / 1) ((2 : ℝ) / 2) ∧
      chargeCorrectionOver Real.sqrt ((2 : ℝ) / 1) ((2 : ℝ) / 2) ≤ 1 ∧
      |(6 : ℝ) * chargeCorrectionOver Real.sqrt ((2 : ℝ) / 1) ((2 : ℝ) / 2)| ≤ |(6 : ℝ)|) ∧
    normalizedCharge demoEnvExactSqrt 6 2 1 = 4 ∧
    |normalizedCharge demoEnvExactSqrt 6 2 1| ≤ |(6 : ℚ)| :=
  ⟨normalizedCharge_factor_of_direction.1 1 2 2 6 (by norm_num) (by norm_num) (by norm_num),
    by decide!,
    (normalizedCharge_factor_of_direction.2 demoEnvExactSqrt 1 2 2 6 2 1 (by decide!)
      (by decide!) (by decide!) (by decide!) (by decide!) (by decide!) (by decide!)).2.2.2.2⟩


/-! ### The counters of `getTrackData` -/

/-- An increment keeps the size of the array. -/
theorem incrementCounter_length (counters : List Int) (index : Nat) :
    (incrementCounter counters index).length = counters.length := by
  induction counters generalizing index with
  | nil => rfl
  | cons c rest ih =>
    cases index with
    | zero => rfl
    | succ index => simp [incrementCounter, ih]

/-- An increment inside the array adds one to the sum of its elements. -/
theorem incrementCounter_sum (counters : List Int) (index : Nat)
    (hindex : index < counters.length) :
    (incrementCounter counters index).sum = counters.sum + 1 := by
  induction counters generalizing index with
  | nil => simp at hindex
  | cons c rest ih =>
    cases index with
    | zero => simp [incrementCounter]; ring
    | succ index =>
      simp only [List.length_cons, Nat.add_lt_add_iff_right] at hindex
      simp only [incrementCounter, List.sum_cons, ih index hindex]
      ring

/-- An increment of the total counters keeps the valid counters below them. -/
theorem forall₂_le_incrementCounter_right (valid total : List Int) (index : Nat)
    (hle : List.Forall₂ (fun valid total => valid ≤ total) valid total) :
    List.Forall₂ (fun valid total => valid ≤ total) valid (incrementCounter total index) := by
  induction hle generalizing index with
  | nil => exact List.Forall₂.nil
  | cons hab _ ih =>
    cases index with
    | zero => exact List.Forall₂.cons (by omega) (by assumption)
    | succ index => exact List.Forall₂.cons hab (ih index)

/-- An increment of the valid and of the total counters at one position keeps the valid
counters below the total counters. -/
theorem forall₂_le_incrementCounter_both (valid total : List Int) (index : Nat)
    (hle : List.Forall₂ (fun valid total => valid ≤ total) valid total) :
    List.Forall₂ (fun valid total => valid ≤ total) (incrementCounter valid index)
      (incrementCounter total index) := by
  induction hle generalizing index with
  | nil => exact List.Forall₂.nil
  | cons hab _ ih =>
    cases index with
    | zero => exact List.Forall₂.cons (by omega) (by assumption)
    | succ index => exact List.Forall₂.cons hab (ih index)

/-- The increment at a computed index inside the array. -/
theorem incrementAt_of_range (counters : List Int) (index : Int) (hlo : 1 ≤ index + 1)
    (hhi : index + 1 ≤ counters.length) :
    incrementAt counters index = some (incrementCounter counters index.toNat) ∧
      index.toNat < counters.length := by
  unfold incrementAt
  have h : 0 ≤ index ∧ index < counters.length := ⟨by omega, by omega⟩
  rw [if_pos h]
  exact ⟨rfl, by omega⟩

/-- The barrel part of the loop body on a consistent record, for a layer 1..4. -/
theorem countBarrelHit_spec (env : Env) (validhit : Int) (mod : ModuleData) (subDetId : Nat)
    (trackField : TrackData) (hcons : countersConsistent trackField)
    (hrange : subDetId = env.PixelBarrel → 1 ≤ mod.layer ∧ mod.layer ≤ 4) :
    ∃ after, countBarrelHit env validhit mod subDetId trackField = some after ∧
      after.pixhit = trackField.pixhit ∧ after.validpixhit = trackField.validpixhit ∧
      after.fpix = trackField.fpix ∧ after.validfpix = trackField.validfpix ∧
      after.bpix.length = 4 ∧ after.validbpix.length = 4 ∧
      List.Forall₂ (fun valid total => valid ≤ total) after.validbpix after.bpix ∧
      after.bpix.sum =
        trackField.bpix.sum + (if subDetId = env.PixelBarrel then 1 else 0) := by
  obtain ⟨_, _, _, _, hb, hvb, hleb, _, _, _⟩ := hcons
  unfold countBarrelHit
  by_cases hsub : subDetId = env.PixelBarrel
  · obtain ⟨h1, h4⟩ := hrange hsub
    obtain ⟨htotal, hlt⟩ := incrementAt_of_range trackField.bpix (mod.layer - 1) (by omega)
      (by rw [hb]; omega)
    obtain ⟨hvalid, _⟩ := incrementAt_of_range trackField.validbpix (mod.layer - 1)
      (by omega) (by rw [hvb]; omega)
    simp only [if_pos hsub, htotal, hvalid]
    by_cases hv : validhit ≠ 0
    · simp only [if_pos hv]
      refine ⟨_, rfl, rfl, rfl, rfl, rfl, ?_, ?_, ?_, ?_⟩
      · simp only [incrementCounter_length, hb]
      · simp only [incrementCounter_length, hvb]
      · exact forall₂_le_incrementCounter_both _ _ _ hleb
      · simp only [incrementCounter_sum _ _ hlt]
    · simp only [if_neg hv]
      refine ⟨_, rfl, rfl, rfl, rfl, rfl, ?_, ?_, ?_, ?_⟩
      · simp only [incrementCounter_length, hb]
      · exact hvb
      · exact forall₂_le_incrementCounter_right _ _ _ hleb
      · simp only [incrementCounter_sum _ _ hlt]
  · simp only [if_neg hsub]
    exact ⟨_, rfl, rfl, rfl, rfl, rfl, hb, hvb, hleb, by simp⟩

/-- The forward part of the loop body on a consistent record, for a disk 1..3. -/
theorem countEndcapHit_spec (env : Env) (validhit : Int) (mod : ModuleData) (subDetId : Nat)
    (trackField : TrackData) (hf : trackField.fpix.length = 3)
    (hvf : trackField.validfpix.length = 3)
    (hlef : List.Forall₂ (fun valid total => valid ≤ total) trackField.validfpix
      trackField.fpix)
    (hrange : subDetId = env.PixelEndcap → 1 ≤ mod.disk ∧ mod.disk ≤ 3) :
    ∃ after, countEndcapHit env validhit mod subDetId trackField = some after ∧
      after.pixhit = trackField.pixhit ∧ after.validpixhit = trackField.validpixhit ∧
      after.bpix = trackField.bpix ∧ after.validbpix = trackField.validbpix ∧
      after.fpix.length = 3 ∧ after.validfpix.length = 3 ∧
      List.Forall₂ (fun valid total => valid ≤ total) after.validfpix after.fpix ∧
      after.fpix.sum =
        trackField.fpix.sum + (if subDetId = env.PixelEndcap then 1 else 0) := by
  unfold countEndcapHit
  by_cases hsub : subDetId = env.PixelEndcap
  · obtain ⟨h1, h3⟩ := hrange hsub
    obtain ⟨htotal, hlt⟩ := incrementAt_of_range trackField.fpix (mod.disk - 1) (by omega)
      (by rw [hf]; omega)
    obtain ⟨hvalid, _⟩ := incrementAt_of_range trackField.validfpix (mod.disk - 1)
      (by omega) (by rw [hvf]; omega)
    simp only [if_pos hsub, htotal, hvalid]
    by_cases hv : validhit ≠ 0
    · simp only [if_pos hv]
      refine ⟨_, rfl, rfl, rfl, rfl, rfl, ?_, ?_, ?_, ?_⟩
      · simp only [incrementCounter_length, hf]
      · simp only [incrementCounter_length, hvf]
      · exact forall₂_le_incrementCounter_both _ _ _ hlef
      · simp only [incrementCounter_sum _ _ hlt]
    · simp only [if_neg hv]
      refine ⟨_, rfl, rfl, rfl, rfl, rfl, ?_, ?_, ?_, ?_⟩
      · simp only [incrementCounter_length, hf]
      · exact hvf
      · exact forall₂_le_incrementCounter_right _ _ _ hlef
      · simp only [incrementCounter_sum _ _ hlt]
  · simp only [if_neg hsub]
    exact ⟨_, rfl, rfl, rfl, rfl, rfl, hf, hvf, hlef, by simp⟩

/-- The top and bottom part of the loop body: one of the two counters goes up by one. -/
theorem countPixHit_spec (gly : ℚ) (validhit : Int) (trackField : TrackData)
    (hp : trackField.pixhit.length = 2) (hvp : trackField.validpixhit.length = 2)
    (hlep : List.Forall₂ (fun valid total => valid ≤ total) trackField.validpixhit
      trackField.pixhit) :
    (countPixHit gly validhit trackField).fpix = trackField.fpix ∧
    (countPixHit gly validhit trackField).validfpix = trackField.validfpix ∧
    (countPixHit gly validhit trackField).bpix = trackField.bpix ∧
    (countPixHit gly validhit trackField).validbpix = trackField.validbpix ∧
    (countPixHit gly validhit trackField).pixhit.length = 2 ∧
    (countPixHit gly validhit trackField).validpixhit.length = 2 ∧
    List.Forall₂ (fun valid total => valid ≤ total)
      (countPixHit gly validhit trackField).validpixhit
      (countPixHit gly validhit trackField).pixhit ∧
    (countPixHit gly validhit trackField).pixhit.sum = trackField.pixhit.sum + 1 := by
  unfold countPixHit
  by_cases hg : gly ≥ 0
  · have hg2 : ¬ gly < 0 := not_lt.mpr hg
    by_cases hv : validhit ≠ 0
    · simp only [if_pos hg, if_neg hg2, if_pos hv]
      refine ⟨trivial, trivial, trivial, trivial, ?_, ?_, ?_, ?_⟩
      · simp only [incrementCounter_length, hp]
      · simp only [incrementCounter_length, hvp]
      · exact forall₂_le_incrementCounter_both _ _ _ hlep
      · exact incrementCounter_sum _ _ (by rw [hp]; decide)
    · simp only [if_pos hg, if_neg hg2, if_neg hv]
      refine ⟨trivial, trivial, trivial, trivial, ?_, hvp, ?_, ?_⟩
      · simp only [incrementCounter_length, hp]
      · exact forall₂_le_incrementCounter_right _ _ _ hlep
      · exact incrementCounter_sum _ _ (by rw [hp]; decide)
  · have hg2 : gly < 0 := not_le.mp hg
    by_cases hv : validhit ≠ 0
    · simp only [if_neg hg, if_pos hg2, if_pos hv]
      refine ⟨trivial, trivial, trivial, trivial, ?_, ?_, ?_, ?_⟩
      · simp only [incrementCounter_length, hp]
      · simp only [incrementCounter_length, hvp]
      · exact forall₂_le_incrementCounter_both _ _ _ hlep
      · exact incrementCounter_sum _ _ (by rw [hp]; decide)
    · simp only [if_neg hg, if_pos hg2, if_neg hv]
      refine ⟨trivial, trivial, trivial, trivial, ?_, hvp, ?_, ?_⟩
      · simp only [incrementCounter_length, hp]
      · exact forall₂_le_incrementCounter_right _ _ _ hlep
      · exact incrementCounter_sum _ _ (by rw [hp]; decide)

/-- The strip part of the loop body leaves the pixel counters as they are. -/
theorem countStripHit_counters (env : Env) (hit : TrackingRecHit) (subDetId : Nat)
    (trackField : TrackData) :
    (countStripHit env hit subDetId trackField).pixhit = trackField.pixhit ∧
    (countStripHit env hit subDetId trackField).validpixhit = trackField.validpixhit ∧
    (countStripHit env hit subDetId trackField).fpix = trackField.fpix ∧
    (countStripHit env hit subDetId trackField).validfpix = trackField.validfpix ∧
    (countStripHit env hit subDetId trackField).bpix = trackField.bpix ∧
    (countStripHit env hit subDetId trackField).validbpix = trackField.validbpix := by
  unfold countStripHit
  split
  · split <;> exact ⟨rfl, rfl, rfl, rfl, rfl, rfl⟩
  · exact ⟨rfl, rfl, rfl, rfl, rfl, rfl⟩


/-- One measurement of the loop of `getTrackData` along a trajectory, on a consistent record
and on a known layer or disk: the write is inside the arrays, the record stays consistent, and
the top and bottom counters stay equal to the barrel and forward counters when the barrel and
the endcap are different subdetectors and a counted measurement has a valid combined state. -/
theorem getTrackDataMeasurement_consistent (env : Env) (trackField : TrackData)
    (measurement : TrajectoryMeasurement) (hcons : countersConsistent trackField)
    (hrange : onKnownLayerOrDisk env measurement) :
    ∃ after, getTrackDataMeasurement env trackField measurement = some after ∧
      countersConsistent after ∧
      (env.PixelBarrel ≠ env.PixelEndcap → countedWithCombinedState env measurement →
        trackField.pixhit.sum = trackField.bpix.sum + trackField.fpix.sum →
        after.pixhit.sum = after.bpix.sum + after.fpix.sum) := by
  unfold getTrackDataMeasurement
  cases hu : measurement.updatedState.isValid with
  | false => exact ⟨trackField, by simp, hcons, fun _ _ h => h⟩
  | true =>
    simp only [Bool.not_true, Bool.false_eq_true, if_false]
    obtain ⟨s1, s2, s3, s4, s5, s6⟩ := countStripHit_counters env measurement.recHit
      measurement.recHit.geographicalId.subdetId trackField
    have hcons1 : countersConsistent (countStripHit env measurement.recHit
        measurement.recHit.geographicalId.subdetId trackField) := by
      unfold countersConsistent
      rw [s1, s2, s3, s4, s5, s6]
      exact hcons
    cases hp : detidIsOnPixel env measurement.recHit.geographicalId with
    | false =>
      refine ⟨_, by simp, hcons1, ?_⟩
      intro _ _ h
      rw [s1, s5, s3]
      exact h
    | true =>
      simp only [Bool.not_true, Bool.false_eq_true, if_false]
      obtain ⟨hrb, hre⟩ := hrange hu hp
      obtain ⟨b, hb, b1, b2, b3, b4, b5, b6, b7, b8⟩ := countBarrelHit_spec env
        (if measurement.recHit.getType = RecHitType.valid then 1 else 0)
        (getModuleData env false measurement.recHit.geographicalId)
        measurement.recHit.geographicalId.subdetId _ hcons1 hrb
      obtain ⟨hp2, hvp2, hf, hvf, _, _, _, hlef, hlep, hsum⟩ := hcons1
      obtain ⟨e, he, e1, e2, e3, e4, e5, e6, e7, e8⟩ := countEndcapHit_spec env
        (if measurement.recHit.getType = RecHitType.valid then 1 else 0)
        (getModuleData env false measurement.recHit.geographicalId)
        measurement.recHit.geographicalId.subdetId b (by rw [b3]; exact hf)
        (by rw [b4]; exact hvf) (by rw [b3, b4]; exact hlef) hre
      simp only [hb, he]
      have hsub := subdetId_of_detidIsOnPixel env _ hp
      have hcount : (1 : Int) ≤
          (if measurement.recHit.geographicalId.subdetId = env.PixelBarrel then 1 else 0) +
            (if measurement.recHit.geographicalId.subdetId = env.PixelEndcap then 1 else 0) := by
        rcases hsub with h | h
        · rw [if_pos h]; split <;> omega
        · rw [if_pos h]; split <;> omega
      rw [s1, s5, s3] at hsum
      cases hs : getTrajectoryStateOnSurface env measurement with
      | none =>
        refine ⟨e, rfl, ?_, ?_⟩
        · unfold countersConsistent
          rw [e1, e2, e3, e4, b1, b2]
          refine ⟨hp2, hvp2, e5, e6, b5, b6, b7, e7, hlep, ?_⟩
          rw [s1, e8, b8, b3, s5, s3]
          omega
        · intro _ hcombined _
          have := hcombined hu hp
          rw [hs] at this
          cases this
      | some trajStateOnSurface =>
        obtain ⟨p1, p2, p3, p4, p5, p6, p7, p8⟩ := countPixHit_spec
          trajStateOnSurface.globalPosition.y
          (if measurement.recHit.getType = RecHitType.valid then 1 else 0) e
          (by rw [e1, b1]; exact hp2) (by rw [e2, b2]; exact hvp2)
          (by rw [e1, e2, b1, b2]; exact hlep)
        refine ⟨_, rfl, ?_, ?_⟩
        · unfold countersConsistent
          rw [p1, p2, p3, p4]
          refine ⟨p5, p6, e5, e6, by rw [e3]; exact b5, by rw [e4]; exact b6,
            by rw [e3, e4]; exact b7, e7, p7, ?_⟩
          rw [p8, e1, b1, s1, e3, b8, e8, b3, s5, s3]
          omega
        · intro hne _ heq
          rw [p8, p3, p1, e1, b1, s1, e3, b8, e8, b3, s5, s3, heq]
          rcases hsub with h | h
          · have h2 : measurement.recHit.geographicalId.subdetId ≠ env.PixelEndcap := by
              rw [h]; exact hne
            rw [if_pos h, if_neg h2]
            ring
          · have h2 : measurement.recHit.geographicalId.subdetId ≠ env.PixelBarrel := by
              rw [h]; exact fun h3 => hne h3.symm
            rw [if_pos h, if_neg h2]
            ring

/-- A property of the record that every measurement of a trajectory keeps holds after the
loop along the trajectory, which returns. -/
theorem getTrackDataMeasurementLoop_preserves (env : Env) (P : TrackData → Prop)
    (measurements : List TrajectoryMeasurement)
    (hstep : ∀ m ∈ measurements, ∀ trackField, P trackField →
      ∃ after, getTrackDataMeasurement env trackField m = some after ∧ P after)
    (trackField : TrackData) (hP : P trackField) :
    ∃ after, getTrackDataMeasurementLoop env measurements trackField = some after ∧
      P after := by
  induction measurements generalizing trackField with
  | nil => exact ⟨trackField, rfl, hP⟩
  | cons m rest ih =>
    obtain ⟨mid, hmid, hPmid⟩ := hstep m (List.mem_cons_self m rest) trackField hP
    unfold getTrackDataMeasurementLoop
    simp only [hmid]
    exact ih (fun m2 hm2 => hstep m2 (List.mem_cons_of_mem m hm2)) mid hPmid

/-- An entry found in the map is an entry of the map. -/
theorem mem_of_lookup_eq_some (trackDataCollection : List (Nat × TrackData)) (track : Nat)
    (trackData : TrackData) (h : trackDataCollection.lookup track = some trackData) :
    (track, trackData) ∈ trackDataCollection := by
  obtain ⟨l1, l2, hl, _⟩ := List.lookup_eq_some_iff.mp h
  rw [hl]
  simp

/-- The entries of the map after an insertion. -/
theorem mem_trackDataInsert (trackDataCollection : List (Nat × TrackData)) (track : Nat)
    (trackData : TrackData) (entry : Nat × TrackData)
    (h : entry ∈ trackDataInsert trackDataCollection track trackData) :
    entry ∈ trackDataCollection ∨ entry = (track, trackData) := by
  induction trackDataCollection with
  | nil =>
    simp only [trackDataInsert, List.mem_singleton] at h
    exact Or.inr h
  | cons first rest ih =>
    unfold trackDataInsert at h
    by_cases h1 : track < first.1
    · rw [if_pos h1] at h
      rcases List.mem_cons.mp h with h | h
      · exact Or.inr h
      · exact Or.inl h
    · rw [if_neg h1] at h
      by_cases h2 : first.1 < track
      · rw [if_pos h2] at h
        rcases List.mem_cons.mp h with h | h
        · exact Or.inl (h ▸ List.mem_cons_self _ _)
        · rcases ih h with h3 | h3
          · exact Or.inl (List.mem_cons_of_mem _ h3)
          · exact Or.inr h3
      · rw [if_neg h2] at h
        exact Or.inl h

/-- The entries of the map after a write through `trackField`. -/
theorem mem_trackDataAssign (trackDataCollection : List (Nat × TrackData)) (track : Nat)
    (trackData : TrackData) (entry : Nat × TrackData)
    (h : entry ∈ trackDataAssign trackDataCollection track trackData) :
    entry ∈ trackDataCollection ∨ entry = (track, trackData) := by
  unfold trackDataAssign at h
  obtain ⟨old, hold, heq⟩ := List.mem_map.mp h
  by_cases hk : old.1 = track
  · rw [if_pos hk, hk] at heq
    exact Or.inr heq.symm
  · rw [if_neg hk] at heq
    exact Or.inl (heq ▸ hold)

/-- A property of the entries of the map that holds for every new record and that every
measurement keeps holds for every entry of the map after the loop over the association, which
returns. -/
theorem getTrackDataLoop_preserves (env : Env) (tracks : Nat → Track)
    (vertexCollection : List Vertex) (minVertexSize_ : Nat) (P : Nat → TrackData → Prop)
    (trajTrackCollection : List TrajTrackPair)
    (hnew : ∀ track trackIndex,
      P track (newTrackData env (tracks track) vertexCollection minVertexSize_ trackIndex))
    (hstep : ∀ pair ∈ trajTrackCollection, ∀ m ∈ pair.key.measurements, ∀ trackField,
      P pair.val trackField →
      ∃ after, getTrackDataMeasurement env trackField m = some after ∧ P pair.val after)
    (st : List (Nat × TrackData) × Int) (hst : ∀ entry ∈ st.1, P entry.1 entry.2) :
    ∃ after, getTrackDataLoop env tracks vertexCollection minVertexSize_ trajTrackCollection
        st = some after ∧
      ∀ entry ∈ after.1, P entry.1 entry.2 := by
  induction trajTrackCollection generalizing st with
  | nil => exact ⟨st, rfl, hst⟩
  | cons pair rest ih =>
    have hbody : ∃ mid, getTrackDataLoopBody env tracks vertexCollection minVertexSize_ pair
        st = some mid ∧ ∀ entry ∈ mid.1, P entry.1 entry.2 := by
      unfold getTrackDataLoopBody
      cases hl : st.1.lookup pair.val with
      | some trackField =>
        have hP := hst _ (mem_of_lookup_eq_some _ _ _ hl)
        obtain ⟨after, hafter, hPafter⟩ := getTrackDataMeasurementLoop_preserves env
          (P pair.val) pair.key.measurements (hstep pair (List.mem_cons_self pair rest))
          trackField hP
        simp only [hl, hafter]
        refine ⟨_, rfl, ?_⟩
        intro entry hentry
        rcases mem_trackDataAssign _ _ _ _ hentry with h | h
        · exact hst entry h
        · rw [h]; exact hPafter
      | none =>
        obtain ⟨after, hafter, hPafter⟩ := getTrackDataMeasurementLoop_preserves env
          (P pair.val) pair.key.measurements (hstep pair (List.mem_cons_self pair rest))
          _ (hnew pair.val st.2)
        simp only [hl, hafter]
        refine ⟨_, rfl, ?_⟩
        intro entry hentry
        rcases mem_trackDataAssign _ _ _ _ hentry with h | h
        · rcases mem_trackDataInsert _ _ _ _ h with h2 | h2
          · exact hst entry h2
          · rw [h2]; exact hnew pair.val st.2
        · rw [h]; exact hPafter
    obtain ⟨mid, hmid, hPmid⟩ := hbody
    unfold getTrackDataLoop
    simp only [hmid]
    exact ih (fun p hp => hstep p (List.mem_cons_of_mem pair hp)) mid hPmid

/-- A new record has zeroed counters, which are consistent and balanced. -/
theorem newTrackData_counters (env : Env) (track : Track) (vertexCollection : List Vertex)
    (minVertexSize_ : Nat) (trackIndex : Int) :
    (newTrackData env track vertexCollection minVertexSize_ trackIndex).pixhit = [0, 0] ∧
    (newTrackData env track vertexCollection minVertexSize_ trackIndex).validpixhit = [0, 0] ∧
    (newTrackData env track vertexCollection minVertexSize_ trackIndex).fpix = [0, 0, 0] ∧
    (newTrackData env track vertexCollection minVertexSize_ trackIndex).validfpix =
      [0, 0, 0] ∧
    (newTrackData env track vertexCollection minVertexSize_ trackIndex).bpix =
      [0, 0, 0, 0] ∧
    (newTrackData env track vertexCollection minVertexSize_ trackIndex).validbpix =
      [0, 0, 0, 0] := by
  unfold newTrackData
  simp only []
  split
  · split <;> exact ⟨rfl, rfl, rfl, rfl, rfl, rfl⟩
  · exact ⟨rfl, rfl, rfl, rfl, rfl, rfl⟩

/-- C30: when every pixel measurement that `getTrackData` counts is on a barrel layer 1..4 or
on an endcap disk 1..3, `getTrackData` returns, and in every track record of the map it
returns the arrays have their sizes, each valid-hit counter is at most the total counter at
the same position (`validbpix[i] <= bpix[i]`, `validfpix[i] <= fpix[i]`,
`validpixhit[j] <= pixhit[j]`), and `pixhit[0] + pixhit[1]` is at most the sum of the `bpix`
and `fpix` counters; the two are equal when the barrel and the endcap are different
subdetectors and every counted pixel measurement of the trajectories of the track has a valid
combined state. -/
theorem getTrackData_counter_invariants (env : Env) (tracks : Nat → Track)
    (vertexCollection : List Vertex) (minVertexSize_ : Nat)
    (trajTrackCollection : TrajTrackAssociationCollection)
    (hrange : ∀ pair ∈ trajTrackCollection, ∀ m ∈ pair.key.measurements,
      onKnownLayerOrDisk env m) :
    ∃ trackDataCollection,
      getTrackData env tracks vertexCollection minVertexSize_ trajTrackCollection =
        some trackDataCollection ∧
      ∀ entry ∈ trackDataCollection,
        (entry.2.pixhit.length = 2 ∧ entry.2.validpixhit.length = 2 ∧
          entry.2.fpix.length = 3 ∧ entry.2.validfpix.length = 3 ∧
          entry.2.bpix.length = 4 ∧ entry.2.validbpix.length = 4 ∧
          List.Forall₂ (fun valid total => valid ≤ total) entry.2.validbpix entry.2.bpix ∧
          List.Forall₂ (fun valid total => valid ≤ total) entry.2.validfpix entry.2.fpix ∧
          List.Forall₂ (fun valid total => valid ≤ total) entry.2.validpixhit
            entry.2.pixhit ∧
          entry.2.pixhit.sum ≤ entry.2.bpix.sum + entry.2.fpix.sum) ∧
        (env.PixelBarrel ≠ env.PixelEndcap →
          (∀ pair ∈ trajTrackCollection, pair.val = entry.1 →
            ∀ m ∈ pair.key.measurements, countedWithCombinedState env m) →
          entry.2.pixhit.sum = entry.2.bpix.sum + entry.2.fpix.sum) := by
  obtain ⟨after, hafter, hP⟩ := getTrackDataLoop_preserves env tracks vertexCollection
    minVertexSize_
    (fun track trackData => countersConsistent trackData ∧
      (env.PixelBarrel ≠ env.PixelEndcap →
        (∀ pair ∈ trajTrackCollection, pair.val = track →
          ∀ m ∈ pair.key.measurements, countedWithCombinedState env m) →
        trackData.pixhit.sum = trackData.bpix.sum + trackData.fpix.sum))
    trajTrackCollection
    (by
      intro track trackIndex
      obtain ⟨n1, n2, n3, n4, n5, n6⟩ := newTrackData_counters env (tracks track)
        vertexCollection minVertexSize_ trackIndex
      refine ⟨?_, ?_⟩
      · unfold countersConsistent
        rw [n1, n2, n3, n4, n5, n6]
        refine ⟨rfl, rfl, rfl, rfl, rfl, rfl, ?_, ?_, ?_, by decide⟩
        · exact List.Forall₂.cons (le_refl _) (List.Forall₂.cons (le_refl _)
            (List.Forall₂.cons (le_refl _) (List.Forall₂.cons (le_refl _) List.Forall₂.nil)))
        · exact List.Forall₂.cons (le_refl _) (List.Forall₂.cons (le_refl _)
            (List.Forall₂.cons (le_refl _) List.Forall₂.nil))
        · exact List.Forall₂.cons (le_refl _) (List.Forall₂.cons (le_refl _)
            List.Forall₂.nil)
      · intro _ _
        rw [n1, n3, n5]
        decide)
    (by
      intro pair hpair m hm trackField hfield
      obtain ⟨hcons, heq⟩ := hfield
      obtain ⟨after, hafter, hcons2, heq2⟩ := getTrackDataMeasurement_consistent env
        trackField m hcons (hrange pair hpair m hm)
      refine ⟨after, hafter, hcons2, ?_⟩
      intro hne hall
      exact heq2 hne (hall pair hpair rfl m hm) (heq hne hall))
    ([], 0) (by intro entry hentry; simp at hentry)
  refine ⟨after.1, ?_, ?_⟩
  · unfold getTrackData
    rw [hafter]
    rfl
  · intro entry hentry
    exact hP entry hentry


/-- Witness of C30 on `demoTrackRecordsEvent`: `getTrackData` returns, every record it returns
has `pixhit[0] + pixhit[1]` at most the sum of its `bpix` and `fpix` counters, and the record
of track 0, whose counted measurements all have a valid combined state, has the two equal. -/
theorem getTrackData_counter_invariants_witness :
    ∃ trackDataCollection,
      getTrackData demoEnv demoTracks demoVertices 2 demoTrackRecordsEvent =
        some trackDataCollection ∧
      ∀ entry ∈ trackDataCollection,
        entry.2.pixhit.sum ≤ entry.2.bpix.sum + entry.2.fpix.sum ∧
        (entry.1 = 0 → entry.2.pixhit.sum = entry.2.bpix.sum + entry.2.fpix.sum) :=
  (getTrackData_counter_invariants demoEnv demoTracks demoVertices 2 demoTrackRecordsEvent
    (by simp only [onKnownLayerOrDisk]; decide!)).imp
    (fun _ h => ⟨h.1, fun entry hentry =>
      ⟨(h.2 entry hentry).1.2.2.2.2.2.2.2.2.2,
        fun hkey => (h.2 entry hentry).2 (by decide)
          (by rw [hkey]; simp only [countedWithCombinedState]; decide!)⟩⟩)

/-- The counters of `demoTrackRecordsEvent`: track 0 collects the five measurements of its
two trajectories, four of them with a valid hit; track 7 has one strip hit and one barrel
measurement on layer 4 that is in no top or bottom counter.  A measurement on an endcap disk
numbered 0 makes `getTrackData` write before the array `fpix`. -/
theorem getTrackData_counters_example :
    (getTrackData demoEnv demoTracks demoVertices 2 demoTrackRecordsEvent).map
        (fun trackDataCollection => trackDataCollection.map
          (fun entry => (entry.1, entry.2.pixhit, entry.2.validpixhit))) =
      some [(0, [5, 0], [4, 0]), (7, [0, 0], [0, 0])] ∧
    (getTrackData demoEnv demoTracks demoVertices 2 demoTrackRecordsEvent).map
        (fun trackDataCollection => trackDataCollection.map
          (fun entry => (entry.2.bpix, entry.2.validbpix, entry.2.strip))) =
      some [([1, 2, 2, 0], [0, 2, 2, 0], 0), ([0, 0, 0, 1], [0, 0, 0, 1], 1)] ∧
    getTrackData demoEnv demoTracks demoVertices 2
      [⟨⟨[demoMeasurement 0 0 (demoValidHit (demoEndcapId 1))]⟩, 0⟩] = none := by
  refine ⟨by decide!, by decide!, by decide!⟩

end PhaseIPixelNtuplizer
